import Mathlib

/-!
# Undo manager of the text editor component

A shallow embedding of `src/undo/kateundomanager.cpp` (class `KateUndoManager`).

* Vectors (`std::vector<KateUndoGroup>`) are lists; `back()` is the last element,
  `push_back` appends at the end, `pop_back` drops the last element.
* `std::optional<KateUndoGroup>` is `Option KateUndoGroup`.
* `Q_ASSERT` is modelled as in a debug build: a failing assertion aborts the
  operation, which then returns `none`.
* `Q_EMIT` appends the signal to the log `emitted` of the manager; the two
  signal-to-signal connections made in the constructor (`undoEnd` and `redoEnd`
  are both connected to `undoChanged`) are followed by `emit`.
* The document (`KTextEditor::DocumentPrivate`) is a collaborator whose state the
  manager reads and writes through `m_document`; it is carried inside the
  manager state.
* The pointers `lastUndoGroupWhenSaved` / `lastRedoGroupWhenSaved` hold the
  address of a vector element (`&undoItems.back()`); an address is modelled by
  the vector and the index of the slot (`GroupPtr`), the storage of a vector
  being taken not to move.  A `push_back` that exceeds the capacity of a
  `std::vector` moves its elements, and an address saved before then designates
  no element; in the concrete histories below whose outcome depends on the
  comparison with a saved address, the stack holding that address does not grow
  beyond a size it has had before, from the save to the comparison.
* The class `KateUndoGroup` and the struct `UndoItem` (kateundo.h / kateundo.cpp)
  are not among the sources.  Their data layout is modelled from the
  specification; their behaviour (`merge`, `addItem`, `undo`, `redo`, ...) is a
  parameter `GroupOps` of every operation of the manager, so that theorems
  stated for every `ops : GroupOps` hold whatever that code does.

Two further sections embed the comparison operators of
`src/include/ktexteditor/movingcursor.h` and the methods `readLine` and `eof` of
`src/buffer/katetextloader.h`.
-/

namespace KateUndo

/-- A `QString`, as the sequence of its characters. -/
abbrev QString := List Char

/-- A `QByteArray` (document checksum), as the sequence of its bytes. -/
abbrev QByteArray := List Nat

/-- Cursor of `KTextEditor::Cursor`: a line and a column. -/
structure Cursor where
  line : Int
  column : Int
deriving DecidableEq, Repr

/-- The value `KTextEditor::Cursor::invalid()`. -/
def Cursor.invalid : Cursor := ⟨-1, -1⟩

/-- Range of `KTextEditor::Range`: a start and an end cursor. -/
structure Range where
  start : Cursor
  stop : Cursor
deriving DecidableEq, Repr

/-- The value `KTextEditor::Range::invalid()`. -/
def Range.invalid : Range := ⟨Cursor.invalid, Cursor.invalid⟩

/-- Secondary cursor of `KTextEditor::ViewPrivate::PlainSecondaryCursor`: a position and a
selection range. -/
structure PlainSecondaryCursor where
  pos : Cursor
  range : Range
deriving DecidableEq, Repr

/-- What the manager reads from the active view. -/
structure View where
  cursorPosition : Cursor
  selectionRange : Range
  plainSecondaryCursors : List PlainSecondaryCursor
deriving DecidableEq, Repr

/-- A text line (`Kate::TextLine`) as far as the manager reads it: its text and its two
modification marks. -/
structure TextLine where
  text : QString
  markedAsModified : Bool
  markedAsSavedOnDisk : Bool
  autoWrapped : Bool
deriving DecidableEq, Repr

/-- Length of the text of a line, `TextLine::length()`. -/
def TextLine.length (tl : TextLine) : Int := tl.text.length

/-- The document collaborator as far as the manager uses it. -/
structure Document where
  textLines : List TextLine
  modified : Bool
  checksum : QByteArray
  activeView : Option View
  isEditRunning : Bool
deriving DecidableEq, Repr

/-- Line lookup `DocumentPrivate::plainKateTextLine(line)`: the line, or null when the index is
out of range. -/
def Document.plainKateTextLine (d : Document) (line : Int) : Option TextLine :=
  if 0 ≤ line then d.textLines.get? line.toNat else none

/-- Number of lines, `DocumentPrivate::lines()`. -/
def Document.lines (d : Document) : Nat := d.textLines.length

/-- The flag set `UndoItem::ModificationFlags`, one boolean per flag named in the source. -/
structure ModificationFlags where
  UndoLine1Modified : Bool
  UndoLine2Modified : Bool
  UndoLine1Saved : Bool
  UndoLine2Saved : Bool
  RedoLine1Modified : Bool
  RedoLine2Modified : Bool
  RedoLine1Saved : Bool
  RedoLine2Saved : Bool
deriving DecidableEq, Repr

/-- The empty flag set. -/
def ModificationFlags.none : ModificationFlags :=
  ⟨false, false, false, false, false, false, false, false⟩

/-- The kinds `UndoItem::UndoType` assigned by the notification handlers. -/
inductive UndoType where
  | editInsertText
  | editRemoveText
  | editWrapLine
  | editUnWrapLine
  | editInsertLine
  | editRemoveLine
  | editMarkLineAutoWrapped
  | editInvalid
deriving DecidableEq, Repr

/-- Modelled from the spec: the struct `UndoItem` (declared in kateundo.h, which is not among the
sources).  The fields are the ones the handlers of the manager assign. -/
structure UndoItem where
  type : UndoType
  line : Int
  col : Int
  text : QString
  autowrapped : Bool
  newLine : Bool
  removeLine : Bool
  len : Int
  lineModFlags : ModificationFlags
deriving DecidableEq, Repr

/-- A default-constructed item, `UndoItem item;`. -/
def UndoItem.default : UndoItem :=
  ⟨UndoType.editInvalid, 0, 0, [], false, false, false, 0, ModificationFlags.none⟩

/-- Modelled from the spec: the data of the class `KateUndoGroup` (kateundo.h is not among the
sources), as listed in the data model of the specification. -/
structure KateUndoGroup where
  items : List UndoItem
  cursorBefore : Cursor
  selectionBefore : Range
  secondaryCursorsBefore : List PlainSecondaryCursor
  cursorAfter : Cursor
  selectionAfter : Range
  secondaryCursorsAfter : List PlainSecondaryCursor
  undoCursor : Cursor
  redoCursor : Cursor
  safePoint : Bool
deriving DecidableEq, Repr

/-- Modelled from the spec: the constructor `KateUndoGroup(cursor, selection, secondary)`, which
opens a group with the given "before" snapshot and no item. -/
def KateUndoGroup.new (c : Cursor) (r : Range) (sec : List PlainSecondaryCursor) : KateUndoGroup :=
  ⟨[], c, r, sec, Cursor.invalid, Range.invalid, [], Cursor.invalid, Cursor.invalid, false⟩

/-- Modelled from the spec: `KateUndoGroup::editEnd`, which captures the "after" snapshot. -/
def KateUndoGroup.editEnd (g : KateUndoGroup) (c : Cursor) (r : Range)
    (sec : List PlainSecondaryCursor) : KateUndoGroup :=
  { g with cursorAfter := c, selectionAfter := r, secondaryCursorsAfter := sec }

/-- Modelled from the spec: `KateUndoGroup::isEmpty`, true for a group with zero items. -/
def KateUndoGroup.isEmpty (g : KateUndoGroup) : Bool := g.items.isEmpty

/-- Modelled from the spec: `KateUndoGroup::safePoint()`, which marks the group as a safe
point. -/
def KateUndoGroup.markSafePoint (g : KateUndoGroup) : KateUndoGroup :=
  { g with safePoint := true }

/-- Modelled from the spec: `KateUndoGroup::setUndoCursor`. -/
def KateUndoGroup.setUndoCursor (g : KateUndoGroup) (c : Cursor) : KateUndoGroup :=
  { g with undoCursor := c }

/-- Modelled from the spec: `KateUndoGroup::setRedoCursor`. -/
def KateUndoGroup.setRedoCursor (g : KateUndoGroup) (c : Cursor) : KateUndoGroup :=
  { g with redoCursor := c }

/-- A bit array `QBitArray`, one boolean per document line. -/
abbrev QBitArray := List Bool

/-- The behaviour of `KateUndoGroup` that the manager calls and whose code is not among the
sources.  It is a parameter of the manager.

* `merge top newGroup complex` is `top.merge(&newGroup, complex)`: the group `top` after the call
  and the returned boolean;
* `addItem g item` is `g.addItem(item)`;
* `undo g doc` and `redo g doc` replay the group against the document;
* `flagSavedAsModified`, `markRedoAsSaved`, `markUndoAsSaved` are the sweeps used by
  `updateLineModifications`. -/
structure GroupOps where
  merge : KateUndoGroup → KateUndoGroup → Bool → KateUndoGroup × Bool
  addItem : KateUndoGroup → UndoItem → KateUndoGroup
  undo : KateUndoGroup → Document → Document
  redo : KateUndoGroup → Document → Document
  flagSavedAsModified : KateUndoGroup → KateUndoGroup
  markRedoAsSaved : KateUndoGroup → QBitArray → KateUndoGroup × QBitArray
  markUndoAsSaved : KateUndoGroup → QBitArray → KateUndoGroup × QBitArray

/-- The signals of `KateUndoManager`. -/
inductive Signal where
  | undoChanged
  | undoStart
  | undoEnd
  | redoStart
  | redoEnd
  | isActiveChanged (enabled : Bool)
deriving DecidableEq, Repr

/-- Address of an element of one of the two stacks: the stack and the index of the slot. -/
inductive GroupPtr where
  | undoSlot (i : Nat)
  | redoSlot (i : Nat)
deriving DecidableEq, Repr

/-- The single flags of `UndoItem::ModificationFlag`. -/
inductive ModificationFlag where
  | UndoLine1Modified
  | UndoLine2Modified
  | UndoLine1Saved
  | UndoLine2Saved
  | RedoLine1Modified
  | RedoLine2Modified
  | RedoLine1Saved
  | RedoLine2Saved
deriving DecidableEq, Repr

/-- Setting one flag, `lineModFlags.setFlag(f)`. -/
def ModificationFlags.setFlag (fs : ModificationFlags) : ModificationFlag → ModificationFlags
  | .UndoLine1Modified => { fs with UndoLine1Modified := true }
  | .UndoLine2Modified => { fs with UndoLine2Modified := true }
  | .UndoLine1Saved => { fs with UndoLine1Saved := true }
  | .UndoLine2Saved => { fs with UndoLine2Saved := true }
  | .RedoLine1Modified => { fs with RedoLine1Modified := true }
  | .RedoLine2Modified => { fs with RedoLine2Modified := true }
  | .RedoLine1Saved => { fs with RedoLine1Saved := true }
  | .RedoLine2Saved => { fs with RedoLine2Saved := true }

/-- Setting one flag of an item, `item.lineModFlags.setFlag(f)`. -/
def UndoItem.setFlag (item : UndoItem) (f : ModificationFlag) : UndoItem :=
  { item with lineModFlags := item.lineModFlags.setFlag f }

/-- Applying a function to the last element of a vector, for `v.back().f()`. -/
def modifyBack {α : Type} (f : α → α) (l : List α) : List α :=
  match l.getLast? with
  | some x => l.dropLast ++ [f x]
  | none => l

/-- The state of a `KateUndoManager`, with the document it belongs to and the log of the signals
it has emitted. -/
structure KateUndoManager where
  m_document : Document
  m_undoComplexMerge : Bool
  m_isActive : Bool
  m_editCurrentUndo : Option KateUndoGroup
  undoItems : List KateUndoGroup
  redoItems : List KateUndoGroup
  lastUndoGroupWhenSaved : Option GroupPtr
  lastRedoGroupWhenSaved : Option GroupPtr
  docWasSavedWhenUndoWasEmpty : Bool
  docWasSavedWhenRedoWasEmpty : Bool
  savedUndoItems : List KateUndoGroup
  savedRedoItems : List KateUndoGroup
  docChecksumBeforeReload : QByteArray
  emitted : List Signal
deriving DecidableEq, Repr

namespace KateUndoManager

/-- Emission `Q_EMIT sig`: the signal is logged, followed by `undoChanged` when the signal is
`undoEnd` or `redoEnd` (the connections made in the constructor). -/
def emit (m : KateUndoManager) (sig : Signal) : KateUndoManager :=
  match sig with
  | .undoEnd => { m with emitted := m.emitted ++ [Signal.undoEnd, Signal.undoChanged] }
  | .redoEnd => { m with emitted := m.emitted ++ [Signal.redoEnd, Signal.undoChanged] }
  | s => { m with emitted := m.emitted ++ [s] }

/-- The handler of `aboutToReload` installed by the constructor.  A moved-from vector is
empty. -/
def aboutToReload (m : KateUndoManager) : KateUndoManager :=
  { m with
    savedUndoItems := m.undoItems
    undoItems := []
    savedRedoItems := m.redoItems
    redoItems := []
    docChecksumBeforeReload := m.m_document.checksum }

/-- The handler of `loaded` installed by the constructor; `doc` is the document pointer carried
by the signal (`none` for a null pointer). -/
def loaded (m : KateUndoManager) (doc : Option Document) : KateUndoManager :=
  let restore : Bool :=
    match doc with
    | some d => !d.checksum.isEmpty && !m.docChecksumBeforeReload.isEmpty
                  && d.checksum == m.docChecksumBeforeReload
    | none => false
  let m1 : KateUndoManager :=
    if restore then
      emit { m with
             undoItems := m.savedUndoItems
             savedUndoItems := []
             redoItems := m.savedRedoItems
             savedRedoItems := [] } Signal.undoChanged
    else m
  { m1 with docChecksumBeforeReload := [], savedUndoItems := [], savedRedoItems := [] }

/-- The active view `activeView()`, null when the document has none. -/
def activeView (m : KateUndoManager) : Option View := m.m_document.activeView

/-- The cursor snapshot taken by `editStart` and `editEnd`. -/
def snapshotCursor (m : KateUndoManager) : Cursor :=
  match m.activeView with
  | some v => v.cursorPosition
  | none => Cursor.invalid

/-- The selection snapshot taken by `editStart` and `editEnd`. -/
def snapshotSelection (m : KateUndoManager) : Range :=
  match m.activeView with
  | some v => v.selectionRange
  | none => Range.invalid

/-- The secondary cursors snapshot taken by `editStart` and `editEnd`. -/
def snapshotSecondary (m : KateUndoManager) : List PlainSecondaryCursor :=
  match m.activeView with
  | some v => v.plainSecondaryCursors
  | none => []

/-- Method `KateUndoManager::editStart`. -/
def editStart (m : KateUndoManager) : Option KateUndoManager :=
  if !m.m_isActive then some m
  else if m.m_editCurrentUndo.isSome then none
  else
    some { m with
           m_editCurrentUndo :=
             some (KateUndoGroup.new m.snapshotCursor m.snapshotSelection m.snapshotSecondary) }

/-- Method `KateUndoManager::editEnd`. -/
def editEnd (ops : GroupOps) (m : KateUndoManager) : Option KateUndoManager :=
  if !m.m_isActive then some m
  else
    match m.m_editCurrentUndo with
    | none => none
    | some open0 =>
      let cur := open0.editEnd m.snapshotCursor m.snapshotSelection m.snapshotSecondary
      if cur.isEmpty then
        some { m with m_editCurrentUndo := none }
      else
        match m.undoItems.getLast? with
        | some top =>
          let r := ops.merge top cur m.m_undoComplexMerge
          let m1 := { m with undoItems := m.undoItems.dropLast ++ [r.1] }
          if r.2 then
            some { m1 with m_editCurrentUndo := none }
          else
            some (emit { m1 with undoItems := m1.undoItems ++ [cur], m_editCurrentUndo := none }
                    Signal.undoChanged)
        | none =>
          some (emit { m with undoItems := m.undoItems ++ [cur], m_editCurrentUndo := none }
                  Signal.undoChanged)

/-- Method `KateUndoManager::addUndoItem`. -/
def addUndoItem (ops : GroupOps) (m : KateUndoManager) (undo : UndoItem) :
    Option KateUndoManager :=
  match m.m_editCurrentUndo with
  | none => none
  | some g => some { m with m_editCurrentUndo := some (ops.addItem g undo), redoItems := [] }

/-- Method `KateUndoManager::slotTextInserted`. -/
def slotTextInserted (ops : GroupOps) (m : KateUndoManager) (line col : Int) (s : QString) :
    Option KateUndoManager :=
  if m.m_editCurrentUndo.isNone || s.isEmpty then some m
  else
    let item := { UndoItem.default with
                  type := UndoType.editInsertText, line := line, col := col, text := s }
    let item := item.setFlag .RedoLine1Modified
    match m.m_document.plainKateTextLine line with
    | none => none
    | some tl =>
      let item := if tl.markedAsModified then item.setFlag .UndoLine1Modified
                  else item.setFlag .UndoLine1Saved
      addUndoItem ops m item

/-- Method `KateUndoManager::slotTextRemoved`. -/
def slotTextRemoved (ops : GroupOps) (m : KateUndoManager) (line col : Int) (s : QString) :
    Option KateUndoManager :=
  if m.m_editCurrentUndo.isNone || s.isEmpty then some m
  else
    let item := { UndoItem.default with
                  type := UndoType.editRemoveText, line := line, col := col, text := s }
    let item := item.setFlag .RedoLine1Modified
    match m.m_document.plainKateTextLine line with
    | none => none
    | some tl =>
      let item := if tl.markedAsModified then item.setFlag .UndoLine1Modified
                  else item.setFlag .UndoLine1Saved
      addUndoItem ops m item

/-- Method `KateUndoManager::slotMarkLineAutoWrapped`. -/
def slotMarkLineAutoWrapped (ops : GroupOps) (m : KateUndoManager) (line : Int)
    (autowrapped : Bool) : Option KateUndoManager :=
  if m.m_editCurrentUndo.isSome then
    let item := { UndoItem.default with
                  type := UndoType.editMarkLineAutoWrapped, line := line,
                  autowrapped := autowrapped }
    addUndoItem ops m item
  else some m

/-- Method `KateUndoManager::slotLineWrapped`. -/
def slotLineWrapped (ops : GroupOps) (m : KateUndoManager) (line col length : Int)
    (newLine : Bool) : Option KateUndoManager :=
  if m.m_editCurrentUndo.isNone then some m
  else
    let item := { UndoItem.default with
                  type := UndoType.editWrapLine, line := line, col := col, len := length,
                  newLine := newLine }
    match m.m_document.plainKateTextLine line with
    | none => none
    | some tl =>
      let item :=
        if 0 < length ∨ tl.markedAsModified = true then item.setFlag .RedoLine1Modified
        else if tl.markedAsSavedOnDisk then item.setFlag .RedoLine1Saved
        else item
      let item :=
        if 0 < col ∨ length = 0 ∨ tl.markedAsModified = true then item.setFlag .RedoLine2Modified
        else if tl.markedAsSavedOnDisk then item.setFlag .RedoLine2Saved
        else item
      let item :=
        if tl.markedAsModified then item.setFlag .UndoLine1Modified
        else if (0 < length ∧ 0 < col) ∨ tl.markedAsSavedOnDisk = true then
          item.setFlag .UndoLine1Saved
        else item
      addUndoItem ops m item

/-- Method `KateUndoManager::slotLineUnWrapped`. -/
def slotLineUnWrapped (ops : GroupOps) (m : KateUndoManager) (line col length : Int)
    (lineRemoved : Bool) : Option KateUndoManager :=
  if m.m_editCurrentUndo.isNone then some m
  else
    let item := { UndoItem.default with
                  type := UndoType.editUnWrapLine, line := line, col := col, len := length,
                  removeLine := lineRemoved }
    match m.m_document.plainKateTextLine line, m.m_document.plainKateTextLine (line + 1) with
    | some tl, some nextLine =>
      let len1 := tl.length
      let len2 := nextLine.length
      let item :=
        if 0 < len1 ∧ 0 < len2 then
          let item := item.setFlag .RedoLine1Modified
          let item := if tl.markedAsModified then item.setFlag .UndoLine1Modified
                      else item.setFlag .UndoLine1Saved
          if nextLine.markedAsModified then item.setFlag .UndoLine2Modified
          else item.setFlag .UndoLine2Saved
        else if len1 = 0 then
          let item := if nextLine.markedAsModified then item.setFlag .RedoLine1Modified
                      else if nextLine.markedAsSavedOnDisk then item.setFlag .RedoLine1Saved
                      else item
          let item := if tl.markedAsModified then item.setFlag .UndoLine1Modified
                      else item.setFlag .UndoLine1Saved
          if nextLine.markedAsModified then item.setFlag .UndoLine2Modified
          else if nextLine.markedAsSavedOnDisk then item.setFlag .UndoLine2Saved
          else item
        else
          let item := if nextLine.markedAsModified then item.setFlag .RedoLine1Modified
                      else if nextLine.markedAsSavedOnDisk then item.setFlag .RedoLine1Saved
                      else item
          let item := if tl.markedAsModified then item.setFlag .UndoLine1Modified
                      else if tl.markedAsSavedOnDisk then item.setFlag .UndoLine1Saved
                      else item
          if nextLine.markedAsModified then item.setFlag .UndoLine2Modified
          else item.setFlag .UndoLine2Saved
      addUndoItem ops m item
    | _, _ => none

/-- Method `KateUndoManager::slotLineInserted`. -/
def slotLineInserted (ops : GroupOps) (m : KateUndoManager) (line : Int) (s : QString) :
    Option KateUndoManager :=
  if m.m_editCurrentUndo.isSome then
    let item := { UndoItem.default with
                  type := UndoType.editInsertLine, line := line, text := s }
    let item := item.setFlag .RedoLine1Modified
    addUndoItem ops m item
  else some m

/-- Method `KateUndoManager::slotLineRemoved`. -/
def slotLineRemoved (ops : GroupOps) (m : KateUndoManager) (line : Int) (s : QString) :
    Option KateUndoManager :=
  if m.m_editCurrentUndo.isSome then
    let item := { UndoItem.default with
                  type := UndoType.editRemoveLine, line := line, text := s }
    let item := item.setFlag .RedoLine1Modified
    match m.m_document.plainKateTextLine line with
    | none => none
    | some tl =>
      let item := if tl.markedAsModified then item.setFlag .UndoLine1Modified
                  else item.setFlag .UndoLine1Saved
      addUndoItem ops m item
  else some m

/-- Method `KateUndoManager::undoSafePoint`. -/
def undoSafePoint (m : KateUndoManager) : KateUndoManager :=
  match m.m_editCurrentUndo with
  | none => { m with undoItems := modifyBack KateUndoGroup.markSafePoint m.undoItems }
  | some g => { m with m_editCurrentUndo := some g.markSafePoint }

/-- Method `KateUndoManager::undoCancel`. -/
def undoCancel (m : KateUndoManager) : KateUndoManager :=
  if m.m_document.isEditRunning then m else undoSafePoint m

/-- Method `KateUndoManager::setActive`. -/
def setActive (m : KateUndoManager) (enabled : Bool) : Option KateUndoManager :=
  if m.m_editCurrentUndo.isSome then none
  else if m.m_isActive = enabled then none
  else some (emit { m with m_isActive := enabled } (Signal.isActiveChanged enabled))

/-- Method `KateUndoManager::undoCount`. -/
def undoCount (m : KateUndoManager) : Nat := m.undoItems.length

/-- Method `KateUndoManager::redoCount`. -/
def redoCount (m : KateUndoManager) : Nat := m.redoItems.length

/-- Method `KateUndoManager::setModified`. -/
def setModified (m : KateUndoManager) (modified : Bool) : KateUndoManager :=
  if !modified then
    let m1 := if !m.undoItems.isEmpty then
                { m with lastUndoGroupWhenSaved := some (GroupPtr.undoSlot (m.undoItems.length - 1)) }
              else m
    let m2 := if !m1.redoItems.isEmpty then
                { m1 with lastRedoGroupWhenSaved := some (GroupPtr.redoSlot (m1.redoItems.length - 1)) }
              else m1
    { m2 with
      docWasSavedWhenUndoWasEmpty := m2.undoItems.isEmpty
      docWasSavedWhenRedoWasEmpty := m2.redoItems.isEmpty }
  else m

/-- The call `m_document->setModified(b)` made by the manager: the document takes the flag and,
as the source notes, calls `KateUndoManager::setModified`. -/
def documentSetModified (m : KateUndoManager) (b : Bool) : KateUndoManager :=
  setModified { m with m_document := { m.m_document with modified := b } } b

/-- The table `patterns` of `updateModified`. -/
def patterns : List Nat := [5, 16, 21, 24, 26, 88, 90, 93, 133, 144, 149, 154, 165]

/-- The pointer `undoLast` of `updateModified`. -/
def undoLast (m : KateUndoManager) : Option GroupPtr :=
  if m.undoItems.isEmpty then none else some (GroupPtr.undoSlot (m.undoItems.length - 1))

/-- The pointer `redoLast` of `updateModified`. -/
def redoLast (m : KateUndoManager) : Option GroupPtr :=
  if m.redoItems.isEmpty then none else some (GroupPtr.redoSlot (m.redoItems.length - 1))

/-- The value of `currentPattern` computed by `updateModified`. -/
def currentPattern (m : KateUndoManager) : Nat :=
  let p := 0
  let p := if m.undoItems.isEmpty then p ||| 1 else p
  let p := if m.redoItems.isEmpty then p ||| 2 else p
  let p := if m.docWasSavedWhenUndoWasEmpty then p ||| 4 else p
  let p := if m.docWasSavedWhenRedoWasEmpty then p ||| 8 else p
  let p := if m.lastUndoGroupWhenSaved = m.undoLast then p ||| 16 else p
  let p := if m.lastUndoGroupWhenSaved = m.redoLast then p ||| 32 else p
  let p := if m.lastRedoGroupWhenSaved = m.undoLast then p ||| 64 else p
  let p := if m.lastRedoGroupWhenSaved = m.redoLast then p ||| 128 else p
  p

/-- Method `KateUndoManager::updateModified`. -/
def updateModified (m : KateUndoManager) : KateUndoManager :=
  if m.currentPattern ∈ patterns then undoSafePoint (documentSetModified m false)
  else m

/-- Method `KateUndoManager::undo`. -/
def undo (ops : GroupOps) (m : KateUndoManager) : Option KateUndoManager :=
  if m.m_editCurrentUndo.isSome then none
  else
    match m.undoItems.getLast? with
    | none => some m
    | some g =>
      let m1 := emit m Signal.undoStart
      let m2 := { m1 with m_document := ops.undo g m1.m_document }
      let m3 := { m2 with redoItems := m2.redoItems ++ [g], undoItems := m2.undoItems.dropLast }
      some (emit (updateModified m3) Signal.undoEnd)

/-- Method `KateUndoManager::redo`. -/
def redo (ops : GroupOps) (m : KateUndoManager) : Option KateUndoManager :=
  if m.m_editCurrentUndo.isSome then none
  else
    match m.redoItems.getLast? with
    | none => some m
    | some g =>
      let m1 := emit m Signal.redoStart
      let m2 := { m1 with m_document := ops.redo g m1.m_document }
      let m3 := { m2 with undoItems := m2.undoItems ++ [g], redoItems := m2.redoItems.dropLast }
      some (emit (updateModified m3) Signal.redoEnd)

/-- Method `KateUndoManager::clearUndo`. -/
def clearUndo (m : KateUndoManager) : KateUndoManager :=
  emit { m with undoItems := [], lastUndoGroupWhenSaved := none,
                docWasSavedWhenUndoWasEmpty := false } Signal.undoChanged

/-- Method `KateUndoManager::clearRedo`. -/
def clearRedo (m : KateUndoManager) : KateUndoManager :=
  emit { m with redoItems := [], lastRedoGroupWhenSaved := none,
                docWasSavedWhenRedoWasEmpty := false } Signal.undoChanged

/-- One of the two backward loops of `updateLineModifications`: the groups are visited from the
last one to the first one, the bit array being handed from one call to the next. -/
def sweepBackward (f : KateUndoGroup → QBitArray → KateUndoGroup × QBitArray) :
    List KateUndoGroup → QBitArray → List KateUndoGroup × QBitArray
  | [], lines => ([], lines)
  | g :: rest, lines =>
    let r := sweepBackward f rest lines
    let r2 := f g r.2
    (r2.1 :: r.1, r2.2)

/-- Method `KateUndoManager::updateLineModifications`. -/
def updateLineModifications (ops : GroupOps) (m : KateUndoManager) : KateUndoManager :=
  let undo1 := m.undoItems.map ops.flagSavedAsModified
  let redo1 := m.redoItems.map ops.flagSavedAsModified
  let lines : QBitArray := List.replicate m.m_document.lines false
  let swept := sweepBackward ops.markRedoAsSaved undo1 lines
  let lines : QBitArray := swept.2.map (fun _ => false)
  let redo2 := (sweepBackward ops.markUndoAsSaved redo1 lines).1
  { m with undoItems := swept.1, redoItems := redo2 }

/-- Method `KateUndoManager::setUndoRedoCursorsOfLastGroup`. -/
def setUndoRedoCursorsOfLastGroup (m : KateUndoManager) (undoCursor redoCursor : Cursor) :
    Option KateUndoManager :=
  if m.m_editCurrentUndo.isSome then none
  else
    some { m with
           undoItems :=
             modifyBack (fun last => (last.setUndoCursor undoCursor).setRedoCursor redoCursor)
               m.undoItems }

/-- Method `KateUndoManager::lastRedoCursor`; the value read from the last group is not
returned by the source. -/
def lastRedoCursor (m : KateUndoManager) : Option Cursor :=
  if m.m_editCurrentUndo.isSome then none
  else some Cursor.invalid

/-- Method `KateUndoManager::updateConfig`. -/
def updateConfig (m : KateUndoManager) : KateUndoManager := emit m Signal.undoChanged

/-- Method `KateUndoManager::setAllowComplexMerge`. -/
def setAllowComplexMerge (m : KateUndoManager) (allow : Bool) : KateUndoManager :=
  { m with m_undoComplexMerge := allow }

/-- Methods `KateUndoManager::inputMethodStart` and `KateUndoManager::startUndo`:
`setActive(false)` followed by `m_document->editStart()`.  The document forwards its
`editStart()` to the manager at most once, where it does nothing since the manager
has just been made inactive. -/
def startUndo (m : KateUndoManager) : Option KateUndoManager :=
  (setActive m false).bind editStart

/-- Methods `KateUndoManager::inputMethodEnd` and `KateUndoManager::endUndo`:
`m_document->editEnd()` (forwarded to the manager at most once) followed by
`setActive(true)`. -/
def endUndo (ops : GroupOps) (m : KateUndoManager) : Option KateUndoManager :=
  (editEnd ops m).bind (fun m1 => setActive m1 true)

/-- Modelled from the spec: a newly constructed manager (kateundomanager.h is not among the
sources): active, no open group, empty stacks, null save-point references. -/
def new (doc : Document) : KateUndoManager :=
  { m_document := doc
    m_undoComplexMerge := false
    m_isActive := true
    m_editCurrentUndo := none
    undoItems := []
    redoItems := []
    lastUndoGroupWhenSaved := none
    lastRedoGroupWhenSaved := none
    docWasSavedWhenUndoWasEmpty := true
    docWasSavedWhenRedoWasEmpty := true
    savedUndoItems := []
    savedRedoItems := []
    docChecksumBeforeReload := []
    emitted := [] }

/-- The entry points of the manager: its public methods, the slots the document notifies, the
two reload handlers, and `documentChanged`, which stands for the document collaborator changing
its own state (text, marks, view, checksum) between two calls. -/
inductive Call where
  | editStart
  | editEnd
  | slotTextInserted (line col : Int) (s : QString)
  | slotTextRemoved (line col : Int) (s : QString)
  | slotMarkLineAutoWrapped (line : Int) (autowrapped : Bool)
  | slotLineWrapped (line col length : Int) (newLine : Bool)
  | slotLineUnWrapped (line col length : Int) (lineRemoved : Bool)
  | slotLineInserted (line : Int) (s : QString)
  | slotLineRemoved (line : Int) (s : QString)
  | undoCancel
  | undoSafePoint
  | setActive (enabled : Bool)
  | undo
  | redo
  | updateModified
  | clearUndo
  | clearRedo
  | setModified (modified : Bool)
  | updateLineModifications
  | setUndoRedoCursorsOfLastGroup (undoCursor redoCursor : Cursor)
  | updateConfig
  | setAllowComplexMerge (allow : Bool)
  | startUndo
  | endUndo
  | aboutToReload
  | loaded (doc : Option Document)
  | documentChanged (doc : Document)
deriving DecidableEq, Repr

/-- The primitive-edit notifications among the calls. -/
def Call.isNotification : Call → Bool
  | .slotTextInserted _ _ _ => true
  | .slotTextRemoved _ _ _ => true
  | .slotMarkLineAutoWrapped _ _ => true
  | .slotLineWrapped _ _ _ _ => true
  | .slotLineUnWrapped _ _ _ _ => true
  | .slotLineInserted _ _ => true
  | .slotLineRemoved _ _ => true
  | _ => false

/-- The two reload notifications among the calls. -/
def Call.isReload : Call → Bool
  | .aboutToReload => true
  | .loaded _ => true
  | _ => false

/-- The document changing its own state among the calls. -/
def Call.isDocumentChanged : Call → Bool
  | .documentChanged _ => true
  | _ => false

/-- Running one call; `none` when an assertion of the called method fails. -/
def run (ops : GroupOps) (c : Call) (m : KateUndoManager) : Option KateUndoManager :=
  match c with
  | .editStart => m.editStart
  | .editEnd => m.editEnd ops
  | .slotTextInserted line col s => m.slotTextInserted ops line col s
  | .slotTextRemoved line col s => m.slotTextRemoved ops line col s
  | .slotMarkLineAutoWrapped line b => m.slotMarkLineAutoWrapped ops line b
  | .slotLineWrapped line col length newLine => m.slotLineWrapped ops line col length newLine
  | .slotLineUnWrapped line col length removed => m.slotLineUnWrapped ops line col length removed
  | .slotLineInserted line s => m.slotLineInserted ops line s
  | .slotLineRemoved line s => m.slotLineRemoved ops line s
  | .undoCancel => some m.undoCancel
  | .undoSafePoint => some m.undoSafePoint
  | .setActive enabled => m.setActive enabled
  | .undo => m.undo ops
  | .redo => m.redo ops
  | .updateModified => some m.updateModified
  | .clearUndo => some m.clearUndo
  | .clearRedo => some m.clearRedo
  | .setModified modified => some (m.setModified modified)
  | .updateLineModifications => some (m.updateLineModifications ops)
  | .setUndoRedoCursorsOfLastGroup u r => m.setUndoRedoCursorsOfLastGroup u r
  | .updateConfig => some m.updateConfig
  | .setAllowComplexMerge allow => some (m.setAllowComplexMerge allow)
  | .startUndo => m.startUndo
  | .endUndo => m.endUndo ops
  | .aboutToReload => some m.aboutToReload
  | .loaded doc => some (m.loaded doc)
  | .documentChanged doc => some { m with m_document := doc }

/-- Running a sequence of calls from left to right. -/
def runAll (ops : GroupOps) : List Call → KateUndoManager → Option KateUndoManager
  | [], m => some m
  | c :: cs, m => (run ops c m).bind (runAll ops cs)

/-- The states a manager can be in: a newly constructed manager, followed by calls none of whose
assertions fails.  The document reloads outside edit brackets, so the two reload notifications
arrive while no group is open. -/
inductive Reachable (ops : GroupOps) : KateUndoManager → Prop where
  | init (doc : Document) : Reachable ops (KateUndoManager.new doc)
  | step (c : Call) (m m2 : KateUndoManager) :
      Reachable ops m → (c.isReload = true → m.m_editCurrentUndo = none) →
      run ops c m = some m2 → Reachable ops m2

end KateUndoManager

/-! ## Moving cursors

A shallow embedding of the comparison operators of `src/include/ktexteditor/movingcursor.h`
(class `KTextEditor::MovingCursor`).  A moving cursor is seen through its two pure virtual
accessors `line()` and `column()`, which return an `int`. -/

/-- Class `KTextEditor::MovingCursor`, as the values of `line()` and `column()`. -/
structure MovingCursor where
  line : Int
  column : Int
deriving DecidableEq, Repr

/-- Method `MovingCursor::isValid`. -/
def MovingCursor.isValid (c : MovingCursor) : Bool :=
  decide (c.line ≥ 0) && decide (c.column ≥ 0)

/-- Equality operator `operator==` of `MovingCursor`. -/
def MovingCursor.eq (c1 c2 : MovingCursor) : Bool :=
  decide (c1.line = c2.line) && decide (c1.column = c2.column)

/-- Inequality operator `operator!=` of `MovingCursor`. -/
def MovingCursor.ne (c1 c2 : MovingCursor) : Bool := !(c1.eq c2)

/-- Greater than operator `operator>` of `MovingCursor`. -/
def MovingCursor.gt (c1 c2 : MovingCursor) : Bool :=
  decide (c1.line > c2.line) || (decide (c1.line = c2.line) && decide (c1.column > c2.column))

/-- Greater than or equal to operator `operator>=` of `MovingCursor`. -/
def MovingCursor.ge (c1 c2 : MovingCursor) : Bool :=
  decide (c1.line > c2.line) || (decide (c1.line = c2.line) && decide (c1.column ≥ c2.column))

/-- Less than operator `operator<` of `MovingCursor`. -/
def MovingCursor.lt (c1 c2 : MovingCursor) : Bool := !(c1.ge c2)

/-- Less than or equal to operator `operator<=` of `MovingCursor`. -/
def MovingCursor.le (c1 c2 : MovingCursor) : Bool := !(c1.gt c2)

/-! ## Text loader

A shallow embedding of `Kate::TextLoader::readLine` and `Kate::TextLoader::eof` of
`src/buffer/katetextloader.h`.

* The file and the decoder are collaborators: `m_file` is the list of the reads that the file
  will still answer with data (`c > 0`), each with the text the decoder makes of the bytes;
  once the list is exhausted a read answers `c == 0`.
* `m_converterState` is kept as its validity; whether the detection of a codec succeeds on
  the data of a read is a field of that read.
* The checksum `m_digest` is left out: `readLine` only feeds it.
* `readLine` returns the two reference parameters `offset` and `length` together with its
  boolean result. -/

/-- Values of `TextBuffer::EndOfLineMode`. -/
inductive EndOfLineMode where
  | eolUnknown
  | eolUnix
  | eolDos
  | eolMac
deriving DecidableEq, Repr

/-- One read of the file that returns data: the text decoded from the bytes read. -/
structure FileRead where
  unicode : QString
  hasError : Bool
  codecDetected : Bool
deriving DecidableEq, Repr

/-- Class `Kate::TextLoader`, the members used by `readLine` and `eof`. -/
structure TextLoader where
  m_eof : Bool
  m_lastWasEndOfLine : Bool
  m_lastWasR : Bool
  m_position : Int
  m_lastLineStart : Int
  m_eol : EndOfLineMode
  m_text : QString
  m_converterState : Bool
  m_bomFound : Bool
  m_firstRead : Bool
  m_file : List FileRead
deriving DecidableEq, Repr

/-- What `readLine` hands back: its result and the reference parameters `offset`, `length`. -/
structure LineRead where
  noError : Bool
  offset : Int
  length : Int
deriving DecidableEq, Repr

namespace TextLoader

/-- The state set up by `TextLoader::open`, with the reads that the opened file will answer;
`codecValid` tells whether a decoder exists for the codec given. -/
def opened (codecValid : Bool) (file : List FileRead) : TextLoader :=
  { m_eof := false
    m_lastWasEndOfLine := true
    m_lastWasR := false
    m_position := 0
    m_lastLineStart := 0
    m_eol := EndOfLineMode.eolUnknown
    m_text := []
    m_converterState := codecValid
    m_bomFound := false
    m_firstRead := true
    m_file := file }

/-- Method `TextLoader::eof`. -/
def eof (t : TextLoader) : Bool :=
  t.m_eof && !t.m_lastWasEndOfLine && decide (t.m_lastLineStart = t.m_text.length)

/-- The character `cr` of `readLine`, a carriage return. -/
def cr : Char := Char.ofNat 13

/-- The character `lf` of `readLine`, a line feed. -/
def lf : Char := Char.ofNat 10

/-- The character `QChar::ByteOrderMark`. -/
def byteOrderMark : Char := Char.ofNat 0xFEFF

/-- The character `QChar::ByteOrderSwapped`. -/
def byteOrderSwapped : Char := Char.ofNat 0xFFFE

/-- The character `QChar::LineSeparator`. -/
def lineSeparator : Char := Char.ofNat 0x2028

/-- The block `if (!m_eof) { ... }` of `readLine`, which tries to load more text; the result is
the new state and the new value of `encodingError`, or `Except.error` with the state left when
the block returns `false` because no codec is found. -/
def loadMore (t : TextLoader) (encodingError : Bool) : Except TextLoader (TextLoader × Bool) :=
  -- kill the old lines
  let t := { t with m_text := t.m_text.drop t.m_lastLineStart.toNat }
  match t.m_file with
  | [] =>
    -- c == 0: the file is completely read
    .ok ({ t with m_eof := true
                  m_position := t.m_position - t.m_lastLineStart
                  m_lastLineStart := 0 }, encodingError)
  | read :: rest =>
    let t := { t with m_file := rest }
    -- detect the codec on the first read
    if t.m_firstRead && !t.m_converterState && !read.codecDetected then .error t
    else
      let t := if t.m_firstRead then { t with m_converterState := true } else t
      let unicode := read.unicode
      let encodingError := encodingError || read.hasError
      let bom := t.m_firstRead && !unicode.isEmpty &&
        (unicode.head? == some byteOrderMark || unicode.head? == some byteOrderSwapped)
      let t := if bom then { t with m_bomFound := true, m_text := t.m_text ++ unicode.drop 1 }
               else { t with m_text := t.m_text ++ unicode }
      let encodingError :=
        if bom then encodingError || unicode.head? == some byteOrderSwapped else encodingError
      .ok ({ t with m_firstRead := false
                    m_eof := false
                    m_position := t.m_position - t.m_lastLineStart
                    m_lastLineStart := 0 }, encodingError)

/-- The part of the body of the reading loop that looks at the character at `m_position`: the
line read when `readLine` returns there, and the new state; when the loop goes on `m_position`
is already incremented. -/
def processChar (t : TextLoader) (encodingError : Bool) : Option LineRead × TextLoader :=
  let current_char := t.m_text.getD t.m_position.toNat (Char.ofNat 0)
  if current_char = lf then
    let t := { t with m_lastWasEndOfLine := true }
    if t.m_lastWasR then
      (none, { t with m_lastLineStart := t.m_lastLineStart + 1
                      m_lastWasR := false
                      m_eol := EndOfLineMode.eolDos
                      m_position := t.m_position + 1 })
    else
      (some ⟨!encodingError, t.m_lastLineStart, t.m_position - t.m_lastLineStart⟩,
       { t with m_lastLineStart := t.m_position + 1
                m_position := t.m_position + 1
                m_eol := if t.m_eol ≠ EndOfLineMode.eolDos then EndOfLineMode.eolUnix
                         else t.m_eol })
  else if current_char = cr then
    (some ⟨!encodingError, t.m_lastLineStart, t.m_position - t.m_lastLineStart⟩,
     { t with m_lastWasEndOfLine := true
              m_lastWasR := true
              m_lastLineStart := t.m_position + 1
              m_position := t.m_position + 1
              m_eol := if t.m_eol = EndOfLineMode.eolUnknown then EndOfLineMode.eolMac
                       else t.m_eol })
  else if current_char = lineSeparator then
    (some ⟨!encodingError, t.m_lastLineStart, t.m_position - t.m_lastLineStart⟩,
     { t with m_lastWasEndOfLine := true
              m_lastLineStart := t.m_position + 1
              m_position := t.m_position + 1 })
  else
    (none, { t with m_lastWasEndOfLine := false
                    m_lastWasR := false
                    m_position := t.m_position + 1 })

/-- The reading loop of `readLine`, with the local variables `encodingError`,
`failedToConvertOnce` and `bomPreviouslyFound`; `fuel` bounds the number of iterations and the
result is `none` when it is used up. -/
def readLineLoop : Nat → Bool → Bool → Bool → TextLoader → Option (LineRead × TextLoader)
  | 0, _, _, _, _ => none
  | fuel + 1, encodingError, failedToConvertOnce, bomPreviouslyFound, t =>
    if t.m_position ≤ t.m_text.length then
      if t.m_position = t.m_text.length then
        match (if !t.m_eof then loadMore t encodingError else .ok (t, encodingError)) with
        | .error t1 => some (⟨false, 0, 0⟩, t1)
        | .ok (t1, encodingError) =>
          if t1.m_eof && decide (t1.m_position = t1.m_text.length) then
            -- end of file
            some (⟨!encodingError && !failedToConvertOnce, t1.m_lastLineStart,
                    t1.m_position - t1.m_lastLineStart⟩,
                  { t1 with m_lastWasEndOfLine := false, m_lastLineStart := t1.m_position })
          else if t1.m_position = t1.m_text.length then
            -- empty? try again
            if !bomPreviouslyFound && t1.m_bomFound then
              readLineLoop fuel encodingError failedToConvertOnce true t1
            else readLineLoop fuel encodingError true bomPreviouslyFound t1
          else
            match processChar t1 encodingError with
            | (some line, t2) => some (line, t2)
            | (none, t2) =>
              readLineLoop fuel encodingError failedToConvertOnce bomPreviouslyFound t2
      else
        match processChar t encodingError with
        | (some line, t2) => some (line, t2)
        | (none, t2) => readLineLoop fuel encodingError failedToConvertOnce bomPreviouslyFound t2
    else some (⟨!encodingError, 0, 0⟩, t)

/-- Method `TextLoader::readLine`; the loop is given one iteration for every character still to
be looked at, two for every read of the file still to be made, and three more. -/
def readLine (t : TextLoader) : Option (LineRead × TextLoader) :=
  readLineLoop
    (t.m_text.length + (t.m_file.map (fun r => r.unicode.length + 2)).sum + 3)
    false false t.m_bomFound t

/-- The text of a line read: the `length` characters at `offset` of the internal Unicode
data. -/
def lineText (t : TextLoader) (line : LineRead) : QString :=
  (t.m_text.drop line.offset.toNat).take line.length.toNat

end TextLoader

/-! ## Behaviour of the undo groups, modelled from the specification

The replay of a group against the text storage (`KateUndoGroup::undo` / `redo`), the merge of two
groups and the flag sweeps are code of kateundo.cpp, which is not among the sources.  The
definitions below follow the specification (the item inversion table, the merge policy and the
description of the modification-flag resolver). -/

/-- Applying a function to the element at an index of a list. -/
def modifyAt {α : Type} (f : α → α) : Nat → List α → List α
  | _, [] => []
  | 0, x :: xs => f x :: xs
  | n + 1, x :: xs => x :: modifyAt f n xs

/-- Inserting an element at an index of a list (at the end when the index is past the end). -/
def insertAt {α : Type} (a : α) : Nat → List α → List α
  | 0, xs => a :: xs
  | _ + 1, [] => [a]
  | n + 1, x :: xs => x :: insertAt a n xs

/-- The texts of the lines of a document. -/
def Document.texts (d : Document) : List QString := d.textLines.map TextLine.text

/-- Modelled from the spec: the text-storage primitive "insert `s` at (line, col)". -/
def Document.editInsertText (d : Document) (line col : Int) (s : QString) : Document :=
  if 0 ≤ line ∧ 0 ≤ col then
    let ins : TextLine → TextLine := fun tl =>
      { tl with text := tl.text.take col.toNat ++ s ++ tl.text.drop col.toNat }
    { d with textLines := modifyAt ins line.toNat d.textLines }
  else d

/-- Modelled from the spec: the text-storage primitive "remove `len` characters at
(line, col)". -/
def Document.editRemoveText (d : Document) (line col len : Int) : Document :=
  if 0 ≤ line ∧ 0 ≤ col ∧ 0 ≤ len then
    let del : TextLine → TextLine := fun tl =>
      { tl with text := tl.text.take col.toNat ++ tl.text.drop (col.toNat + len.toNat) }
    { d with textLines := modifyAt del line.toNat d.textLines }
  else d

/-- Modelled from the spec: the text-storage primitive "insert a new line with text `s` at index
`line`". -/
def Document.editInsertLine (d : Document) (line : Int) (s : QString) : Document :=
  if 0 ≤ line ∧ line.toNat ≤ d.textLines.length then
    { d with textLines := insertAt ⟨s, false, false, false⟩ line.toNat d.textLines }
  else d

/-- Modelled from the spec: the text-storage primitive "remove the line at index `line`". -/
def Document.editRemoveLine (d : Document) (line : Int) : Document :=
  if 0 ≤ line then { d with textLines := d.textLines.eraseIdx line.toNat } else d

/-- Modelled from the spec: the text-storage primitive "split the line at (line, col)"; with
`newLine` a new line is created for the tail, otherwise the existing next line absorbs it. -/
def Document.editWrapLine (d : Document) (line col : Int) (newLine : Bool) : Document :=
  if 0 ≤ line ∧ 0 ≤ col then
    match d.textLines.get? line.toNat with
    | none => d
    | some tl =>
      let tail := tl.text.drop col.toNat
      let cut : TextLine → TextLine := fun l => { l with text := l.text.take col.toNat }
      let lines1 := modifyAt cut line.toNat d.textLines
      if newLine ∨ d.textLines.length ≤ line.toNat + 1 then
        { d with textLines := insertAt ⟨tail, false, false, false⟩ (line.toNat + 1) lines1 }
      else
        let absorb : TextLine → TextLine := fun l => { l with text := tail ++ l.text }
        { d with textLines := modifyAt absorb (line.toNat + 1) lines1 }
  else d

/-- Modelled from the spec: the text-storage primitive "join line + 1 into line"; with
`removeLine` the next line is removed, otherwise its first `length` characters move up and the
next line stays with what remains. -/
def Document.editUnWrapLine (d : Document) (line : Int) (removeLine : Bool) (length : Int) :
    Document :=
  if 0 ≤ line then
    match d.textLines.get? (line.toNat + 1) with
    | none => d
    | some next =>
      if removeLine then
        let join : TextLine → TextLine := fun l => { l with text := l.text ++ next.text }
        { d with textLines := (modifyAt join line.toNat d.textLines).eraseIdx (line.toNat + 1) }
      else
        let up : TextLine → TextLine := fun l =>
          { l with text := l.text ++ next.text.take length.toNat }
        let rest : TextLine → TextLine := fun l => { l with text := l.text.drop length.toNat }
        { d with textLines :=
                   modifyAt rest (line.toNat + 1) (modifyAt up line.toNat d.textLines) }
  else d

/-- Modelled from the spec: the text-storage primitive "set the autowrapped hint of a line". -/
def Document.editMarkLineAutoWrapped (d : Document) (line : Int) (autowrapped : Bool) :
    Document :=
  if 0 ≤ line then
    let mark : TextLine → TextLine := fun tl => { tl with autoWrapped := autowrapped }
    { d with textLines := modifyAt mark line.toNat d.textLines }
  else d

/-- Modelled from the spec: restoring the two marks of a line from captured flags. -/
def Document.setLineMarks (d : Document) (line : Int) (modified saved : Bool) : Document :=
  if 0 ≤ line then
    let mark : TextLine → TextLine := fun tl =>
      { tl with markedAsModified := modified, markedAsSavedOnDisk := saved }
    { d with textLines := modifyAt mark line.toNat d.textLines }
  else d

/-- Modelled from the spec: the inverse of one item, replayed on undo (item inversion table),
followed by the restoration of the line marks from the undo-direction flags of the item. -/
def specUndoItem (item : UndoItem) (d : Document) : Document :=
  let fl := item.lineModFlags
  match item.type with
  | .editInsertText =>
    (d.editRemoveText item.line item.col item.text.length).setLineMarks item.line
      fl.UndoLine1Modified fl.UndoLine1Saved
  | .editRemoveText =>
    (d.editInsertText item.line item.col item.text).setLineMarks item.line
      fl.UndoLine1Modified fl.UndoLine1Saved
  | .editInsertLine => d.editRemoveLine item.line
  | .editRemoveLine =>
    (d.editInsertLine item.line item.text).setLineMarks item.line
      fl.UndoLine1Modified fl.UndoLine1Saved
  | .editWrapLine =>
    (d.editUnWrapLine item.line item.newLine item.len).setLineMarks item.line
      fl.UndoLine1Modified fl.UndoLine1Saved
  | .editUnWrapLine =>
    ((d.editWrapLine item.line item.col item.removeLine).setLineMarks item.line
      fl.UndoLine1Modified fl.UndoLine1Saved).setLineMarks (item.line + 1)
      fl.UndoLine2Modified fl.UndoLine2Saved
  | .editMarkLineAutoWrapped => d.editMarkLineAutoWrapped item.line (!item.autowrapped)
  | .editInvalid => d

/-- Modelled from the spec: the forward effect of one item, replayed on redo, followed by the
restoration of the line marks from the redo-direction flags of the item. -/
def specRedoItem (item : UndoItem) (d : Document) : Document :=
  let fl := item.lineModFlags
  match item.type with
  | .editInsertText =>
    (d.editInsertText item.line item.col item.text).setLineMarks item.line
      fl.RedoLine1Modified fl.RedoLine1Saved
  | .editRemoveText =>
    (d.editRemoveText item.line item.col item.text.length).setLineMarks item.line
      fl.RedoLine1Modified fl.RedoLine1Saved
  | .editInsertLine =>
    (d.editInsertLine item.line item.text).setLineMarks item.line
      fl.RedoLine1Modified fl.RedoLine1Saved
  | .editRemoveLine => d.editRemoveLine item.line
  | .editWrapLine =>
    ((d.editWrapLine item.line item.col item.newLine).setLineMarks item.line
      fl.RedoLine1Modified fl.RedoLine1Saved).setLineMarks (item.line + 1)
      fl.RedoLine2Modified fl.RedoLine2Saved
  | .editUnWrapLine =>
    (d.editUnWrapLine item.line item.removeLine item.len).setLineMarks item.line
      fl.RedoLine1Modified fl.RedoLine1Saved
  | .editMarkLineAutoWrapped => d.editMarkLineAutoWrapped item.line item.autowrapped
  | .editInvalid => d

/-- Validity of a cursor, `Cursor::isValid()`: line and column are not negative. -/
def Cursor.isValid (c : Cursor) : Bool := decide (0 ≤ c.line) && decide (0 ≤ c.column)

/-- Modelled from the spec: restoring cursor and selections of the active view; skipped when
there is no active view. -/
def Document.restoreView (d : Document) (c : Cursor) (sel : Range)
    (sec : List PlainSecondaryCursor) : Document :=
  match d.activeView with
  | none => d
  | some _ => { d with activeView := some ⟨c, sel, sec⟩ }

/-- Modelled from the spec: `KateUndoGroup::undo`, the items replayed in reverse order, each
inverted, then the view put back to the "before" snapshot (or to the undo cursor when set). -/
def specUndoGroup (g : KateUndoGroup) (d : Document) : Document :=
  (g.items.reverse.foldl (fun doc item => specUndoItem item doc) d).restoreView
    (if g.undoCursor.isValid then g.undoCursor else g.cursorBefore)
    g.selectionBefore g.secondaryCursorsBefore

/-- Modelled from the spec: `KateUndoGroup::redo`, the items replayed in forward order, then the
view put to the "after" snapshot (or to the redo cursor when set). -/
def specRedoGroup (g : KateUndoGroup) (d : Document) : Document :=
  (g.items.foldl (fun doc item => specRedoItem item doc) d).restoreView
    (if g.redoCursor.isValid then g.redoCursor else g.cursorAfter)
    g.selectionAfter g.secondaryCursorsAfter

/-- Modelled from the spec: the "pure single-item adjacency" case of the merge policy, a group
holding a single text insertion that continues the last text insertion of the top group on the
same line, with no cursor jump between the two groups. -/
def pureSingleItemAdjacency (top newGroup : KateUndoGroup) : Bool :=
  match top.items.getLast?, newGroup.items with
  | some a, [b] =>
    decide (a.type = UndoType.editInsertText) && decide (b.type = UndoType.editInsertText)
      && decide (a.line = b.line) && decide (b.col = a.col + a.text.length)
      && decide (top.cursorAfter = newGroup.cursorBefore)
  | _, _ => false

/-- Modelled from the spec: `KateUndoGroup::merge`.  Two groups merge only if neither is a safe
point and the complex-merge flag permits it or the pure single-item adjacency holds; merging
concatenates the items and keeps the "before" snapshot of the first group and the "after"
snapshot of the second. -/
def specMerge (top newGroup : KateUndoGroup) (complex : Bool) : KateUndoGroup × Bool :=
  if !top.safePoint && !newGroup.safePoint && (complex || pureSingleItemAdjacency top newGroup) then
    ({ top with
       items := top.items ++ newGroup.items
       cursorAfter := newGroup.cursorAfter
       selectionAfter := newGroup.selectionAfter
       secondaryCursorsAfter := newGroup.secondaryCursorsAfter }, true)
  else (top, false)

/-- Modelled from the spec: `KateUndoGroup::addItem`, the item is appended to the group. -/
def specAddItem (g : KateUndoGroup) (item : UndoItem) : KateUndoGroup :=
  { g with items := g.items ++ [item] }

/-- Modelled from the spec: every `Saved` flag of an item becomes `Modified`. -/
def specFlagItemSavedAsModified (item : UndoItem) : UndoItem :=
  let fl := item.lineModFlags
  { item with lineModFlags :=
      { UndoLine1Modified := fl.UndoLine1Modified || fl.UndoLine1Saved
        UndoLine2Modified := fl.UndoLine2Modified || fl.UndoLine2Saved
        UndoLine1Saved := false
        UndoLine2Saved := false
        RedoLine1Modified := fl.RedoLine1Modified || fl.RedoLine1Saved
        RedoLine2Modified := fl.RedoLine2Modified || fl.RedoLine2Saved
        RedoLine1Saved := false
        RedoLine2Saved := false } }

/-- Reading a bit of a bit array; a bit past the end reads as false. -/
def testBit (lines : QBitArray) (i : Int) : Bool :=
  if 0 ≤ i then lines.getD i.toNat false else false

/-- Setting a bit of a bit array, which grows when the bit is past the end. -/
def setBit (lines : QBitArray) (i : Int) : QBitArray :=
  if 0 ≤ i then
    modifyAt (fun _ => true) i.toNat (lines ++ List.replicate (i.toNat + 1 - lines.length) false)
  else lines

/-- Modelled from the spec: one step of the sweep of the undo stack; the redo-direction
`Modified` flag of a line becomes `Saved` for the first item met that touches the line. -/
def specMarkRedoItem (item : UndoItem) (lines : QBitArray) : UndoItem × QBitArray :=
  let fl := item.lineModFlags
  let hit1 := fl.RedoLine1Modified && !testBit lines item.line
  let lines1 := if hit1 then setBit lines item.line else lines
  let hit2 := fl.RedoLine2Modified && !testBit lines1 (item.line + 1)
  let lines2 := if hit2 then setBit lines1 (item.line + 1) else lines1
  ({ item with lineModFlags :=
      { fl with
        RedoLine1Modified := fl.RedoLine1Modified && !hit1
        RedoLine1Saved := fl.RedoLine1Saved || hit1
        RedoLine2Modified := fl.RedoLine2Modified && !hit2
        RedoLine2Saved := fl.RedoLine2Saved || hit2 } }, lines2)

/-- Modelled from the spec: one step of the sweep of the redo stack; the undo-direction
`Modified` flag of a line becomes `Saved` for the first item met that touches the line. -/
def specMarkUndoItem (item : UndoItem) (lines : QBitArray) : UndoItem × QBitArray :=
  let fl := item.lineModFlags
  let hit1 := fl.UndoLine1Modified && !testBit lines item.line
  let lines1 := if hit1 then setBit lines item.line else lines
  let hit2 := fl.UndoLine2Modified && !testBit lines1 (item.line + 1)
  let lines2 := if hit2 then setBit lines1 (item.line + 1) else lines1
  ({ item with lineModFlags :=
      { fl with
        UndoLine1Modified := fl.UndoLine1Modified && !hit1
        UndoLine1Saved := fl.UndoLine1Saved || hit1
        UndoLine2Modified := fl.UndoLine2Modified && !hit2
        UndoLine2Saved := fl.UndoLine2Saved || hit2 } }, lines2)

/-- Sweeping the items of a group from the last one to the first one. -/
def sweepItems (f : UndoItem → QBitArray → UndoItem × QBitArray) :
    List UndoItem → QBitArray → List UndoItem × QBitArray
  | [], lines => ([], lines)
  | item :: rest, lines =>
    let r := sweepItems f rest lines
    let r2 := f item r.2
    (r2.1 :: r.1, r2.2)

/-- Modelled from the spec: the behaviour of `KateUndoGroup` described by the specification. -/
def specOps : GroupOps where
  merge := specMerge
  addItem := specAddItem
  undo := specUndoGroup
  redo := specRedoGroup
  flagSavedAsModified := fun g => { g with items := g.items.map specFlagItemSavedAsModified }
  markRedoAsSaved := fun g lines =>
    let r := sweepItems specMarkRedoItem g.items lines
    ({ g with items := r.1 }, r.2)
  markUndoAsSaved := fun g lines =>
    let r := sweepItems specMarkUndoItem g.items lines
    ({ g with items := r.1 }, r.2)

open KateUndoManager

/-! ## Concrete documents, groups and states used in the examples -/

/-- A document with the single line "ab", a checksum and no active view. -/
def exampleDoc : Document := ⟨[⟨['a', 'b'], false, false, false⟩], false, [1], none, false⟩

/-- The document `exampleDoc` after 'x' has been typed at column 1. -/
def exampleDoc1 : Document := ⟨[⟨['a', 'x', 'b'], true, false, false⟩], true, [1], none, false⟩

/-- The document `exampleDoc1` after 'y' has been typed at column 2. -/
def exampleDoc2 : Document :=
  ⟨[⟨['a', 'x', 'y', 'b'], true, false, false⟩], true, [1], none, false⟩

/-- The calls made when one character is typed at (line, col): one bracket holding the
notification of the insertion, after which the document holds the new text (`after`). -/
def typeChar (line col : Int) (c : Char) (after : Document) : List Call :=
  [Call.editStart, Call.slotTextInserted line col [c], Call.documentChanged after, Call.editEnd]

/-- A group as opened by `editStart` without active view, holding the given items. -/
def groupOf (items : List UndoItem) : KateUndoGroup :=
  { KateUndoGroup.new Cursor.invalid Range.invalid [] with items := items }

/-- The item recorded when 'x' is typed at column 1 of the unmarked line 0. -/
def itemX : UndoItem :=
  { UndoItem.default with
    type := UndoType.editInsertText, line := 0, col := 1, text := ['x']
    lineModFlags := { ModificationFlags.none with RedoLine1Modified := true
                                                  UndoLine1Saved := true } }

/-- The item recorded when 'y' is typed at column 2 of the modified line 0. -/
def itemY : UndoItem :=
  { UndoItem.default with
    type := UndoType.editInsertText, line := 0, col := 2, text := ['y']
    lineModFlags := { ModificationFlags.none with RedoLine1Modified := true
                                                  UndoLine1Modified := true } }

/-- The item recorded when a line "x" is inserted at index 1. -/
def itemL1 : UndoItem :=
  { UndoItem.default with
    type := UndoType.editInsertLine, line := 1, text := ['x']
    lineModFlags := { ModificationFlags.none with RedoLine1Modified := true } }

/-- The item recorded when a line "y" is inserted at index 2. -/
def itemL2 : UndoItem :=
  { UndoItem.default with
    type := UndoType.editInsertLine, line := 2, text := ['y']
    lineModFlags := { ModificationFlags.none with RedoLine1Modified := true } }

/-- Two brackets recording one inserted line each, the document being marked saved in
between. -/
def savedThenEdited : List Call :=
  [Call.editStart, Call.slotLineInserted 1 ['x'], Call.editEnd, Call.setModified false,
   Call.editStart, Call.slotLineInserted 2 ['y'], Call.editEnd]

/-- The state a new manager reaches by `savedThenEdited`. -/
def savedThenEditedState : KateUndoManager :=
  { KateUndoManager.new exampleDoc with
    undoItems := [groupOf [itemL1], groupOf [itemL2]]
    lastUndoGroupWhenSaved := some (GroupPtr.undoSlot 0)
    docWasSavedWhenUndoWasEmpty := false
    docWasSavedWhenRedoWasEmpty := true
    emitted := [Signal.undoChanged, Signal.undoChanged] }

/-- The state of a new manager after 'x' has been typed and while the bracket of the next
character 'y' is still open. -/
def typingState : KateUndoManager :=
  { KateUndoManager.new exampleDoc with
    m_document := exampleDoc2
    m_editCurrentUndo := some (groupOf [itemY])
    undoItems := [groupOf [itemX]]
    emitted := [Signal.undoChanged] }

/-- The state of a new manager inside its first bracket, one inserted line being recorded. -/
def firstBracketState : KateUndoManager :=
  { KateUndoManager.new exampleDoc with m_editCurrentUndo := some (groupOf [itemL1]) }

/-- The state of a new manager inside its first bracket, nothing being recorded. -/
def emptyBracketState : KateUndoManager :=
  { KateUndoManager.new exampleDoc with
    m_document := exampleDoc1
    m_editCurrentUndo := some (groupOf []) }

/-- The state of a new manager after `setActive(false)`. -/
def inactiveState : KateUndoManager :=
  { KateUndoManager.new exampleDoc with
    m_isActive := false
    emitted := [Signal.isActiveChanged false] }

/-- The state of a new manager whose only group has been undone. -/
def redoableState : KateUndoManager :=
  { KateUndoManager.new exampleDoc with redoItems := [groupOf [itemL1]] }

/-- A document with the lines "aaa" and "", no marks. -/
def joinDoc0 : Document :=
  ⟨[⟨['a', 'a', 'a'], false, false, false⟩, ⟨[], false, false, false⟩], false, [1], none, false⟩

/-- The document `joinDoc0` after 'a' has been typed at the end of line 0, which is now marked
modified. -/
def joinDoc1 : Document :=
  ⟨[⟨['a', 'a', 'a', 'a'], true, false, false⟩, ⟨[], false, false, false⟩], true, [1], none,
    false⟩

/-- The document `joinDoc1` after the empty line 1 has been joined into line 0: the text of
line 0 has not changed and the line is still marked modified. -/
def joinDoc2 : Document :=
  ⟨[⟨['a', 'a', 'a', 'a'], true, false, false⟩], true, [1], none, false⟩

/-- The calls made when 'a' is typed at the end of line 0 and the empty line 1 is then joined
into line 0, each edit in a bracket of its own. -/
def joinCalls : List Call :=
  typeChar 0 3 'a' joinDoc1 ++
    [Call.editStart, Call.slotLineUnWrapped 0 4 0 true, Call.documentChanged joinDoc2,
     Call.editEnd]

/-- The item recorded when 'a' is typed at column 3 of the unmarked line 0. -/
def itemA : UndoItem :=
  { UndoItem.default with
    type := UndoType.editInsertText, line := 0, col := 3, text := ['a']
    lineModFlags := { ModificationFlags.none with RedoLine1Modified := true
                                                  UndoLine1Saved := true } }

/-- The item recorded when the empty unmarked line 1 is joined into the modified line 0: it
carries no redo-direction flag. -/
def itemJoin : UndoItem :=
  { UndoItem.default with
    type := UndoType.editUnWrapLine, line := 0, col := 4, len := 0, removeLine := true
    lineModFlags := { ModificationFlags.none with UndoLine1Modified := true
                                                  UndoLine2Saved := true } }

/-- The state a new manager reaches by `joinCalls`. -/
def joinedState : KateUndoManager :=
  { KateUndoManager.new joinDoc0 with
    m_document := joinDoc2
    undoItems := [groupOf [itemA], groupOf [itemJoin]]
    emitted := [Signal.undoChanged, Signal.undoChanged] }

/-- The two marks of every line of a document. -/
def Document.marks (d : Document) : List (Bool × Bool) :=
  d.textLines.map (fun tl => (tl.markedAsModified, tl.markedAsSavedOnDisk))

/-- The document of `testWrapLineAtStart`: the lines "aaaa" and "bbbb", no marks. -/
def wrapDoc0 : Document :=
  ⟨[⟨['a', 'a', 'a', 'a'], false, false, false⟩, ⟨['b', 'b', 'b', 'b'], false, false, false⟩],
    false, [1], none, false⟩

/-- The document of `testWrapLineAtStart` after `editWrapLine(0, 0)`, with the marks the test
expects: line 0 is modified. -/
def wrapDoc1 : Document :=
  ⟨[⟨[], true, false, false⟩, ⟨['a', 'a', 'a', 'a'], false, false, false⟩,
    ⟨['b', 'b', 'b', 'b'], false, false, false⟩], true, [1], none, false⟩

/-- The document of `testWrapLineAtStart` after the simulated save, with the marks the test
expects: line 0 is saved on disk. -/
def wrapDoc2 : Document :=
  ⟨[⟨[], false, true, false⟩, ⟨['a', 'a', 'a', 'a'], false, false, false⟩,
    ⟨['b', 'b', 'b', 'b'], false, false, false⟩], false, [1], none, false⟩

/-- The calls of `testWrapLineAtStart` up to the simulated save. -/
def wrapAtStartCalls : List Call :=
  [Call.editStart, Call.slotLineWrapped 0 0 4 true, Call.documentChanged wrapDoc1, Call.editEnd,
   Call.setModified false, Call.documentChanged wrapDoc2, Call.updateLineModifications]

/-- The document of `testUnWrapLine2Empty`: the lines "aaaa", "" and "bbbb", no marks. -/
def unwrapDoc0 : Document :=
  ⟨[⟨['a', 'a', 'a', 'a'], false, false, false⟩, ⟨[], false, false, false⟩,
    ⟨['b', 'b', 'b', 'b'], false, false, false⟩], false, [1], none, false⟩

/-- The document of `testUnWrapLine2Empty` after `editUnWrapLine(0)`, with the marks the test
expects: none. -/
def unwrapDoc1 : Document :=
  ⟨[⟨['a', 'a', 'a', 'a'], false, false, false⟩, ⟨['b', 'b', 'b', 'b'], false, false, false⟩],
    true, [1], none, false⟩

/-- The calls of `testUnWrapLine2Empty` up to the first `undo()`. -/
def unwrap2EmptyCalls : List Call :=
  [Call.editStart, Call.slotLineUnWrapped 0 4 0 true, Call.documentChanged unwrapDoc1,
   Call.editEnd]

/-- The document `exampleDoc` with another checksum. -/
def otherChecksumDoc : Document := { exampleDoc with checksum := [2] }

/-- A manager whose document has just been marked saved with one group on the undo stack. -/
def justSavedState : KateUndoManager :=
  { KateUndoManager.new exampleDoc with
    undoItems := [groupOf [itemL1]]
    lastUndoGroupWhenSaved := some (GroupPtr.undoSlot 0)
    docWasSavedWhenUndoWasEmpty := false
    docWasSavedWhenRedoWasEmpty := true }

/-- The document `exampleDoc1` written to disk: not modified. -/
def exampleDoc1Saved : Document := { exampleDoc1 with modified := false }

/-- The document `exampleDoc` after 'y' has been typed at column 1. -/
def exampleDocY : Document := ⟨[⟨['a', 'y', 'b'], true, false, false⟩], true, [1], none, false⟩

/-- The state of a new manager after one recorded bracket and `setModified(false)`. -/
def justSavedStateE : KateUndoManager :=
  { justSavedState with emitted := [Signal.undoChanged] }

/-- The calls of the scenario of group identity: 'x' is typed (group G) and the document is
saved; G is undone; 'y' is typed instead (group H, which drops G from the redo stack); H is
undone. -/
def replacedGroupCalls : List Call :=
  typeChar 0 1 'x' exampleDoc1 ++
    [Call.setModified false, Call.documentChanged exampleDoc1Saved, Call.undo] ++
    typeChar 0 1 'y' exampleDocY ++ [Call.undo]

/-- The calls that leave a stale redo reference: a group is recorded and undone, the document is
marked saved, and a new bracket records an item, which clears the redo stack. -/
def staleRedoCalls : List Call :=
  [Call.editStart, Call.slotLineInserted 1 ['x'], Call.editEnd, Call.undo,
   Call.setModified false, Call.editStart, Call.slotLineInserted 1 ['y']]

/-- A manager on `wrapDoc0` (two unflagged lines of four characters) with an open, empty
group. -/
def wrapOpenState : KateUndoManager :=
  { KateUndoManager.new wrapDoc0 with m_editCurrentUndo := some (groupOf []) }

/-- A WrapLine item of line 0 with the given column, length and flags. -/
def wrapItem (col len : Int) (fl : ModificationFlags) : UndoItem :=
  { UndoItem.default with
    type := UndoType.editWrapLine, col := col, len := len, newLine := true, lineModFlags := fl }

/-- An UnwrapLine item of line 0 with the given column, length and flags. -/
def unwrapItem (col len : Int) (fl : ModificationFlags) : UndoItem :=
  { UndoItem.default with
    type := UndoType.editUnWrapLine, col := col, len := len, removeLine := true,
    lineModFlags := fl }

/-- A manager on a document of the two unflagged lines `a` and `b`, with an open, empty
group. -/
def unwrapOpenState (a b : QString) : KateUndoManager :=
  { KateUndoManager.new ⟨[⟨a, false, false, false⟩, ⟨b, false, false, false⟩], false, [1], none,
      false⟩ with
    m_editCurrentUndo := some (groupOf []) }

/-- Modelled from the spec: the document inserting text in a line; the line is then marked
modified and not saved on disk. -/
def Document.insertText (d : Document) (line col : Int) (s : QString) : Document :=
  (d.editInsertText line col s).setLineMarks line true false

/-- Modelled from the spec: the document removing text from a line; the line is then marked
modified and not saved on disk. -/
def Document.removeText (d : Document) (line col len : Int) : Document :=
  (d.editRemoveText line col len).setLineMarks line true false

/-- Modelled from the spec: the document inserting a line; the new line is marked modified and
not saved on disk, the other lines are left as they are. -/
def Document.insertLine (d : Document) (line : Int) (s : QString) : Document :=
  (d.editInsertLine line s).setLineMarks line true false

/-- Modelled from the spec: the document removing a line; the other lines are left as they
are. -/
def Document.removeLine (d : Document) (line : Int) : Document := d.editRemoveLine line

/-- Modelled from the spec: the document wrapping a line at a column; `a`, `b` are the marks of
the wrapped line and `c`, `e` those of the line after it once the wrap is done. -/
def Document.wrapLine (d : Document) (line col : Int) (newLine : Bool) (a b c e : Bool) :
    Document :=
  ((d.editWrapLine line col newLine).setLineMarks line a b).setLineMarks (line + 1) c e

/-- The item recorded for a text insertion or removal in a line with the modified mark `M`. -/
def textItem (type : UndoType) (line col : Int) (s : QString) (M : Bool) : UndoItem :=
  { type := type, line := line, col := col, text := s, autowrapped := false, newLine := false,
    removeLine := false, len := 0,
    lineModFlags :=
      { ModificationFlags.none with
        RedoLine1Modified := true, UndoLine1Modified := M, UndoLine1Saved := !M } }

/-- The item recorded for an inserted line. -/
def insertLineItem (line : Int) (s : QString) : UndoItem :=
  { type := UndoType.editInsertLine, line := line, col := 0, text := s, autowrapped := false,
    newLine := false, removeLine := false, len := 0,
    lineModFlags := { ModificationFlags.none with RedoLine1Modified := true } }

/-- The item recorded for a removed line with the modified mark `M`. -/
def removeLineItem (line : Int) (s : QString) (M : Bool) : UndoItem :=
  { type := UndoType.editRemoveLine, line := line, col := 0, text := s, autowrapped := false,
    newLine := false, removeLine := false, len := 0,
    lineModFlags :=
      { ModificationFlags.none with
        RedoLine1Modified := true, UndoLine1Modified := M, UndoLine1Saved := !M } }

/-- A document of the three unflagged lines "0", "1" and "2". -/
def threeLineDoc : Document :=
  ⟨[⟨['0'], false, false, false⟩, ⟨['1'], false, false, false⟩, ⟨['2'], false, false, false⟩],
    false, [1], none, false⟩

/-- A document of the two unflagged lines "0" and "2". -/
def twoLineDoc : Document :=
  ⟨[⟨['0'], false, false, false⟩, ⟨['2'], false, false, false⟩], false, [1], none, false⟩

/-- The item recorded for a wrapped line with the marks `M` (modified) and `S` (saved on
disk). -/
def wrapLineItem (line col length : Int) (newLine M S : Bool) : UndoItem :=
  { type := UndoType.editWrapLine, line := line, col := col, text := [],
    autowrapped := false, newLine := newLine, removeLine := false, len := length,
    lineModFlags :=
      { RedoLine1Modified := decide (0 < length) || M
        RedoLine1Saved := !(decide (0 < length) || M) && S
        RedoLine2Modified := decide (0 < col) || decide (length = 0) || M
        RedoLine2Saved := !(decide (0 < col) || decide (length = 0) || M) && S
        UndoLine1Modified := M
        UndoLine1Saved := !M && ((decide (0 < length) && decide (0 < col)) || S)
        UndoLine2Modified := false
        UndoLine2Saved := false } }

/-- The flags recorded for an unwrapped line, `tl` being the line and `next` the line after
it. -/
def unwrapLineFlags (tl next : TextLine) : ModificationFlags :=
  if 0 < tl.length ∧ 0 < next.length then
    { RedoLine1Modified := true, RedoLine1Saved := false
      RedoLine2Modified := false, RedoLine2Saved := false
      UndoLine1Modified := tl.markedAsModified
      UndoLine1Saved := !tl.markedAsModified
      UndoLine2Modified := next.markedAsModified
      UndoLine2Saved := !next.markedAsModified }
  else if tl.length = 0 then
    { RedoLine1Modified := next.markedAsModified
      RedoLine1Saved := !next.markedAsModified && next.markedAsSavedOnDisk
      RedoLine2Modified := false, RedoLine2Saved := false
      UndoLine1Modified := tl.markedAsModified
      UndoLine1Saved := !tl.markedAsModified
      UndoLine2Modified := next.markedAsModified
      UndoLine2Saved := !next.markedAsModified && next.markedAsSavedOnDisk }
  else
    { RedoLine1Modified := next.markedAsModified
      RedoLine1Saved := !next.markedAsModified && next.markedAsSavedOnDisk
      RedoLine2Modified := false, RedoLine2Saved := false
      UndoLine1Modified := tl.markedAsModified
      UndoLine1Saved := !tl.markedAsModified && tl.markedAsSavedOnDisk
      UndoLine2Modified := next.markedAsModified
      UndoLine2Saved := !next.markedAsModified }

/-- The state `wrapOpenState` after the notification of a wrap of line 0 at column 2. -/
def wrapRecordedState : KateUndoManager :=
  { wrapOpenState with
    m_editCurrentUndo := some (groupOf [wrapItem 2 2
      { ModificationFlags.none with
        RedoLine1Modified := true, RedoLine2Modified := true, UndoLine1Saved := true }]) }

/-- A manager on `exampleDoc` with one group on the undo stack, no group open, the document
modified. -/
def firstGroupState : KateUndoManager :=
  { KateUndoManager.new { exampleDoc with modified := true } with
    undoItems := [groupOf [itemL1]]
    emitted := [Signal.undoChanged] }

/-- A loader opened on a file whose single read decodes to a carriage return, a line separator
(U+2028) and a line feed. -/
def crLsLfLoader : TextLoader :=
  TextLoader.opened true [⟨[TextLoader.cr, TextLoader.lineSeparator, TextLoader.lf], false, false⟩]

/-- A loader opened on a file whose single read decodes to a line separator (U+2028) and a line
feed. -/
def lsLfLoader : TextLoader :=
  TextLoader.opened true [⟨[TextLoader.lineSeparator, TextLoader.lf], false, false⟩]

/-- Whether the redo-direction flag `Modified` of an item is set for line `L`: slot 1 stands for
the line of the item, slot 2 for the line after it. -/
def UndoItem.redoModifiedOn (y : UndoItem) (L : Int) : Bool :=
  (decide (y.line = L) && y.lineModFlags.RedoLine1Modified) ||
    (decide (y.line + 1 = L) && y.lineModFlags.RedoLine2Modified)

/-- Whether the undo-direction flag `Modified` of an item is set for line `L`. -/
def UndoItem.undoModifiedOn (y : UndoItem) (L : Int) : Bool :=
  (decide (y.line = L) && y.lineModFlags.UndoLine1Modified) ||
    (decide (y.line + 1 = L) && y.lineModFlags.UndoLine2Modified)

/-- Whether an item carries a redo-direction flag, `Modified` or `Saved`, for line `L`. -/
def UndoItem.touchesRedo (y : UndoItem) (L : Int) : Bool :=
  (decide (y.line = L) &&
      (y.lineModFlags.RedoLine1Modified || y.lineModFlags.RedoLine1Saved)) ||
    (decide (y.line + 1 = L) &&
      (y.lineModFlags.RedoLine2Modified || y.lineModFlags.RedoLine2Saved))

/-- Whether an item carries an undo-direction flag, `Modified` or `Saved`, for line `L`. -/
def UndoItem.touchesUndo (y : UndoItem) (L : Int) : Bool :=
  (decide (y.line = L) &&
      (y.lineModFlags.UndoLine1Modified || y.lineModFlags.UndoLine1Saved)) ||
    (decide (y.line + 1 = L) &&
      (y.lineModFlags.UndoLine2Modified || y.lineModFlags.UndoLine2Saved))

/-- An item whose redo-direction flags `Modified` stay `Modified` for the lines already met
(`met1` for slot 1, `met2` for slot 2) and become `Saved` for the others. -/
def UndoItem.resolveRedo (y : UndoItem) (met1 met2 : Bool) : UndoItem :=
  { y with lineModFlags :=
      { y.lineModFlags with
        RedoLine1Modified := y.lineModFlags.RedoLine1Modified && met1
        RedoLine1Saved := y.lineModFlags.RedoLine1Saved || (y.lineModFlags.RedoLine1Modified && !met1)
        RedoLine2Modified := y.lineModFlags.RedoLine2Modified && met2
        RedoLine2Saved :=
          y.lineModFlags.RedoLine2Saved || (y.lineModFlags.RedoLine2Modified && !met2) } }

/-- An item whose undo-direction flags `Modified` stay `Modified` for the lines already met and
become `Saved` for the others. -/
def UndoItem.resolveUndo (y : UndoItem) (met1 met2 : Bool) : UndoItem :=
  { y with lineModFlags :=
      { y.lineModFlags with
        UndoLine1Modified := y.lineModFlags.UndoLine1Modified && met1
        UndoLine1Saved := y.lineModFlags.UndoLine1Saved || (y.lineModFlags.UndoLine1Modified && !met1)
        UndoLine2Modified := y.lineModFlags.UndoLine2Modified && met2
        UndoLine2Saved :=
          y.lineModFlags.UndoLine2Saved || (y.lineModFlags.UndoLine2Modified && !met2) } }

/-- Function `markModifiedLinesAsSaved` of modificationsystem_test.cpp: every line marked
modified is marked saved on disk.  `TextLine::markAsSavedOnDisk(true)` is not among the sources
and is modelled from the spec: it sets the saved-on-disk mark and clears the modified mark. -/
def Document.markModifiedLinesAsSaved (d : Document) : Document :=
  { d with textLines := d.textLines.map (fun tl =>
      if tl.markedAsModified then
        { tl with markedAsModified := false, markedAsSavedOnDisk := true }
      else tl) }

/-- The simulated save of modificationsystem_test.cpp: `doc.setModified(false)`, which clears
the modified flag of the document and calls `setModified(false)` of the manager, then
`markModifiedLinesAsSaved(&doc)`, then `updateLineModifications()`; `d` is the document before
the save. -/
def saveCalls (d : Document) : List Call :=
  [Call.setModified false,
   Call.documentChanged { d.markModifiedLinesAsSaved with modified := false },
   Call.updateLineModifications]

/-- The flags of the only item of the undo stack after `updateLineModifications()`: every
`Saved` flag has become `Modified`, then every redo-direction flag has become `Saved`. -/
def UndoItem.savedOnTop (x : UndoItem) : UndoItem :=
  { x with lineModFlags :=
      { UndoLine1Modified := x.lineModFlags.UndoLine1Modified || x.lineModFlags.UndoLine1Saved
        UndoLine2Modified := x.lineModFlags.UndoLine2Modified || x.lineModFlags.UndoLine2Saved
        UndoLine1Saved := false
        UndoLine2Saved := false
        RedoLine1Modified := false
        RedoLine2Modified := false
        RedoLine1Saved := x.lineModFlags.RedoLine1Modified || x.lineModFlags.RedoLine1Saved
        RedoLine2Saved := x.lineModFlags.RedoLine2Modified || x.lineModFlags.RedoLine2Saved } }

/-- The items of a stack that are nearer its top than item `k` of its group `g` at place `i`:
the later items of `g` and the items of the later groups. -/
def itemsNearerTop (stack : List KateUndoGroup) (g : KateUndoGroup) (i k : Nat) :
    List UndoItem :=
  g.items.drop (k + 1) ++ ((stack.drop (i + 1)).map KateUndoGroup.items).flatten

/-- Two items that insert text in line 0, the second one nearer the top of the stack. -/
def twoEditsState : KateUndoManager :=
  { KateUndoManager.new exampleDoc with
    undoItems :=
      [groupOf [textItem UndoType.editInsertText 0 0 ['x'] false],
       groupOf [textItem UndoType.editInsertText 0 1 ['y'] true]] }

/-- The document `exampleDoc` after the line "x" has been inserted at index 1 and the line "y"
at index 2; both new lines are marked modified. -/
def exampleDocXY : Document :=
  ⟨[⟨['a', 'b'], false, false, false⟩, ⟨['x'], true, false, false⟩,
    ⟨['y'], true, false, false⟩], false, [1], none, false⟩

/-- Two brackets recording one inserted line each, then `undo()`, the document being marked
saved, and `redo()`.  After the save no stack holds more groups than it has held before: the
second group returns to the slot of the undo stack it was recorded in, and an `undo()` that
follows puts it back into the slot of the redo stack it had at the save. -/
def savedBetweenUndoAndRedo : List Call :=
  [Call.editStart, Call.slotLineInserted 1 ['x'],
   Call.documentChanged (exampleDoc.insertLine 1 ['x']), Call.editEnd,
   Call.editStart, Call.slotLineInserted 2 ['y'],
   Call.documentChanged ((exampleDoc.insertLine 1 ['x']).insertLine 2 ['y']), Call.editEnd,
   Call.undo, Call.setModified false, Call.redo]

/-- The state a new manager reaches by `savedBetweenUndoAndRedo`. -/
def savedBetweenUndoAndRedoState : KateUndoManager :=
  { KateUndoManager.new exampleDocXY with
    undoItems := [groupOf [itemL1], groupOf [itemL2]]
    lastUndoGroupWhenSaved := some (GroupPtr.undoSlot 0)
    lastRedoGroupWhenSaved := some (GroupPtr.redoSlot 0)
    docWasSavedWhenUndoWasEmpty := false
    docWasSavedWhenRedoWasEmpty := false
    emitted := [Signal.undoChanged, Signal.undoChanged, Signal.undoStart, Signal.undoEnd,
                Signal.undoChanged, Signal.redoStart, Signal.redoEnd, Signal.undoChanged] }

/-! ## Lemmas on the manager -/

namespace KateUndoManager

@[simp] theorem emit_undoItems (m : KateUndoManager) (s : Signal) :
    (m.emit s).undoItems = m.undoItems := by cases s <;> rfl

@[simp] theorem emit_redoItems (m : KateUndoManager) (s : Signal) :
    (m.emit s).redoItems = m.redoItems := by cases s <;> rfl

@[simp] theorem emit_editCurrentUndo (m : KateUndoManager) (s : Signal) :
    (m.emit s).m_editCurrentUndo = m.m_editCurrentUndo := by cases s <;> rfl

@[simp] theorem emit_isActive (m : KateUndoManager) (s : Signal) :
    (m.emit s).m_isActive = m.m_isActive := by cases s <;> rfl

@[simp] theorem emit_document (m : KateUndoManager) (s : Signal) :
    (m.emit s).m_document = m.m_document := by cases s <;> rfl

@[simp] theorem setModified_undoItems (m : KateUndoManager) (b : Bool) :
    (m.setModified b).undoItems = m.undoItems := by
  unfold setModified; split
  · simp only []; split <;> split <;> rfl
  · rfl

@[simp] theorem setModified_redoItems (m : KateUndoManager) (b : Bool) :
    (m.setModified b).redoItems = m.redoItems := by
  unfold setModified; split
  · simp only []; split <;> split <;> rfl
  · rfl

@[simp] theorem setModified_editCurrentUndo (m : KateUndoManager) (b : Bool) :
    (m.setModified b).m_editCurrentUndo = m.m_editCurrentUndo := by
  unfold setModified; split
  · simp only []; split <;> split <;> rfl
  · rfl

@[simp] theorem setModified_isActive (m : KateUndoManager) (b : Bool) :
    (m.setModified b).m_isActive = m.m_isActive := by
  unfold setModified; split
  · simp only []; split <;> split <;> rfl
  · rfl

@[simp] theorem setModified_emitted (m : KateUndoManager) (b : Bool) :
    (m.setModified b).emitted = m.emitted := by
  unfold setModified; split
  · simp only []; split <;> split <;> rfl
  · rfl

@[simp] theorem setModified_document (m : KateUndoManager) (b : Bool) :
    (m.setModified b).m_document = m.m_document := by
  unfold setModified; split
  · simp only []; split <;> split <;> rfl
  · rfl

@[simp] theorem documentSetModified_undoItems (m : KateUndoManager) (b : Bool) :
    (m.documentSetModified b).undoItems = m.undoItems := by simp [documentSetModified]

@[simp] theorem documentSetModified_redoItems (m : KateUndoManager) (b : Bool) :
    (m.documentSetModified b).redoItems = m.redoItems := by simp [documentSetModified]

@[simp] theorem documentSetModified_editCurrentUndo (m : KateUndoManager) (b : Bool) :
    (m.documentSetModified b).m_editCurrentUndo = m.m_editCurrentUndo := by
  simp [documentSetModified]

@[simp] theorem documentSetModified_isActive (m : KateUndoManager) (b : Bool) :
    (m.documentSetModified b).m_isActive = m.m_isActive := by simp [documentSetModified]

@[simp] theorem documentSetModified_emitted (m : KateUndoManager) (b : Bool) :
    (m.documentSetModified b).emitted = m.emitted := by simp [documentSetModified]

@[simp] theorem documentSetModified_document (m : KateUndoManager) (b : Bool) :
    (m.documentSetModified b).m_document = { m.m_document with modified := b } := by
  simp [documentSetModified]

@[simp] theorem undoSafePoint_redoItems (m : KateUndoManager) :
    m.undoSafePoint.redoItems = m.redoItems := by
  unfold undoSafePoint; split <;> rfl

@[simp] theorem undoSafePoint_isActive (m : KateUndoManager) :
    m.undoSafePoint.m_isActive = m.m_isActive := by
  unfold undoSafePoint; split <;> rfl

@[simp] theorem undoSafePoint_emitted (m : KateUndoManager) :
    m.undoSafePoint.emitted = m.emitted := by
  unfold undoSafePoint; split <;> rfl

@[simp] theorem undoSafePoint_document (m : KateUndoManager) :
    m.undoSafePoint.m_document = m.m_document := by
  unfold undoSafePoint; split <;> rfl

theorem undoSafePoint_editCurrentUndo (m : KateUndoManager) :
    m.undoSafePoint.m_editCurrentUndo = m.m_editCurrentUndo.map KateUndoGroup.markSafePoint := by
  unfold undoSafePoint; split <;> simp [*]

theorem undoSafePoint_undoItems_of_closed (m : KateUndoManager)
    (h : m.m_editCurrentUndo = none) :
    m.undoSafePoint.undoItems = modifyBack KateUndoGroup.markSafePoint m.undoItems := by
  unfold undoSafePoint; rw [h]

theorem undoSafePoint_undoItems_length (m : KateUndoManager) :
    m.undoSafePoint.undoItems.length = m.undoItems.length := by
  unfold undoSafePoint; split
  · rcases List.eq_nil_or_concat m.undoItems with h | ⟨u, g, h⟩ <;> simp [h, modifyBack]
  · rfl

@[simp] theorem updateModified_redoItems (m : KateUndoManager) :
    m.updateModified.redoItems = m.redoItems := by
  unfold updateModified; split <;> simp

@[simp] theorem updateModified_isActive (m : KateUndoManager) :
    m.updateModified.m_isActive = m.m_isActive := by
  unfold updateModified; split <;> simp

@[simp] theorem updateModified_emitted (m : KateUndoManager) :
    m.updateModified.emitted = m.emitted := by
  unfold updateModified; split <;> simp

theorem updateModified_editCurrentUndo_of_closed (m : KateUndoManager)
    (h : m.m_editCurrentUndo = none) : m.updateModified.m_editCurrentUndo = none := by
  unfold updateModified; split
  · simp [undoSafePoint_editCurrentUndo, h]
  · exact h

theorem updateModified_undoItems_of_closed (m : KateUndoManager)
    (h : m.m_editCurrentUndo = none) :
    m.updateModified.undoItems = m.undoItems ∨
      (m.updateModified.m_document.modified = false ∧
       m.updateModified.undoItems = modifyBack KateUndoGroup.markSafePoint m.undoItems) := by
  unfold updateModified; split
  · right
    have h2 : (m.documentSetModified false).m_editCurrentUndo = none := by simpa using h
    simp [undoSafePoint_undoItems_of_closed _ h2]
  · left; rfl

end KateUndoManager

theorem modifyBack_length {α : Type} (f : α → α) (l : List α) :
    (modifyBack f l).length = l.length := by
  rcases List.eq_nil_or_concat l with h | ⟨u, g, h⟩
  · subst h; simp [modifyBack]
  · subst h; simp [modifyBack]

theorem modifyBack_concat {α : Type} (f : α → α) (u : List α) (g : α) :
    modifyBack f (u ++ [g]) = u ++ [f g] := by
  simp [modifyBack]

theorem undo_of_concat (ops : GroupOps) (m : KateUndoManager) (u : List KateUndoGroup)
    (g : KateUndoGroup) (hopen : m.m_editCurrentUndo = none) (hu : m.undoItems = u ++ [g]) :
    m.undo ops = some (emit (updateModified
      { m with m_document := ops.undo g m.m_document
               redoItems := m.redoItems ++ [g]
               undoItems := u
               emitted := m.emitted ++ [Signal.undoStart] }) Signal.undoEnd) := by
  obtain ⟨doc, cm, act, cur, ui, ri, lu, lr, wu, wr, su, sr, ck, em⟩ := m
  simp only at hopen hu
  subst hopen hu
  simp [undo, emit]

theorem redo_of_concat (ops : GroupOps) (m : KateUndoManager) (r : List KateUndoGroup)
    (g : KateUndoGroup) (hopen : m.m_editCurrentUndo = none) (hr : m.redoItems = r ++ [g]) :
    m.redo ops = some (emit (updateModified
      { m with m_document := ops.redo g m.m_document
               undoItems := m.undoItems ++ [g]
               redoItems := r
               emitted := m.emitted ++ [Signal.redoStart] }) Signal.redoEnd) := by
  obtain ⟨doc, cm, act, cur, ui, ri, lu, lr, wu, wr, su, sr, ck, em⟩ := m
  simp only at hopen hr
  subst hopen hr
  simp [redo, emit]

theorem editEnd_of_open (ops : GroupOps) (m : KateUndoManager) (g : KateUndoGroup)
    (hact : m.m_isActive = true) (hopen : m.m_editCurrentUndo = some g) :
    m.editEnd ops =
      (let cur := g.editEnd m.snapshotCursor m.snapshotSelection m.snapshotSecondary
       if cur.isEmpty then some { m with m_editCurrentUndo := none }
       else
        match m.undoItems.getLast? with
        | some top =>
          let r := ops.merge top cur m.m_undoComplexMerge
          if r.2 then
            some { m with undoItems := m.undoItems.dropLast ++ [r.1], m_editCurrentUndo := none }
          else
            some (emit { m with undoItems := m.undoItems.dropLast ++ [r.1] ++ [cur],
                                m_editCurrentUndo := none } Signal.undoChanged)
        | none =>
          some (emit { m with undoItems := m.undoItems ++ [cur], m_editCurrentUndo := none }
                  Signal.undoChanged)) := by
  simp only [editEnd, hact, hopen]
  rfl

namespace KateUndoManager

theorem addUndoItem_cases (ops : GroupOps) (m m2 : KateUndoManager) (item : UndoItem)
    (h : addUndoItem ops m item = some m2) :
    ∃ g, m.m_editCurrentUndo = some g ∧
      m2 = { m with m_editCurrentUndo := some (ops.addItem g item), redoItems := [] } := by
  unfold addUndoItem at h
  split at h
  · exact absurd h (by simp)
  · next g hg => exact ⟨g, hg, (Option.some.inj h).symm⟩

/-- A notification either leaves the manager as it is or records one item in the open group and
clears the redo stack. -/
theorem notification_cases (ops : GroupOps) (c : Call) (m m2 : KateUndoManager)
    (hc : c.isNotification = true) (h : run ops c m = some m2) :
    m2 = m ∨ ∃ g item, m.m_editCurrentUndo = some g ∧
      m2 = { m with m_editCurrentUndo := some (ops.addItem g item), redoItems := [] } := by
  cases c <;> simp only [Call.isNotification, Bool.false_eq_true] at hc <;> simp only [run] at h
  case slotTextInserted line col s =>
    unfold slotTextInserted at h
    split at h
    · left; exact (Option.some.inj h).symm
    · split at h
      · exact absurd h (by simp)
      · right
        obtain ⟨g, hg, h2⟩ := addUndoItem_cases ops m m2 _ h
        exact ⟨g, _, hg, h2⟩
  case slotTextRemoved line col s =>
    unfold slotTextRemoved at h
    split at h
    · left; exact (Option.some.inj h).symm
    · split at h
      · exact absurd h (by simp)
      · right
        obtain ⟨g, hg, h2⟩ := addUndoItem_cases ops m m2 _ h
        exact ⟨g, _, hg, h2⟩
  case slotMarkLineAutoWrapped line b =>
    unfold slotMarkLineAutoWrapped at h
    split at h
    · right
      obtain ⟨g, hg, h2⟩ := addUndoItem_cases ops m m2 _ h
      exact ⟨g, _, hg, h2⟩
    · left; exact (Option.some.inj h).symm
  case slotLineWrapped line col length newLine =>
    unfold slotLineWrapped at h
    split at h
    · left; exact (Option.some.inj h).symm
    · split at h
      · exact absurd h (by simp)
      · right
        obtain ⟨g, hg, h2⟩ := addUndoItem_cases ops m m2 _ h
        exact ⟨g, _, hg, h2⟩
  case slotLineUnWrapped line col length removed =>
    unfold slotLineUnWrapped at h
    split at h
    · left; exact (Option.some.inj h).symm
    · split at h
      · right
        obtain ⟨g, hg, h2⟩ := addUndoItem_cases ops m m2 _ h
        exact ⟨g, _, hg, h2⟩
      · exact absurd h (by simp)
  case slotLineInserted line s =>
    unfold slotLineInserted at h
    split at h
    · right
      obtain ⟨g, hg, h2⟩ := addUndoItem_cases ops m m2 _ h
      exact ⟨g, _, hg, h2⟩
    · left; exact (Option.some.inj h).symm
  case slotLineRemoved line s =>
    unfold slotLineRemoved at h
    split at h
    · split at h
      · exact absurd h (by simp)
      · right
        obtain ⟨g, hg, h2⟩ := addUndoItem_cases ops m m2 _ h
        exact ⟨g, _, hg, h2⟩
    · left; exact (Option.some.inj h).symm

theorem editStart_cases (m m2 : KateUndoManager) (h : m.editStart = some m2) :
    (m.m_isActive = false ∧ m2 = m) ∨
    (m.m_isActive = true ∧ m.m_editCurrentUndo = none ∧
      m2.m_editCurrentUndo =
        some (KateUndoGroup.new m.snapshotCursor m.snapshotSelection m.snapshotSecondary) ∧
      m2.m_isActive = true ∧ m2.undoItems = m.undoItems ∧ m2.redoItems = m.redoItems ∧
      m2.emitted = m.emitted) := by
  unfold editStart at h
  split at h
  · next hi =>
    left
    exact ⟨by simpa using hi, (Option.some.inj h).symm⟩
  · next hi =>
    split at h
    · exact absurd h (by simp)
    · next ho =>
      right
      cases h
      exact ⟨by simpa using hi, by simpa using ho, rfl, by simpa using hi, rfl, rfl, rfl⟩

theorem editEnd_cases (ops : GroupOps) (m m2 : KateUndoManager) (h : m.editEnd ops = some m2) :
    (m.m_isActive = false ∧ m2 = m) ∨
    (m.m_isActive = true ∧ m.m_editCurrentUndo ≠ none ∧ m2.m_editCurrentUndo = none ∧
      m2.m_isActive = true ∧ m2.redoItems = m.redoItems) := by
  unfold editEnd at h
  split at h
  · next hi =>
    left
    exact ⟨by simpa using hi, (Option.some.inj h).symm⟩
  · next hi =>
    have hact : m.m_isActive = true := by simpa using hi
    right
    split at h
    · exact absurd h (by simp)
    · next g hg =>
      refine ⟨hact, by simp [hg], ?_⟩
      simp only at h
      split at h
      · cases h; exact ⟨rfl, hact, rfl⟩
      · split at h
        · split at h
          · cases h; exact ⟨rfl, hact, rfl⟩
          · cases h; simp [hact]
        · cases h; simp [hact]

theorem setActive_cases (m m2 : KateUndoManager) (b : Bool) (h : m.setActive b = some m2) :
    m.m_editCurrentUndo = none ∧ m.m_isActive ≠ b ∧
      m2 = emit { m with m_isActive := b } (Signal.isActiveChanged b) := by
  unfold setActive at h
  split at h
  · exact absurd h (by simp)
  · next ho =>
    split at h
    · exact absurd h (by simp)
    · next hb => exact ⟨by simpa using ho, hb, (Option.some.inj h).symm⟩

theorem undo_cases (ops : GroupOps) (m m2 : KateUndoManager) (h : m.undo ops = some m2) :
    m.m_editCurrentUndo = none ∧ m2.m_editCurrentUndo = none ∧ m2.m_isActive = m.m_isActive := by
  unfold undo at h
  split at h
  · exact absurd h (by simp)
  · next ho =>
    have hn : m.m_editCurrentUndo = none := by simpa using ho
    split at h
    · cases h; exact ⟨hn, hn, rfl⟩
    · cases h
      refine ⟨hn, ?_, by simp [emit]⟩
      rw [emit_editCurrentUndo]
      exact updateModified_editCurrentUndo_of_closed _ (by simpa [emit] using hn)

theorem redo_cases (ops : GroupOps) (m m2 : KateUndoManager) (h : m.redo ops = some m2) :
    m.m_editCurrentUndo = none ∧ m2.m_editCurrentUndo = none ∧ m2.m_isActive = m.m_isActive := by
  unfold redo at h
  split at h
  · exact absurd h (by simp)
  · next ho =>
    have hn : m.m_editCurrentUndo = none := by simpa using ho
    split at h
    · cases h; exact ⟨hn, hn, rfl⟩
    · cases h
      refine ⟨hn, ?_, by simp [emit]⟩
      rw [emit_editCurrentUndo]
      exact updateModified_editCurrentUndo_of_closed _ (by simpa [emit] using hn)

theorem sweepBackward_nil (f : KateUndoGroup → QBitArray → KateUndoGroup × QBitArray)
    (lines : QBitArray) : (sweepBackward f [] lines).1 = [] := rfl

theorem inv_step_other (ops : GroupOps) (c : Call) (m m2 : KateUndoManager)
    (hn : c.isNotification = false)
    (hguard : c.isReload = true → m.m_editCurrentUndo = none)
    (h1 : m.m_isActive = false → m.m_editCurrentUndo = none)
    (h2 : ∀ g, m.m_editCurrentUndo = some g → g.isEmpty = false → m.redoItems = [])
    (h : run ops c m = some m2) :
    (m2.m_isActive = false → m2.m_editCurrentUndo = none) ∧
    (∀ g, m2.m_editCurrentUndo = some g → g.isEmpty = false → m2.redoItems = []) := by
  cases c <;> simp only [Call.isNotification, Bool.true_eq_false] at hn <;>
    simp only [run] at h
  case editStart =>
      rcases editStart_cases m m2 h with ⟨_, rfl⟩ | ⟨_, _, hg, ha, _, _, _⟩
      · exact ⟨h1, h2⟩
      · refine ⟨fun hi => absurd (ha ▸ hi) (by simp), fun g hg2 hne => ?_⟩
        rw [hg] at hg2
        cases hg2
        simp [KateUndoGroup.isEmpty, KateUndoGroup.new] at hne
  case editEnd =>
      rcases editEnd_cases ops m m2 h with ⟨_, rfl⟩ | ⟨_, _, hg, _, _⟩
      · exact ⟨h1, h2⟩
      · exact ⟨fun _ => hg, fun g hg2 => absurd (hg ▸ hg2) (by simp)⟩
  case undoCancel =>
      cases h
      unfold undoCancel
      split
      · exact ⟨h1, h2⟩
      · refine ⟨fun hi => ?_, fun g hg hne => ?_⟩
        · rw [undoSafePoint_editCurrentUndo, h1 (by simpa using hi)]; rfl
        · rw [undoSafePoint_editCurrentUndo] at hg
          rw [undoSafePoint_redoItems]
          cases hm : m.m_editCurrentUndo with
          | none => simp [hm] at hg
          | some g0 =>
            simp [hm] at hg
            subst hg
            exact h2 g0 hm hne
  case undoSafePoint =>
      cases h
      refine ⟨fun hi => ?_, fun g hg hne => ?_⟩
      · rw [undoSafePoint_editCurrentUndo, h1 (by simpa using hi)]; rfl
      · rw [undoSafePoint_editCurrentUndo] at hg
        rw [undoSafePoint_redoItems]
        cases hm : m.m_editCurrentUndo with
        | none => simp [hm] at hg
        | some g0 =>
          simp [hm] at hg
          subst hg
          exact h2 g0 hm hne
  case setActive b =>
      obtain ⟨hc, _, rfl⟩ := setActive_cases m m2 b h
      exact ⟨fun _ => by simpa using hc, fun g hg => absurd hg (by simp [hc])⟩
  case undo =>
      obtain ⟨_, hc, _⟩ := undo_cases ops m m2 h
      exact ⟨fun _ => hc, fun g hg => absurd hg (by simp [hc])⟩
  case redo =>
      obtain ⟨_, hc, _⟩ := redo_cases ops m m2 h
      exact ⟨fun _ => hc, fun g hg => absurd hg (by simp [hc])⟩
  case updateModified =>
      cases h
      unfold updateModified
      split
      · refine ⟨fun hi => ?_, fun g hg hne => ?_⟩
        · rw [undoSafePoint_editCurrentUndo, documentSetModified_editCurrentUndo,
            h1 (by simpa using hi)]; rfl
        · rw [undoSafePoint_editCurrentUndo, documentSetModified_editCurrentUndo] at hg
          rw [undoSafePoint_redoItems, documentSetModified_redoItems]
          cases hm : m.m_editCurrentUndo with
          | none => simp [hm] at hg
          | some g0 =>
            simp [hm] at hg
            subst hg
            exact h2 g0 hm hne
      · exact ⟨h1, h2⟩
  case clearUndo =>
      cases h
      exact ⟨by simpa [clearUndo] using h1, by simpa [clearUndo] using h2⟩
  case clearRedo =>
      cases h
      exact ⟨by simpa [clearRedo] using h1, by simp [clearRedo]⟩
  case setModified b =>
      cases h
      exact ⟨by simpa using h1, by simpa using h2⟩
  case updateLineModifications =>
      cases h
      refine ⟨h1, fun g hg hne => ?_⟩
      have := h2 g hg hne
      simp [updateLineModifications, this, sweepBackward]
  case setUndoRedoCursorsOfLastGroup u r =>
      unfold setUndoRedoCursorsOfLastGroup at h
      split at h
      · exact absurd h (by simp)
      · next ho =>
        cases h
        have hc : m.m_editCurrentUndo = none := by simpa using ho
        exact ⟨fun _ => hc, fun g hg => absurd hg (by simp [hc])⟩
  case updateConfig =>
      cases h
      exact ⟨by simpa [updateConfig] using h1, by simpa [updateConfig] using h2⟩
  case setAllowComplexMerge b =>
      cases h
      exact ⟨h1, h2⟩
  case startUndo =>
      unfold startUndo at h
      cases hs : m.setActive false with
      | none => simp [hs] at h
      | some m1 =>
        simp only [hs, Option.some_bind] at h
        obtain ⟨hc, _, rfl⟩ := setActive_cases m m1 false hs
        rcases editStart_cases _ m2 h with ⟨_, rfl⟩ | ⟨ha, _⟩
        · exact ⟨fun _ => by simpa using hc, fun g hg => absurd hg (by simp [hc])⟩
        · simp [emit] at ha
  case endUndo =>
      unfold endUndo at h
      cases hs : m.editEnd ops with
      | none => simp [hs] at h
      | some m1 =>
        simp only [hs, Option.some_bind] at h
        obtain ⟨hc, _, rfl⟩ := setActive_cases m1 m2 true h
        exact ⟨fun _ => by simpa using hc, fun g hg => absurd hg (by simp [hc])⟩
  case aboutToReload =>
      cases h
      exact ⟨h1, fun _ _ _ => rfl⟩
  case loaded doc =>
      cases h
      have hc : m.m_editCurrentUndo = none := hguard rfl
      have : (m.loaded doc).m_editCurrentUndo = none := by
        unfold loaded
        simp only
        split <;> simp [hc]
      exact ⟨fun _ => this, fun g hg => absurd hg (by simp [this])⟩
  case documentChanged doc =>
      cases h
      exact ⟨h1, h2⟩

/-- One call preserves the two facts: an inactive manager has no open group, and while the open
group holds an item the redo stack is empty. -/
theorem inv_step (ops : GroupOps) (c : Call) (m m2 : KateUndoManager)
    (hguard : c.isReload = true → m.m_editCurrentUndo = none)
    (h1 : m.m_isActive = false → m.m_editCurrentUndo = none)
    (h2 : ∀ g, m.m_editCurrentUndo = some g → g.isEmpty = false → m.redoItems = [])
    (h : run ops c m = some m2) :
    (m2.m_isActive = false → m2.m_editCurrentUndo = none) ∧
    (∀ g, m2.m_editCurrentUndo = some g → g.isEmpty = false → m2.redoItems = []) := by
  cases hn : c.isNotification with
  | true =>
    rcases notification_cases ops c m m2 hn h with rfl | ⟨g, item, hg, rfl⟩
    · exact ⟨h1, h2⟩
    · refine ⟨fun hi => ?_, fun _ _ _ => rfl⟩
      have := h1 hi
      rw [hg] at this
      exact absurd this (by simp)
  | false => exact inv_step_other ops c m m2 hn hguard h1 h2 h

/-- In every reachable state an inactive manager has no open group, and while the open group
holds an item the redo stack is empty. -/
theorem reachable_inv (ops : GroupOps) (m : KateUndoManager) (h : Reachable ops m) :
    (m.m_isActive = false → m.m_editCurrentUndo = none) ∧
    (∀ g, m.m_editCurrentUndo = some g → g.isEmpty = false → m.redoItems = []) := by
  induction h with
  | init doc => exact ⟨fun _ => rfl, fun g hg => absurd hg (by simp [KateUndoManager.new])⟩
  | step c m m2 _ hguard hrun ih => exact inv_step ops c m m2 hguard ih.1 ih.2 hrun

/-- A sequence of calls without reload notification, none of whose assertions fails, leads from
a reachable state to a reachable state. -/
theorem reachable_runAll (ops : GroupOps) (cs : List Call) (m m2 : KateUndoManager)
    (hreach : Reachable ops m) (hcs : ∀ c ∈ cs, c.isReload = false)
    (hrun : runAll ops cs m = some m2) : Reachable ops m2 := by
  induction cs generalizing m with
  | nil =>
    simp only [runAll, Option.some.injEq] at hrun
    subst hrun
    exact hreach
  | cons c cs ih =>
    simp only [runAll] at hrun
    cases hc : run ops c m with
    | none => simp [hc] at hrun
    | some m1 =>
      simp only [hc, Option.some_bind] at hrun
      have hnr : c.isReload = false := hcs c (List.mem_cons_self _ _)
      exact ih m1 (Reachable.step c m m1 hreach (fun h => by simp [hnr] at h) hc)
        (fun c2 hc2 => hcs c2 (List.mem_cons_of_mem _ hc2)) hrun

/-- A notification received while no group is open changes nothing. -/
theorem notification_closed (ops : GroupOps) (c : Call) (m : KateUndoManager)
    (hc : c.isNotification = true) (hg : m.m_editCurrentUndo = none) :
    run ops c m = some m := by
  cases c <;> simp only [Call.isNotification, Bool.false_eq_true] at hc <;>
    simp [run, slotTextInserted, slotTextRemoved, slotMarkLineAutoWrapped, slotLineWrapped,
      slotLineUnWrapped, slotLineInserted, slotLineRemoved, hg]

/-- While the manager is inactive and no group is open, `editStart`, `editEnd`, the notifications
and changes of the document leave the manager without open group and do not touch the stacks
or the signal log. -/
theorem quiet_step (ops : GroupOps) (c : Call) (m : KateUndoManager)
    (hin : m.m_isActive = false) (hg : m.m_editCurrentUndo = none)
    (hc : c = Call.editStart ∨ c = Call.editEnd ∨ c.isNotification = true
            ∨ c.isDocumentChanged = true) :
    ∃ m2, run ops c m = some m2 ∧ m2.m_editCurrentUndo = none ∧ m2.m_isActive = false ∧
      m2.undoItems = m.undoItems ∧ m2.redoItems = m.redoItems ∧ m2.emitted = m.emitted := by
  rcases hc with rfl | rfl | hc | hc
  · exact ⟨m, by simp [run, editStart, hin], hg, hin, rfl, rfl, rfl⟩
  · exact ⟨m, by simp [run, editEnd, hin], hg, hin, rfl, rfl, rfl⟩
  · exact ⟨m, notification_closed ops c m hc hg, hg, hin, rfl, rfl, rfl⟩
  · cases c <;> simp only [Call.isDocumentChanged, Bool.false_eq_true] at hc
    exact ⟨_, rfl, hg, hin, rfl, rfl, rfl⟩

theorem quiet_run (ops : GroupOps) (cs : List Call) (m : KateUndoManager)
    (hin : m.m_isActive = false) (hg : m.m_editCurrentUndo = none)
    (hcs : ∀ c ∈ cs, c = Call.editStart ∨ c = Call.editEnd ∨ c.isNotification = true
            ∨ c.isDocumentChanged = true) :
    ∃ m2, runAll ops cs m = some m2 ∧ m2.m_editCurrentUndo = none ∧ m2.m_isActive = false ∧
      m2.undoItems = m.undoItems ∧ m2.redoItems = m.redoItems ∧ m2.emitted = m.emitted := by
  induction cs generalizing m with
  | nil => exact ⟨m, rfl, hg, hin, rfl, rfl, rfl⟩
  | cons c cs ih =>
    obtain ⟨m1, hr, hg1, hin1, hu1, hr1, he1⟩ :=
      quiet_step ops c m hin hg (hcs c (List.mem_cons_self _ _))
    obtain ⟨m2, hr2, hg2, hin2, hu2, hrr2, he2⟩ :=
      ih m1 hin1 hg1 (fun c2 hc2 => hcs c2 (List.mem_cons_of_mem _ hc2))
    refine ⟨m2, ?_, hg2, hin2, hu2.trans hu1, hrr2.trans hr1, he2.trans he1⟩
    simp [runAll, hr, hr2]

/-- Inside a bracket, notifications and changes of the document keep the undo stack and the
signal log, and keep the redo stack as long as the open group holds no item. -/
theorem bracket_run (ops : GroupOps)
    (hadd : ∀ g item, (ops.addItem g item).isEmpty = false)
    (ns : List Call) (m0 m m1 : KateUndoManager)
    (hns : ∀ c ∈ ns, c.isNotification = true ∨ c.isDocumentChanged = true)
    (hact : m.m_isActive = true)
    (hopen : ∃ g, m.m_editCurrentUndo = some g ∧ (g.isEmpty = true → m.redoItems = m0.redoItems))
    (hu : m.undoItems = m0.undoItems) (he : m.emitted = m0.emitted)
    (hrun : runAll ops ns m = some m1) :
    m1.m_isActive = true ∧
    (∃ g, m1.m_editCurrentUndo = some g ∧ (g.isEmpty = true → m1.redoItems = m0.redoItems)) ∧
    m1.undoItems = m0.undoItems ∧ m1.emitted = m0.emitted := by
  induction ns generalizing m with
  | nil =>
    simp only [runAll, Option.some.injEq] at hrun
    subst hrun
    exact ⟨hact, hopen, hu, he⟩
  | cons c cs ih =>
    simp only [runAll] at hrun
    cases hc : run ops c m with
    | none => simp [hc] at hrun
    | some m' =>
      simp only [hc, Option.some_bind] at hrun
      have hcs : ∀ c ∈ cs, c.isNotification = true ∨ c.isDocumentChanged = true :=
        fun c2 hc2 => hns c2 (List.mem_cons_of_mem _ hc2)
      rcases hns c (List.mem_cons_self _ _) with hn | hd
      · rcases notification_cases ops c m m' hn hc with rfl | ⟨g, item, hg, rfl⟩
        · exact ih m' hcs hact hopen hu he hrun
        · refine ih { m with m_editCurrentUndo := some (ops.addItem g item), redoItems := [] } hcs hact
            ⟨ops.addItem g item, rfl, fun hemp => ?_⟩ hu he hrun
          rw [hadd g item] at hemp
          exact absurd hemp (by simp)
      · cases c <;> simp only [Call.isDocumentChanged, Bool.false_eq_true] at hd
        rename_i doc
        simp only [run, Option.some.injEq] at hc
        subst hc
        exact ih { m with m_document := doc } hcs hact hopen hu he hrun

end KateUndoManager

/-! ## Lemmas on texts and on the replay of text insertions -/

theorem typeChar_run (m : KateUndoManager) (line col : Int) (c : Char) (after : Document)
    (tl : TextLine)
    (hact : m.m_isActive = true) (hopen : m.m_editCurrentUndo = none)
    (htl : m.m_document.plainKateTextLine line = some tl) :
    runAll specOps (typeChar line col c after) m =
      editEnd specOps { m with
        m_document := after
        m_editCurrentUndo := some
          { KateUndoGroup.new m.snapshotCursor m.snapshotSelection m.snapshotSecondary with
            items := [{ type := UndoType.editInsertText, line := line, col := col, text := [c],
                        autowrapped := false, newLine := false, removeLine := false, len := 0,
                        lineModFlags :=
                          { ModificationFlags.none with
                            RedoLine1Modified := true
                            UndoLine1Modified := tl.markedAsModified
                            UndoLine1Saved := !tl.markedAsModified } }] }
        redoItems := [] } := by
  obtain ⟨doc, cm, act, cur, ui, ri, lu, lr, wu, wr, su, sr, ck, em⟩ := m
  simp only at hact hopen htl
  subst hact hopen
  simp [typeChar, runAll, run, editStart, slotTextInserted, addUndoItem, htl, specOps,
    specAddItem, KateUndoGroup.new, UndoItem.setFlag, ModificationFlags.setFlag,
    UndoItem.default, ModificationFlags.none, snapshotCursor, snapshotSelection,
    snapshotSecondary, activeView]
  cases tl.markedAsModified <;> simp

theorem map_modifyAt {α β : Type} (f : α → α) (f2 : β → β) (p : α → β)
    (h : ∀ x, p (f x) = f2 (p x)) (n : Nat) (l : List α) :
    (modifyAt f n l).map p = modifyAt f2 n (l.map p) := by
  induction l generalizing n with
  | nil => cases n <;> rfl
  | cons x xs ih =>
    cases n with
    | zero => simp [modifyAt, h]
    | succ k => simp [modifyAt, ih]

theorem map_modifyAt_same {α β : Type} (f : α → α) (p : α → β)
    (h : ∀ x, p (f x) = p x) (n : Nat) (l : List α) :
    (modifyAt f n l).map p = l.map p := by
  induction l generalizing n with
  | nil => cases n <;> rfl
  | cons x xs ih =>
    cases n with
    | zero => simp [modifyAt, h]
    | succ k => simp [modifyAt, ih]

theorem modifyAt_modifyAt {α : Type} (f g : α → α) (n : Nat) (l : List α) :
    modifyAt g n (modifyAt f n l) = modifyAt (fun x => g (f x)) n l := by
  induction l generalizing n with
  | nil => cases n <;> rfl
  | cons x xs ih =>
    cases n with
    | zero => simp [modifyAt]
    | succ k => simp [modifyAt, ih]

theorem modifyAt_eq_self {α : Type} (f : α → α) (n : Nat) (l : List α)
    (h : ∀ x, l.get? n = some x → f x = x) : modifyAt f n l = l := by
  induction l generalizing n with
  | nil => cases n <;> rfl
  | cons x xs ih =>
    cases n with
    | zero => simp [modifyAt, h x (by simp)]
    | succ k =>
      simp only [modifyAt, List.cons.injEq, true_and]
      exact ih k (fun y hy => h y (by simpa using hy))

theorem modifyAt_length {α : Type} (f : α → α) (n : Nat) (l : List α) :
    (modifyAt f n l).length = l.length := by
  induction l generalizing n with
  | nil => cases n <;> rfl
  | cons x xs ih =>
    cases n with
    | zero => simp [modifyAt]
    | succ k => simp [modifyAt, ih]

theorem modifyAt_get? {α : Type} (f : α → α) (n : Nat) (l : List α) :
    (modifyAt f n l).get? n = (l.get? n).map f := by
  induction l generalizing n with
  | nil => cases n <;> rfl
  | cons x xs ih =>
    cases n with
    | zero => simp [modifyAt]
    | succ k => simpa [modifyAt] using ih k

/-- Removing at a column what has just been inserted there gives the text back. -/
theorem remove_insert_text (t s : QString) (k : Nat) (hk : k ≤ t.length) :
    (t.take k ++ s ++ t.drop k).take k
      ++ (t.take k ++ s ++ t.drop k).drop (k + s.length) = t := by
  have h1 : (t.take k).length = k := by simp [hk]
  have e1 : (t.take k ++ s ++ t.drop k).take k = t.take k := by
    rw [List.append_assoc, List.take_append_of_le_length (by omega)]
    rw [List.take_of_length_le (by omega)]
  have e2 : (t.take k ++ s ++ t.drop k).drop (k + s.length) = t.drop k := by
    have hl : (t.take k ++ s).length = k + s.length := by simp [h1]
    rw [← hl, List.drop_left]
  rw [e1, e2, List.take_append_drop]

theorem Document.texts_setLineMarks (d : Document) (line : Int) (a b : Bool) :
    (d.setLineMarks line a b).texts = d.texts := by
  unfold Document.setLineMarks Document.texts
  split
  · dsimp only
    apply map_modifyAt_same
    intro x
    rfl
  · rfl

theorem Document.texts_restoreView (d : Document) (c : Cursor) (r : Range)
    (sec : List PlainSecondaryCursor) : (d.restoreView c r sec).texts = d.texts := by
  unfold Document.restoreView
  split <;> rfl

theorem Document.texts_editInsertText (d : Document) (line col : Int) (s : QString)
    (hl : 0 ≤ line) (hc : 0 ≤ col) :
    (d.editInsertText line col s).texts =
      modifyAt (fun t => t.take col.toNat ++ s ++ t.drop col.toNat) line.toNat d.texts := by
  unfold Document.editInsertText Document.texts
  rw [if_pos ⟨hl, hc⟩]
  dsimp only
  apply map_modifyAt
  intro x
  rfl

theorem Document.texts_editRemoveText (d : Document) (line col len : Int)
    (hl : 0 ≤ line) (hc : 0 ≤ col) (hn : 0 ≤ len) :
    (d.editRemoveText line col len).texts =
      modifyAt (fun t => t.take col.toNat ++ t.drop (col.toNat + len.toNat)) line.toNat
        d.texts := by
  unfold Document.editRemoveText Document.texts
  rw [if_pos ⟨hl, hc, hn⟩]
  dsimp only
  apply map_modifyAt
  intro x
  rfl

/-- Undoing a recorded text insertion at a column inside the line removes the inserted text:
if the texts of `d2` are those of `d1` with `s` inserted, the texts after the undo are those of
`d1`. -/
theorem texts_undo_insert (item : UndoItem) (d1 d2 : Document) (tl : TextLine)
    (htype : item.type = UndoType.editInsertText)
    (hl : 0 ≤ item.line) (hc : 0 ≤ item.col)
    (htl : d1.plainKateTextLine item.line = some tl) (hle : item.col ≤ tl.length)
    (h2 : d2.texts = (d1.editInsertText item.line item.col item.text).texts) :
    (specUndoItem item d2).texts = d1.texts := by
  unfold specUndoItem
  simp only [htype]
  rw [Document.texts_setLineMarks,
    Document.texts_editRemoveText _ _ _ _ hl hc (Int.ofNat_nonneg _), h2,
    Document.texts_editInsertText _ _ _ _ hl hc, modifyAt_modifyAt]
  apply modifyAt_eq_self
  intro t ht
  have ht2 : t = tl.text := by
    unfold Document.plainKateTextLine at htl
    rw [if_pos hl] at htl
    simp only [Document.texts, List.get?_eq_getElem?, List.getElem?_map] at ht
    rw [List.get?_eq_getElem?] at htl
    rw [htl] at ht
    simpa using ht.symm
  subst ht2
  have hk : item.col.toNat ≤ tl.text.length := by
    unfold TextLine.length at hle
    omega
  simpa using remove_insert_text tl.text item.text item.col.toNat hk

theorem runAll_append (ops : GroupOps) (a b : List Call) (m : KateUndoManager) :
    runAll ops (a ++ b) m = (runAll ops a m).bind (runAll ops b) := by
  induction a generalizing m with
  | nil => simp [runAll]
  | cons c cs ih =>
    simp only [List.cons_append, runAll]
    cases run ops c m with
    | none => rfl
    | some m1 => simp [ih]

@[simp] theorem updateModified_textLines (m : KateUndoManager) :
    m.updateModified.m_document.textLines = m.m_document.textLines := by
  unfold updateModified; split <;> simp

/-- The item recorded for one character typed in a line. -/
theorem typeChar_state (m : KateUndoManager) (line col : Int) (c : Char) (after : Document)
    (tl : TextLine)
    (hact : m.m_isActive = true) (hopen : m.m_editCurrentUndo = none)
    (htl : m.m_document.plainKateTextLine line = some tl) :
    ∃ s g, runAll specOps (typeChar line col c after) m = editEnd specOps s ∧
      s.m_isActive = true ∧ s.m_editCurrentUndo = some g ∧ s.undoItems = m.undoItems ∧
      s.m_document = after ∧ s.m_undoComplexMerge = m.m_undoComplexMerge ∧
      g.safePoint = false ∧ g.cursorBefore = m.snapshotCursor ∧
      ∃ item, g.items = [item] ∧ item.type = UndoType.editInsertText ∧ item.line = line ∧
        item.col = col ∧ item.text = [c] := by
  refine ⟨_, _, typeChar_run m line col c after tl hact hopen htl, hact, rfl, rfl, rfl, rfl,
    rfl, rfl, _, rfl, rfl, rfl, rfl, rfl⟩

theorem snapshotCursor_congr (a b : KateUndoManager) (h : a.m_document = b.m_document) :
    a.snapshotCursor = b.snapshotCursor := by
  simp [snapshotCursor, activeView, h]

/-- The result of typing one character: the recorded group is merged into the top of the undo
stack or pushed. -/
theorem typeChar_result (m : KateUndoManager) (line col : Int) (c : Char) (after : Document)
    (tl : TextLine)
    (hact : m.m_isActive = true) (hopen : m.m_editCurrentUndo = none)
    (htl : m.m_document.plainKateTextLine line = some tl) :
    ∃ r g item, runAll specOps (typeChar line col c after) m = some r ∧
      r.m_isActive = true ∧ r.m_editCurrentUndo = none ∧ r.m_document = after ∧
      r.m_undoComplexMerge = m.m_undoComplexMerge ∧
      g.safePoint = false ∧ g.cursorBefore = m.snapshotCursor ∧
      g.cursorAfter = r.snapshotCursor ∧
      g.items = [item] ∧ item.type = UndoType.editInsertText ∧ item.line = line ∧
      item.col = col ∧ item.text = [c] ∧
      r.undoItems =
        (match m.undoItems.getLast? with
         | none => m.undoItems ++ [g]
         | some top =>
           if (specMerge top g m.m_undoComplexMerge).2 then
             m.undoItems.dropLast ++ [(specMerge top g m.m_undoComplexMerge).1]
           else m.undoItems.dropLast ++ [(specMerge top g m.m_undoComplexMerge).1] ++ [g]) := by
  obtain ⟨s, g0, hrun, hsa, hsg, hsu, hsd, hsc, hsp, hcb, item, hitems, hty, hli, hco, htx⟩ :=
    typeChar_state m line col c after tl hact hopen htl
  rw [hrun, editEnd_of_open specOps s g0 hsa hsg]
  have hne : (g0.editEnd s.snapshotCursor s.snapshotSelection s.snapshotSecondary).isEmpty
      = false := by
    simp [KateUndoGroup.isEmpty, KateUndoGroup.editEnd, hitems]
  simp only [hne, Bool.false_eq_true, if_false, hsu, hsc]
  cases htop : m.undoItems.getLast? with
  | none =>
    refine ⟨_, g0.editEnd s.snapshotCursor s.snapshotSelection s.snapshotSecondary, item, rfl,
      by simpa using hsa, by simp, by simpa using hsd, by simp [emit], hsp, hcb, ?_, hitems,
      hty, hli, hco, htx, by simp⟩
    exact snapshotCursor_congr _ _ (by simp)
  | some top =>
    simp only [specOps]
    split
    · next hm =>
      refine ⟨_, g0.editEnd s.snapshotCursor s.snapshotSelection s.snapshotSecondary, item, rfl,
        hsa, rfl, hsd, rfl, hsp, hcb, ?_, hitems, hty, hli, hco, htx, ?_⟩
      · exact snapshotCursor_congr _ _ rfl
      · simp [hm]
    · next hm =>
      refine ⟨_, g0.editEnd s.snapshotCursor s.snapshotSelection s.snapshotSecondary, item, rfl,
        by simpa using hsa, by simp, by simpa using hsd, by simp [emit], hsp, hcb, ?_,
        hitems, hty, hli, hco, htx, ?_⟩
      · exact snapshotCursor_congr _ _ (by simp)
      · simp [hm]

theorem plainKateTextLine_texts (d : Document) (line : Int) (tl : TextLine)
    (h : d.plainKateTextLine line = some tl) :
    0 ≤ line ∧ d.texts.get? line.toNat = some tl.text := by
  unfold Document.plainKateTextLine at h
  split at h
  · next hl =>
    refine ⟨hl, ?_⟩
    simp only [Document.texts, List.get?_eq_getElem?, List.getElem?_map]
    rw [List.get?_eq_getElem?] at h
    rw [h]; rfl
  · exact absurd h (by simp)

/-- A line of a document whose texts are those of another document with one line rewritten. -/
theorem line_of_texts (d0 d1 : Document) (line : Int) (tl : TextLine) (f : QString → QString)
    (h0 : d0.plainKateTextLine line = some tl)
    (h1 : d1.texts = modifyAt f line.toNat d0.texts) :
    ∃ tl1, d1.plainKateTextLine line = some tl1 ∧ tl1.text = f tl.text := by
  obtain ⟨hl, hget⟩ := plainKateTextLine_texts d0 line tl h0
  have h2 : d1.texts.get? line.toNat = some (f tl.text) := by
    rw [h1, modifyAt_get?, hget]; rfl
  simp only [Document.texts, List.get?_eq_getElem?, List.getElem?_map] at h2
  cases hx : d1.textLines[line.toNat]? with
  | none => simp [hx] at h2
  | some tl1 =>
    refine ⟨tl1, ?_, ?_⟩
    · unfold Document.plainKateTextLine
      rw [if_pos hl, List.get?_eq_getElem?, hx]
    · simpa [hx] using h2

/-- What one `undo()` does to the texts of the document and to the undo stack. -/
theorem undo_texts (m : KateUndoManager) (u : List KateUndoGroup) (g : KateUndoGroup)
    (hopen : m.m_editCurrentUndo = none) (hu : m.undoItems = u ++ [g]) :
    ∃ mu, m.undo specOps = some mu ∧
      mu.m_document.texts =
        (g.items.reverse.foldl (fun doc item => specUndoItem item doc) m.m_document).texts ∧
      mu.m_editCurrentUndo = none ∧
      (mu.undoItems = u ∨ mu.undoItems = modifyBack KateUndoGroup.markSafePoint u) := by
  refine ⟨_, undo_of_concat specOps m u g hopen hu, ?_, ?_, ?_⟩
  · simp only [emit_document, Document.texts, updateModified_textLines]
    exact Document.texts_restoreView _ _ _ _
  · rw [emit_editCurrentUndo]
    exact updateModified_editCurrentUndo_of_closed _ hopen
  · rw [emit_undoItems]
    rcases updateModified_undoItems_of_closed
        { m with m_document := specOps.undo g m.m_document
                 redoItems := m.redoItems ++ [g]
                 undoItems := u
                 emitted := m.emitted ++ [Signal.undoStart] } hopen with h | ⟨_, h⟩
    · exact Or.inl h
    · exact Or.inr h

theorem texts_undo_insert_at (item : UndoItem) (d1 d2 : Document) (tl : TextLine)
    (line col : Int) (s : QString)
    (htype : item.type = UndoType.editInsertText) (hli : item.line = line)
    (hco : item.col = col) (htx : item.text = s) (hc : 0 ≤ col)
    (htl : d1.plainKateTextLine line = some tl) (hle : col ≤ tl.length)
    (h2 : d2.texts = (d1.editInsertText line col s).texts) :
    (specUndoItem item d2).texts = d1.texts := by
  subst hli hco htx
  exact texts_undo_insert item d1 d2 tl htype (plainKateTextLine_texts _ _ _ htl).1 hc htl hle h2

/-! ## The replay modelled from the specification and the tests of the repository -/

/-- The replay modelled from the specification against `testWrapLineAtStart` (second phase) of
the test suite: after the simulated save line 0 is marked saved on disk and the wrap item carries
no undo-direction flag; after `undo()` the test expects lines 0 and 1 to be neither modified nor
saved, and after `redo()` line 0 to be saved on disk and lines 1 and 2 to carry no mark. -/
theorem replay_agrees_with_testWrapLineAtStart :
    (runAll specOps (wrapAtStartCalls ++ [Call.undo]) (KateUndoManager.new wrapDoc0)).map
        (fun m => (m.m_document.texts, m.m_document.marks))
      = some ([['a', 'a', 'a', 'a'], ['b', 'b', 'b', 'b']], [(false, false), (false, false)]) ∧
    (runAll specOps (wrapAtStartCalls ++ [Call.undo, Call.redo])
        (KateUndoManager.new wrapDoc0)).map
        (fun m => (m.m_document.texts, m.m_document.marks))
      = some ([[], ['a', 'a', 'a', 'a'], ['b', 'b', 'b', 'b']],
          [(false, true), (false, false), (false, false)]) := by
  decide

/-- The replay modelled from the specification against `testUnWrapLine2Empty` (first phase) of
the test suite: after `undo()` the test expects line 1 to be saved on disk and lines 0 and 2 to
carry no mark, and after `redo()` no line to carry a mark. -/
theorem replay_agrees_with_testUnWrapLine2Empty :
    (runAll specOps (unwrap2EmptyCalls ++ [Call.undo]) (KateUndoManager.new unwrapDoc0)).map
        (fun m => (m.m_document.texts, m.m_document.marks))
      = some ([['a', 'a', 'a', 'a'], [], ['b', 'b', 'b', 'b']],
          [(false, false), (false, true), (false, false)]) ∧
    (runAll specOps (unwrap2EmptyCalls ++ [Call.undo, Call.redo])
        (KateUndoManager.new unwrapDoc0)).map
        (fun m => (m.m_document.texts, m.m_document.marks))
      = some ([['a', 'a', 'a', 'a'], ['b', 'b', 'b', 'b']], [(false, false), (false, false)]) := by
  decide

/-! ## C1: round trip of undo and redo -/

/-- C1, evaluated at a failing input.  'a' is typed at the end of line 0 and the empty line 1
is then joined into line 0 (`joinCalls`); before the first `undo()` line 0 is "aaaa", marked
modified.  The handler `slotLineUnWrapped` takes the redo-direction flag from the empty next
line, so the recorded item carries none.  After `undo()`, `undo()`, `redo()`, `redo()` the texts
are the same but line 0 is neither marked modified nor saved on disk. -/
theorem round_trip_loses_modified_mark :
    runAll specOps joinCalls (KateUndoManager.new joinDoc0) = some joinedState ∧
    joinedState.undoCount = 2 ∧
    joinedState.m_document.texts = [['a', 'a', 'a', 'a']] ∧
    joinedState.m_document.marks = [(true, false)] ∧
    (runAll specOps [Call.undo, Call.undo, Call.redo, Call.redo] joinedState).map
        (fun m => (m.undoCount, m.m_document.texts, m.m_document.marks))
      = some (2, [['a', 'a', 'a', 'a']], [(false, false)]) := by
  decide

/-! ## C2: `undo()` and `redo()` move the top group between the stacks -/

theorem currentPattern_congr (m n : KateUndoManager)
    (h1 : m.undoItems = n.undoItems) (h2 : m.redoItems = n.redoItems)
    (h3 : m.docWasSavedWhenUndoWasEmpty = n.docWasSavedWhenUndoWasEmpty)
    (h4 : m.docWasSavedWhenRedoWasEmpty = n.docWasSavedWhenRedoWasEmpty)
    (h5 : m.lastUndoGroupWhenSaved = n.lastUndoGroupWhenSaved)
    (h6 : m.lastRedoGroupWhenSaved = n.lastRedoGroupWhenSaved) :
    m.currentPattern = n.currentPattern := by
  simp only [currentPattern, undoLast, redoLast, h1, h2, h3, h4, h5, h6]

theorem updateModified_undoItems_of_pattern (m : KateUndoManager)
    (h : m.m_editCurrentUndo = none) :
    (m.currentPattern ∈ patterns →
      m.updateModified.undoItems = modifyBack KateUndoGroup.markSafePoint m.undoItems ∧
      m.updateModified.m_document.modified = false) ∧
    (m.currentPattern ∉ patterns → m.updateModified.undoItems = m.undoItems) := by
  constructor
  · intro hp
    have h2 : (m.documentSetModified false).m_editCurrentUndo = none := by simpa using h
    simp [updateModified, hp, undoSafePoint_undoItems_of_closed _ h2]
  · intro hp
    simp [updateModified, hp]

/-- Counterexample to C2 as stated.  A new manager records two groups, undoes the second one,
the document is marked saved, and the second group is redone: no group is open, the undo stack
is `u ++ [g]` with `u` the first group, the redo stack is empty, and since the save no stack has
grown beyond the number of groups it held before.  `undo()` then finds both stacks as they were
at the save (pattern 144 of the table) and marks the new top of the undo stack as a safe point,
so the undo stack it leaves is not `u`. -/
theorem undo_marks_new_top_as_safe_point :
    runAll specOps savedBetweenUndoAndRedo (KateUndoManager.new exampleDoc)
      = some savedBetweenUndoAndRedoState ∧
    savedBetweenUndoAndRedoState.m_editCurrentUndo = none ∧
    savedBetweenUndoAndRedoState.undoItems = [groupOf [itemL1]] ++ [groupOf [itemL2]] ∧
    savedBetweenUndoAndRedoState.redoItems = [] ∧
    currentPattern { savedBetweenUndoAndRedoState with
                     undoItems := [groupOf [itemL1]], redoItems := [groupOf [itemL2]] } = 144 ∧
    (savedBetweenUndoAndRedoState.undo specOps).map (fun m => (m.undoItems, m.redoItems))
      = some ([(groupOf [itemL1]).markSafePoint], [groupOf [itemL2]]) ∧
    [(groupOf [itemL1]).markSafePoint] ≠ [groupOf [itemL1]] := by
  refine ⟨by decide, by decide, by decide, by decide, by decide, by decide, by decide⟩

/-- C2 (amended): for every state with no open group, undo stack `u ++ [g]` and redo stack `r`,
`undo()` leaves the redo stack equal to `r ++ [g]`; when the pattern that `updateModified()`
computes on the stacks `u` and `r ++ [g]` is in its table, the undo stack is `u` with its top
group marked as a safe point and the document is unmodified, and when the pattern is not in the
table the undo stack is equal to `u`; `undoCount()` drops by exactly one and `redoCount()` grows
by exactly one.  `redo()` is the mirror image: it moves the top group of the redo stack onto the
top of the undo stack, where it is marked as a safe point exactly when the pattern computed on
the stacks `u ++ [g]` and `r` is in the table. -/
theorem undo_redo_move_top_group (ops : GroupOps) (m : KateUndoManager) (u r : List KateUndoGroup)
    (g : KateUndoGroup) (hopen : m.m_editCurrentUndo = none) :
    (m.undoItems = u ++ [g] → m.redoItems = r →
      ∃ m2, m.undo ops = some m2 ∧ m2.redoItems = r ++ [g] ∧
        (currentPattern { m with undoItems := u, redoItems := r ++ [g] } ∈ patterns →
          m2.undoItems = modifyBack KateUndoGroup.markSafePoint u ∧
          m2.m_document.modified = false) ∧
        (currentPattern { m with undoItems := u, redoItems := r ++ [g] } ∉ patterns →
          m2.undoItems = u) ∧
        m2.undoCount + 1 = m.undoCount ∧ m2.redoCount = m.redoCount + 1) ∧
    (m.undoItems = u → m.redoItems = r ++ [g] →
      ∃ m2, m.redo ops = some m2 ∧ m2.redoItems = r ∧
        (currentPattern { m with undoItems := u ++ [g], redoItems := r } ∈ patterns →
          m2.undoItems = u ++ [g.markSafePoint] ∧ m2.m_document.modified = false) ∧
        (currentPattern { m with undoItems := u ++ [g], redoItems := r } ∉ patterns →
          m2.undoItems = u ++ [g]) ∧
        m2.undoCount = m.undoCount + 1 ∧ m2.redoCount + 1 = m.redoCount) := by
  constructor
  · intro hu hr
    let X : KateUndoManager :=
      { m with m_document := ops.undo g m.m_document
               redoItems := m.redoItems ++ [g]
               undoItems := u
               emitted := m.emitted ++ [Signal.undoStart] }
    have hX : X.m_editCurrentUndo = none := hopen
    have hp : X.currentPattern =
        currentPattern { m with undoItems := u, redoItems := r ++ [g] } :=
      currentPattern_congr _ _ rfl (by simp [X, hr]) rfl rfl rfl rfl
    have h := updateModified_undoItems_of_pattern X hX
    rw [hp] at h
    have hd := updateModified_undoItems_of_closed X hX
    refine ⟨_, undo_of_concat ops m u g hopen hu, ?_, ?_, ?_, ?_, ?_⟩
    · simp [hr]
    · intro hin
      have h1 := h.1 hin
      exact ⟨by simpa [X] using h1.1, by simpa [X] using h1.2⟩
    · intro hnin
      have h2 := h.2 hnin
      simpa [X] using h2
    · simp only [undoCount, emit_undoItems, hu, List.length_append, List.length_singleton]
      rcases hd with h3 | ⟨_, h3⟩
      · rw [h3]
      · rw [h3, modifyBack_length]
    · simp [redoCount, hr]
  · intro hu hr
    let X : KateUndoManager :=
      { m with m_document := ops.redo g m.m_document
               undoItems := m.undoItems ++ [g]
               redoItems := r
               emitted := m.emitted ++ [Signal.redoStart] }
    have hX : X.m_editCurrentUndo = none := hopen
    have hp : X.currentPattern =
        currentPattern { m with undoItems := u ++ [g], redoItems := r } :=
      currentPattern_congr _ _ (by simp [X, hu]) rfl rfl rfl rfl rfl
    have h := updateModified_undoItems_of_pattern X hX
    rw [hp] at h
    have hd := updateModified_undoItems_of_closed X hX
    refine ⟨_, redo_of_concat ops m r g hopen hr, ?_, ?_, ?_, ?_, ?_⟩
    · simp
    · intro hin
      have h1 := h.1 hin
      exact ⟨by simpa [X, hu, modifyBack_concat] using h1.1, by simpa [X] using h1.2⟩
    · intro hnin
      have h2 := h.2 hnin
      simpa [X, hu] using h2
    · simp only [undoCount, emit_undoItems]
      rcases hd with h3 | ⟨_, h3⟩
      · rw [h3]; simp [X]
      · rw [h3, modifyBack_length]; simp [X]
    · simp [redoCount, hr]

/-- Witness for C2: the amended statement applied to the state reached by
`savedBetweenUndoAndRedo` for `undo()` (pattern 144, in the table), and to a new manager whose
redo stack holds one group for `redo()` (pattern 14, not in the table). -/
theorem undo_redo_move_top_group_witness :
    (savedBetweenUndoAndRedoState.m_editCurrentUndo = none ∧
      savedBetweenUndoAndRedoState.undoItems = [groupOf [itemL1]] ++ [groupOf [itemL2]] ∧
      savedBetweenUndoAndRedoState.redoItems = [] ∧
      ∃ m2, savedBetweenUndoAndRedoState.undo specOps = some m2 ∧
        m2.redoItems = [] ++ [groupOf [itemL2]] ∧
        (currentPattern { savedBetweenUndoAndRedoState with
            undoItems := [groupOf [itemL1]], redoItems := [] ++ [groupOf [itemL2]] } ∈ patterns →
          m2.undoItems = modifyBack KateUndoGroup.markSafePoint [groupOf [itemL1]] ∧
          m2.m_document.modified = false) ∧
        (currentPattern { savedBetweenUndoAndRedoState with
            undoItems := [groupOf [itemL1]], redoItems := [] ++ [groupOf [itemL2]] } ∉ patterns →
          m2.undoItems = [groupOf [itemL1]]) ∧
        m2.undoCount + 1 = savedBetweenUndoAndRedoState.undoCount ∧
        m2.redoCount = savedBetweenUndoAndRedoState.redoCount + 1) ∧
    (redoableState.m_editCurrentUndo = none ∧ redoableState.undoItems = [] ∧
      redoableState.redoItems = [] ++ [groupOf [itemL1]] ∧
      ∃ m2, redoableState.redo specOps = some m2 ∧ m2.redoItems = [] ∧
        (currentPattern { redoableState with
            undoItems := [] ++ [groupOf [itemL1]], redoItems := [] } ∈ patterns →
          m2.undoItems = [] ++ [(groupOf [itemL1]).markSafePoint] ∧
          m2.m_document.modified = false) ∧
        (currentPattern { redoableState with
            undoItems := [] ++ [groupOf [itemL1]], redoItems := [] } ∉ patterns →
          m2.undoItems = [] ++ [groupOf [itemL1]]) ∧
        m2.undoCount = redoableState.undoCount + 1 ∧
        m2.redoCount + 1 = redoableState.redoCount) :=
  ⟨⟨rfl, rfl, rfl,
    (undo_redo_move_top_group specOps savedBetweenUndoAndRedoState [groupOf [itemL1]] []
      (groupOf [itemL2]) rfl).1 rfl rfl⟩,
   ⟨rfl, rfl, rfl,
    (undo_redo_move_top_group specOps redoableState [] [] (groupOf [itemL1]) rfl).2 rfl rfl⟩⟩

/-! ## C3: `undo()` and `redo()` on an empty stack -/

/-- C3: with no group open, `undo()` called with an empty undo stack and `redo()` called with an
empty redo stack return the manager exactly as it was: both stacks, the save-point bookkeeping,
the document (its modified flag included) and the log of emitted signals are unchanged. -/
theorem undo_redo_on_empty_stack_noop (ops : GroupOps) (m : KateUndoManager)
    (hopen : m.m_editCurrentUndo = none) :
    (m.undoItems = [] → m.undo ops = some m) ∧ (m.redoItems = [] → m.redo ops = some m) := by
  constructor
  · intro h
    simp [undo, hopen, h]
  · intro h
    simp [redo, hopen, h]

/-- Witness for C3: a new manager, whose two stacks are empty. -/
theorem undo_redo_on_empty_stack_noop_witness :
    (KateUndoManager.new exampleDoc).undo specOps = some (KateUndoManager.new exampleDoc) ∧
    (KateUndoManager.new exampleDoc).redo specOps = some (KateUndoManager.new exampleDoc) :=
  ⟨(undo_redo_on_empty_stack_noop specOps (KateUndoManager.new exampleDoc) rfl).1 rfl,
   (undo_redo_on_empty_stack_noop specOps (KateUndoManager.new exampleDoc) rfl).2 rfl⟩

/-! ## C4: a bracket that records nothing -/

/-- C4: the manager is active and `editStart()` opens a group; notifications and changes of the
document follow; if the open group then holds zero items, `editEnd()` discards it silently: the
undo stack, the redo stack and the log of emitted signals are exactly what they were before the
`editStart()`, and no group is open afterwards.  (`hadd`: an item added to a group makes the
group non-empty, as the specification says of `addItem`.) -/
theorem editEnd_discards_empty_group (ops : GroupOps)
    (hadd : ∀ g item, (ops.addItem g item).isEmpty = false)
    (m0 m1 : KateUndoManager) (ns : List Call) (g : KateUndoGroup)
    (hact : m0.m_isActive = true)
    (hns : ∀ c ∈ ns, c.isNotification = true ∨ c.isDocumentChanged = true)
    (hrun : runAll ops (Call.editStart :: ns) m0 = some m1)
    (hg : m1.m_editCurrentUndo = some g) (hempty : g.isEmpty = true) :
    ∃ m2, m1.editEnd ops = some m2 ∧ m2.undoItems = m0.undoItems ∧
      m2.redoItems = m0.redoItems ∧ m2.emitted = m0.emitted ∧ m2.m_editCurrentUndo = none := by
  simp only [runAll, run] at hrun
  cases hs : m0.editStart with
  | none => simp [hs] at hrun
  | some ms =>
    simp only [hs, Option.some_bind] at hrun
    rcases editStart_cases m0 ms hs with ⟨hi, _⟩ | ⟨_, _, hgs, has, hus, hrs, hes⟩
    · rw [hact] at hi; exact absurd hi (by simp)
    · obtain ⟨ha1, ⟨g1, hg1, hr1⟩, hu1, he1⟩ :=
        bracket_run ops hadd ns m0 ms m1 hns has ⟨_, hgs, fun _ => hrs⟩ hus hes hrun
      rw [hg] at hg1
      cases hg1
      have hemp2 : (g.editEnd m1.snapshotCursor m1.snapshotSelection m1.snapshotSecondary).isEmpty
          = true := hempty
      rw [editEnd_of_open ops m1 g ha1 hg]
      simp only [hemp2, if_true]
      exact ⟨_, rfl, hu1, hr1 hempty, he1, rfl⟩

/-- Witness for C4: a bracket of a new manager in which only an insertion of the empty text is
notified. -/
theorem editEnd_discards_empty_group_witness :
    ∃ m2, emptyBracketState.editEnd specOps = some m2 ∧
      m2.undoItems = (KateUndoManager.new exampleDoc).undoItems ∧
      m2.redoItems = (KateUndoManager.new exampleDoc).redoItems ∧
      m2.emitted = (KateUndoManager.new exampleDoc).emitted ∧ m2.m_editCurrentUndo = none :=
  editEnd_discards_empty_group specOps (fun _ _ => by simp [specOps, specAddItem, KateUndoGroup.isEmpty])
    (KateUndoManager.new exampleDoc) emptyBracketState
    [Call.slotTextInserted 0 1 [], Call.documentChanged exampleDoc1] (groupOf [])
    rfl (by decide) (by decide) rfl rfl

/-! ## C5: a bracket whose group merges into the top of the undo stack -/

/-- Counterexample to C5 as stated.  'x' has been typed and the bracket of the next character
'y' is open (`typingState`); the finalized group merges into the top of the undo stack, the
undo stack keeps its length and no group is open afterwards, but the log of emitted signals is
unchanged: `editEnd()` emits no `undoChanged`. -/
theorem editEnd_merge_no_undoChanged :
    runAll specOps (typeChar 0 1 'x' exampleDoc1 ++
        [Call.editStart, Call.slotTextInserted 0 2 ['y'], Call.documentChanged exampleDoc2])
      (KateUndoManager.new exampleDoc) = some typingState ∧
    (specOps.merge (groupOf [itemX])
      ((groupOf [itemY]).editEnd typingState.snapshotCursor typingState.snapshotSelection
        typingState.snapshotSecondary) typingState.m_undoComplexMerge).2 = true ∧
    (typingState.editEnd specOps).map (fun m => (m.undoItems, m.m_editCurrentUndo, m.emitted))
      = some ([groupOf [itemX, itemY]], none, typingState.emitted) := by
  decide

/-- C5 (amended): when `editEnd()` finalizes a non-empty group and merging it into the current
top of the undo stack succeeds, the finalized group is discarded (the top of the undo stack is
replaced by the merged group, the length of the undo stack and the redo stack are unchanged, no
group is open afterwards) and no signal is emitted: `undoChanged` is emitted only when a new
group is pushed. -/
theorem editEnd_merge_emits_nothing (ops : GroupOps) (m : KateUndoManager) (g top : KateUndoGroup)
    (hact : m.m_isActive = true) (hopen : m.m_editCurrentUndo = some g)
    (hne : g.isEmpty = false) (htop : m.undoItems.getLast? = some top)
    (hmerge : (ops.merge top (g.editEnd m.snapshotCursor m.snapshotSelection m.snapshotSecondary)
                m.m_undoComplexMerge).2 = true) :
    ∃ m2, m.editEnd ops = some m2 ∧ m2.undoItems.length = m.undoItems.length ∧
      m2.undoItems = m.undoItems.dropLast ++
        [(ops.merge top (g.editEnd m.snapshotCursor m.snapshotSelection m.snapshotSecondary)
            m.m_undoComplexMerge).1] ∧
      m2.redoItems = m.redoItems ∧ m2.m_editCurrentUndo = none ∧ m2.emitted = m.emitted := by
  have hne2 : (g.editEnd m.snapshotCursor m.snapshotSelection m.snapshotSecondary).isEmpty
      = false := hne
  have hlen : m.undoItems ≠ [] := by
    intro h; simp [h] at htop
  rw [editEnd_of_open ops m g hact hopen]
  simp only [hne2, htop, hmerge]
  refine ⟨_, rfl, ?_, rfl, rfl, rfl, rfl⟩
  simp only [List.length_append, List.length_dropLast, List.length_singleton]
  have : 0 < m.undoItems.length := List.length_pos.mpr hlen
  omega

/-- Witness for C5: the bracket of the second typed character, which merges into the group of
the first one. -/
theorem editEnd_merge_emits_nothing_witness :
    ∃ m2, typingState.editEnd specOps = some m2 ∧
      m2.undoItems.length = typingState.undoItems.length ∧
      m2.undoItems = typingState.undoItems.dropLast ++
        [(specOps.merge (groupOf [itemX])
            ((groupOf [itemY]).editEnd typingState.snapshotCursor typingState.snapshotSelection
              typingState.snapshotSecondary) typingState.m_undoComplexMerge).1] ∧
      m2.redoItems = typingState.redoItems ∧ m2.m_editCurrentUndo = none ∧
      m2.emitted = typingState.emitted :=
  editEnd_merge_emits_nothing specOps typingState (groupOf [itemY]) (groupOf [itemX])
    rfl rfl rfl rfl (by decide)

/-! ## C6: a bracket whose group is pushed -/

/-- C6: in every reachable state of the manager, an `editEnd()` that pushes a new group (the
manager is active, the open group holds an item, and the undo stack is empty or the merge into
its top fails) leaves the redo stack empty (`redoCount() == 0`), the finalized group on top of
the undo stack, `undoCount()` grown by exactly one, `undoChanged` emitted and no group open. -/
theorem editEnd_push_clears_redo (ops : GroupOps) (m : KateUndoManager) (g : KateUndoGroup)
    (hreach : Reachable ops m) (hact : m.m_isActive = true)
    (hopen : m.m_editCurrentUndo = some g) (hne : g.isEmpty = false)
    (hpush : ∀ top, m.undoItems.getLast? = some top →
      (ops.merge top (g.editEnd m.snapshotCursor m.snapshotSelection m.snapshotSecondary)
        m.m_undoComplexMerge).2 = false) :
    ∃ m2, m.editEnd ops = some m2 ∧ m2.redoItems = [] ∧ m2.redoCount = 0 ∧
      m2.undoItems.getLast? =
        some (g.editEnd m.snapshotCursor m.snapshotSelection m.snapshotSecondary) ∧
      m2.undoCount = m.undoCount + 1 ∧ m2.emitted = m.emitted ++ [Signal.undoChanged] ∧
      m2.m_editCurrentUndo = none := by
  have hredo : m.redoItems = [] := (reachable_inv ops m hreach).2 g hopen hne
  have hne2 : (g.editEnd m.snapshotCursor m.snapshotSelection m.snapshotSecondary).isEmpty
      = false := hne
  rw [editEnd_of_open ops m g hact hopen]
  simp only [hne2]
  cases htop : m.undoItems.getLast? with
  | none =>
    refine ⟨_, rfl, by simpa using hredo, by simpa [redoCount] using hredo, by simp, ?_, ?_, ?_⟩
    · simp [undoCount]
    · simp [emit]
    · simp
  | some top =>
    have hlen : m.undoItems ≠ [] := by
      intro h; simp [h] at htop
    have hpos : 0 < m.undoItems.length := List.length_pos.mpr hlen
    simp only [hpush top htop]
    refine ⟨_, rfl, by simpa using hredo, by simpa [redoCount] using hredo, by simp, ?_, ?_, ?_⟩
    · simp [undoCount]; omega
    · simp [emit]
    · simp

/-- Witness for C6: the first bracket of a new manager, in which one inserted line is
recorded. -/
theorem editEnd_push_clears_redo_witness :
    ∃ m2, firstBracketState.editEnd specOps = some m2 ∧ m2.redoItems = [] ∧ m2.redoCount = 0 ∧
      m2.undoItems.getLast? =
        some ((groupOf [itemL1]).editEnd firstBracketState.snapshotCursor
          firstBracketState.snapshotSelection firstBracketState.snapshotSecondary) ∧
      m2.undoCount = firstBracketState.undoCount + 1 ∧
      m2.emitted = firstBracketState.emitted ++ [Signal.undoChanged] ∧
      m2.m_editCurrentUndo = none :=
  editEnd_push_clears_redo specOps firstBracketState (groupOf [itemL1])
    (reachable_runAll specOps [Call.editStart, Call.slotLineInserted 1 ['x']] _ _
      (Reachable.init exampleDoc) (by decide) (by decide))
    rfl rfl rfl (fun _ h => by simp [firstBracketState, KateUndoManager.new] at h)

/-! ## C7: merge transparency -/

/-- C7: two characters are typed one after the other in a line (columns `col` and `col + 1`),
each in a bracket of its own, starting with an empty undo stack.  The second group merges into
the first: `undoCount()` is 1 and a single `undo()` gives back the original texts.  If
`undoSafePoint()` is called between the two brackets the groups do not merge: `undoCount()` is
2, one `undo()` gives the texts with the first character only (not the original texts) and a
second `undo()` gives back the original texts.  The behaviour of the groups is the one modelled
from the specification (`specOps`). -/
theorem merge_transparency (m0 : KateUndoManager) (d1 d2 : Document) (line col : Int) (c1 c2 : Char)
    (tl : TextLine)
    (hact : m0.m_isActive = true) (hopen : m0.m_editCurrentUndo = none)
    (hundo : m0.undoItems = [])
    (hcol : 0 ≤ col) (htl : m0.m_document.plainKateTextLine line = some tl)
    (hle : col ≤ tl.length)
    (h1 : d1.texts = (m0.m_document.editInsertText line col [c1]).texts)
    (h2 : d2.texts = (d1.editInsertText line (col + 1) [c2]).texts) :
    (∃ m, runAll specOps (typeChar line col c1 d1 ++ typeChar line (col + 1) c2 d2) m0 = some m ∧
      m.undoCount = 1 ∧
      ∃ mu, m.undo specOps = some mu ∧ mu.m_document.texts = m0.m_document.texts) ∧
    (∃ m, runAll specOps (typeChar line col c1 d1 ++ [Call.undoSafePoint]
            ++ typeChar line (col + 1) c2 d2) m0 = some m ∧
      m.undoCount = 2 ∧
      ∃ mu, m.undo specOps = some mu ∧ mu.m_document.texts = d1.texts ∧
        mu.m_document.texts ≠ m0.m_document.texts ∧
        ∃ muu, mu.undo specOps = some muu ∧ muu.m_document.texts = m0.m_document.texts) := by
  obtain ⟨hline, hget0⟩ := plainKateTextLine_texts _ line tl htl
  have hcol1 : 0 ≤ col + 1 := by omega
  have h1m : d1.texts = modifyAt (fun t => t.take col.toNat ++ [c1] ++ t.drop col.toNat)
      line.toNat m0.m_document.texts :=
    h1.trans (Document.texts_editInsertText _ _ _ _ hline hcol)
  -- the line after the first insertion
  obtain ⟨tl1, htl1, htx1⟩ := line_of_texts m0.m_document d1 line tl _ htl h1m
  have hle1 : col + 1 ≤ tl1.length := by
    unfold TextLine.length at hle ⊢
    rw [htx1]
    simp only [List.length_append, List.length_take, List.length_drop, List.length_singleton]
    omega
  have hdiff : d1.texts ≠ m0.m_document.texts := by
    intro heq
    have h3 : d1.texts.get? line.toNat
        = some (tl.text.take col.toNat ++ [c1] ++ tl.text.drop col.toNat) := by
      rw [h1m, modifyAt_get?, hget0]; rfl
    rw [heq, hget0] at h3
    have h4 := congrArg List.length (Option.some.inj h3)
    simp only [List.length_append, List.length_take, List.length_drop,
      List.length_singleton] at h4
    unfold TextLine.length at hle
    omega
  -- first bracket
  obtain ⟨rA, g1, item1, hrunA, hactA, hopenA, hdocA, hcmA, hsp1, _, hca1, hitems1, hty1, hli1,
    hco1, htx1i, hstackA⟩ := typeChar_result m0 line col c1 d1 tl hact hopen htl
  rw [hundo] at hstackA
  simp only [List.getLast?_nil, List.nil_append] at hstackA
  have htlA : rA.m_document.plainKateTextLine line = some tl1 := by rw [hdocA]; exact htl1
  constructor
  · -- the second group merges into the first
    obtain ⟨rB, g2, item2, hrunB, _, hopenB, hdocB, _, hsp2, hcb2, _, hitems2, hty2, hli2,
      hco2, htx2i, hstackB⟩ := typeChar_result rA line (col + 1) c2 d2 tl1 hactA hopenA htlA
    have hadj : pureSingleItemAdjacency g1 g2 = true := by
      simp [pureSingleItemAdjacency, hitems1, hitems2, hty1, hty2, hli1, hli2, hco1, hco2,
        htx1i, hca1, hcb2]
    have hmerge : specMerge g1 g2 rA.m_undoComplexMerge
        = ({ g1 with items := g1.items ++ g2.items
                     cursorAfter := g2.cursorAfter
                     selectionAfter := g2.selectionAfter
                     secondaryCursorsAfter := g2.secondaryCursorsAfter }, true) := by
      simp [specMerge, hsp1, hsp2, hadj]
    rw [hstackA] at hstackB
    simp only [List.getLast?_singleton, hmerge, if_true, List.dropLast_single,
      List.nil_append] at hstackB
    refine ⟨rB, ?_, by simp [undoCount, hstackB], ?_⟩
    · rw [runAll_append, hrunA]; exact hrunB
    · obtain ⟨mu, hmu, htexts, _, _⟩ := undo_texts rB [] _ hopenB (by simpa using hstackB)
      refine ⟨mu, hmu, ?_⟩
      rw [htexts]
      simp only [hitems1, hitems2, List.singleton_append, List.reverse_cons, List.reverse_nil,
        List.nil_append, List.foldl_cons, List.foldl_nil]
      apply texts_undo_insert_at item1 m0.m_document _ tl line col [c1] hty1 hli1 hco1 htx1i
        hcol htl hle
      rw [← h1]
      apply texts_undo_insert_at item2 d1 _ tl1 line (col + 1) [c2] hty2 hli2 hco2 htx2i
        hcol1 htl1 hle1
      rw [hdocB, h2]
  · -- the first group is a safe point
    have hopenS : rA.undoSafePoint.m_editCurrentUndo = none := by
      rw [undoSafePoint_editCurrentUndo, hopenA]; rfl
    have hstackS : rA.undoSafePoint.undoItems = [g1.markSafePoint] := by
      rw [undoSafePoint_undoItems_of_closed _ hopenA, hstackA]; rfl
    have htlS : rA.undoSafePoint.m_document.plainKateTextLine line = some tl1 := by
      rw [undoSafePoint_document]; exact htlA
    obtain ⟨rB, g2, item2, hrunB, _, hopenB, hdocB, _, hsp2, hcb2, _, hitems2, hty2, hli2,
      hco2, htx2i, hstackB⟩ := typeChar_result rA.undoSafePoint line (col + 1) c2 d2 tl1
        (by simpa using hactA) hopenS htlS
    have hmerge : specMerge g1.markSafePoint g2 rA.undoSafePoint.m_undoComplexMerge
        = (g1.markSafePoint, false) := by
      simp [specMerge, KateUndoGroup.markSafePoint]
    rw [hstackS] at hstackB
    simp only [List.getLast?_singleton, hmerge, Bool.false_eq_true, if_false,
      List.dropLast_single, List.nil_append] at hstackB
    refine ⟨rB, ?_, by simp [undoCount, hstackB], ?_⟩
    · rw [List.append_assoc, runAll_append, hrunA]
      simp only [Option.some_bind, List.singleton_append, runAll, run]
      exact hrunB
    · obtain ⟨mu, hmu, htexts, hopenU, hstackU⟩ :=
        undo_texts rB [g1.markSafePoint] g2 hopenB (by simpa using hstackB)
      have hmu1 : mu.m_document.texts = d1.texts := by
        rw [htexts]
        simp only [hitems2, List.reverse_cons, List.reverse_nil, List.nil_append,
          List.foldl_cons, List.foldl_nil]
        apply texts_undo_insert_at item2 d1 _ tl1 line (col + 1) [c2] hty2 hli2 hco2 htx2i
          hcol1 htl1 hle1
        rw [hdocB, h2]
      refine ⟨mu, hmu, hmu1, by rw [hmu1]; exact hdiff, ?_⟩
      have hstackU2 : mu.undoItems = [] ++ [g1.markSafePoint] := by
        rcases hstackU with h | h
        · simpa using h
        · rw [h]; rfl
      obtain ⟨muu, hmuu, htexts2, _, _⟩ := undo_texts mu [] _ hopenU hstackU2
      refine ⟨muu, hmuu, ?_⟩
      rw [htexts2]
      simp only [KateUndoGroup.markSafePoint, hitems1, List.reverse_cons, List.reverse_nil,
        List.nil_append, List.foldl_cons, List.foldl_nil]
      apply texts_undo_insert_at item1 m0.m_document _ tl line col [c1] hty1 hli1 hco1 htx1i
        hcol htl hle
      rw [hmu1, h1]

/-- Witness for C7: 'x' then 'y' typed at columns 1 and 2 of the line "ab". -/
theorem merge_transparency_witness :
    (∃ m, runAll specOps (typeChar 0 1 'x' exampleDoc1 ++ typeChar 0 (1 + 1) 'y' exampleDoc2)
        (KateUndoManager.new exampleDoc) = some m ∧
      m.undoCount = 1 ∧
      ∃ mu, m.undo specOps = some mu ∧
        mu.m_document.texts = (KateUndoManager.new exampleDoc).m_document.texts) ∧
    (∃ m, runAll specOps (typeChar 0 1 'x' exampleDoc1 ++ [Call.undoSafePoint]
            ++ typeChar 0 (1 + 1) 'y' exampleDoc2) (KateUndoManager.new exampleDoc) = some m ∧
      m.undoCount = 2 ∧
      ∃ mu, m.undo specOps = some mu ∧ mu.m_document.texts = exampleDoc1.texts ∧
        mu.m_document.texts ≠ (KateUndoManager.new exampleDoc).m_document.texts ∧
        ∃ muu, mu.undo specOps = some muu ∧
          muu.m_document.texts = (KateUndoManager.new exampleDoc).m_document.texts) :=
  merge_transparency (KateUndoManager.new exampleDoc) exampleDoc1 exampleDoc2 0 1 'x' 'y'
    ⟨['a', 'b'], false, false, false⟩ rfl rfl rfl (by decide) rfl (by decide) (by decide)
    (by decide)

/-! ## C8: no recording while the manager is inactive -/

/-- C8: for every reachable state with `isActive == false`, after any number `k` of the first
calls of the sequence `editStart()`, notifications of primitive edits (and changes of the
document), `editEnd()`, no group is open, the undo stack and the redo stack are unchanged (the
redo stack is not cleared) and nothing has been emitted. -/
theorem inactive_records_nothing (ops : GroupOps) (m : KateUndoManager) (ns : List Call)
    (hreach : Reachable ops m) (hin : m.m_isActive = false)
    (hns : ∀ c ∈ ns, c.isNotification = true ∨ c.isDocumentChanged = true) (k : Nat) :
    ∃ m2, runAll ops ((Call.editStart :: ns ++ [Call.editEnd]).take k) m = some m2 ∧
      m2.m_editCurrentUndo = none ∧ m2.m_isActive = false ∧
      m2.undoItems = m.undoItems ∧ m2.redoItems = m.redoItems ∧ m2.emitted = m.emitted := by
  apply quiet_run ops _ m hin ((reachable_inv ops m hreach).1 hin)
  intro c hc
  have hc2 := List.mem_of_mem_take hc
  simp only [List.cons_append, List.mem_cons, List.mem_append, List.mem_singleton] at hc2
  rcases hc2 with rfl | hc2 | rfl | hc2
  · exact Or.inl rfl
  · rcases hns c hc2 with h | h
    · exact Or.inr (Or.inr (Or.inl h))
    · exact Or.inr (Or.inr (Or.inr h))
  · exact Or.inr (Or.inl rfl)
  · exact absurd hc2 (List.not_mem_nil _)

/-- Witness for C8: a new manager made inactive, then a whole bracket in which 'x' is typed. -/
theorem inactive_records_nothing_witness :
    ∃ m2, runAll specOps
        ((Call.editStart :: [Call.slotTextInserted 0 1 ['x'], Call.documentChanged exampleDoc1]
          ++ [Call.editEnd]).take 4) inactiveState = some m2 ∧
      m2.m_editCurrentUndo = none ∧ m2.m_isActive = false ∧
      m2.undoItems = inactiveState.undoItems ∧ m2.redoItems = inactiveState.redoItems ∧
      m2.emitted = inactiveState.emitted :=
  inactive_records_nothing specOps inactiveState
    [Call.slotTextInserted 0 1 ['x'], Call.documentChanged exampleDoc1]
    (reachable_runAll specOps [Call.setActive false] _ _ (Reachable.init exampleDoc)
      (by decide) (by decide))
    rfl (by decide) 4

/-! ## C9: violations of the calling contract -/

/-- C9: in every reachable state, with a group open `editStart()`, `undo()`, `redo()` and
`setActive(b)` each fail an assertion; with the manager active and no group open `editEnd()`
fails an assertion; with no group open `editStart()`, `undo()` and `redo()` fail no assertion,
and with a group open `editEnd()` fails no assertion. -/
theorem contract_violations_assert (ops : GroupOps) (m : KateUndoManager) (hreach : Reachable ops m) :
    (m.m_editCurrentUndo ≠ none →
      m.editStart = none ∧ m.undo ops = none ∧ m.redo ops = none ∧
        ∀ b, m.setActive b = none) ∧
    (m.m_isActive = true → m.m_editCurrentUndo = none → m.editEnd ops = none) ∧
    (m.m_editCurrentUndo = none →
      m.editStart ≠ none ∧ m.undo ops ≠ none ∧ m.redo ops ≠ none) ∧
    (m.m_editCurrentUndo ≠ none → m.editEnd ops ≠ none) := by
  have hinv := (reachable_inv ops m hreach).1
  refine ⟨fun ho => ?_, fun ha hc => ?_, fun hc => ?_, fun ho => ?_⟩
  · have hs : m.m_editCurrentUndo.isSome = true := by
      cases h : m.m_editCurrentUndo with
      | none => exact absurd h ho
      | some g => rfl
    have ha : m.m_isActive = true := by
      cases h : m.m_isActive with
      | true => rfl
      | false => exact absurd (hinv h) ho
    refine ⟨by simp [editStart, ha, hs], by simp [undo, hs], by simp [redo, hs], fun b => ?_⟩
    simp [setActive, hs]
  · simp [editEnd, ha, hc]
  · refine ⟨?_, ?_, ?_⟩
    · unfold editStart
      split
      · simp
      · simp [hc]
    · unfold undo
      simp only [hc, Option.isSome_none, Bool.false_eq_true, if_false]
      split <;> simp
    · unfold redo
      simp only [hc, Option.isSome_none, Bool.false_eq_true, if_false]
      split <;> simp
  · cases h : m.m_editCurrentUndo with
    | none => exact absurd h ho
    | some g =>
      cases ha : m.m_isActive with
      | false => simp [editEnd, ha]
      | true =>
        rw [editEnd_of_open ops m g ha h]
        simp only
        split
        · simp
        · split
          · split <;> simp
          · simp

/-- Witness for C9: a manager inside its first bracket. -/
theorem contract_violations_assert_witness :
    firstBracketState.editStart = none ∧ firstBracketState.undo specOps = none ∧
    firstBracketState.redo specOps = none ∧ (∀ b, firstBracketState.setActive b = none) ∧
    firstBracketState.editEnd specOps ≠ none :=
  ⟨((contract_violations_assert specOps firstBracketState
      (reachable_runAll specOps [Call.editStart, Call.slotLineInserted 1 ['x']] _ _
        (Reachable.init exampleDoc) (by decide) (by decide))).1 (by decide)).1,
   ((contract_violations_assert specOps firstBracketState
      (reachable_runAll specOps [Call.editStart, Call.slotLineInserted 1 ['x']] _ _
        (Reachable.init exampleDoc) (by decide) (by decide))).1 (by decide)).2.1,
   ((contract_violations_assert specOps firstBracketState
      (reachable_runAll specOps [Call.editStart, Call.slotLineInserted 1 ['x']] _ _
        (Reachable.init exampleDoc) (by decide) (by decide))).1 (by decide)).2.2.1,
   ((contract_violations_assert specOps firstBracketState
      (reachable_runAll specOps [Call.editStart, Call.slotLineInserted 1 ['x']] _ _
        (Reachable.init exampleDoc) (by decide) (by decide))).1 (by decide)).2.2.2,
   (contract_violations_assert specOps firstBracketState
      (reachable_runAll specOps [Call.editStart, Call.slotLineInserted 1 ['x']] _ _
        (Reachable.init exampleDoc) (by decide) (by decide))).2.2.2 (by decide)⟩

/-! ## C10: reload with matching checksum -/

/-- C10: for every manager state, an "about to reload" notification, the document then changing
state, followed by a "loaded" notification whose document has a non-empty checksum equal to the
checksum the document had before the reload, leaves the undo stack and the redo stack exactly as
they were (so `undoCount()` and `redoCount()` are unchanged) and emits `undoChanged`. -/
theorem reload_matching_checksum_preserves_history (ops : GroupOps) (m : KateUndoManager)
    (between doc : Document)
    (hne : doc.checksum ≠ []) (heq : doc.checksum = m.m_document.checksum) :
    ∃ m2, runAll ops [Call.aboutToReload, Call.documentChanged between, Call.loaded (some doc)] m
        = some m2 ∧
      m2.undoItems = m.undoItems ∧ m2.redoItems = m.redoItems ∧
      m2.undoCount = m.undoCount ∧ m2.redoCount = m.redoCount ∧
      m2.emitted = m.emitted ++ [Signal.undoChanged] := by
  have hne2 : m.m_document.checksum ≠ [] := heq ▸ hne
  simp [runAll, run, loaded, aboutToReload, emit, undoCount, redoCount, heq, hne2]

/-- Witness for C10: the state reached by `savedThenEdited`, reloaded with the same checksum. -/
theorem reload_matching_checksum_preserves_history_witness :
    ∃ m2, runAll specOps
        [Call.aboutToReload, Call.documentChanged exampleDoc1, Call.loaded (some exampleDoc)]
        savedThenEditedState = some m2 ∧
      m2.undoItems = savedThenEditedState.undoItems ∧
      m2.redoItems = savedThenEditedState.redoItems ∧
      m2.undoCount = savedThenEditedState.undoCount ∧
      m2.redoCount = savedThenEditedState.redoCount ∧
      m2.emitted = savedThenEditedState.emitted ++ [Signal.undoChanged] :=
  reload_matching_checksum_preserves_history specOps savedThenEditedState exampleDoc1 exampleDoc
    (by decide) rfl

/-! ## C11: reload with differing checksum -/

/-- C11: an "about to reload" notification, the document then changing state, followed by a
"loaded" notification.  In every outcome the holding storage (`savedUndoItems`,
`savedRedoItems`) and the stored checksum are empty afterwards; and when the checksums do not
match (the signal carries no document, the checksum after the reload is empty, the checksum
before the reload is empty, or the two differ) `undoCount()` and `redoCount()` are 0. -/
theorem reload_differing_checksum_discards_history (ops : GroupOps) (m : KateUndoManager)
    (between : Document) (doc : Option Document) :
    ∃ m2, runAll ops [Call.aboutToReload, Call.documentChanged between, Call.loaded doc] m
        = some m2 ∧
      m2.savedUndoItems = [] ∧ m2.savedRedoItems = [] ∧ m2.docChecksumBeforeReload = [] ∧
      ((∀ d, doc = some d →
          d.checksum = [] ∨ m.m_document.checksum = [] ∨ d.checksum ≠ m.m_document.checksum) →
        m2.undoCount = 0 ∧ m2.redoCount = 0 ∧ m2.undoItems = [] ∧ m2.redoItems = []) := by
  refine ⟨_, rfl, ?_, ?_, ?_, ?_⟩
  · simp only [loaded]
  · simp only [loaded]
  · simp only [loaded]
  · intro h
    cases doc with
    | none => simp [loaded, aboutToReload, undoCount, redoCount]
    | some d =>
      have hd := h d rfl
      have hr : (!d.checksum.isEmpty && !m.m_document.checksum.isEmpty
          && d.checksum == m.m_document.checksum) = false := by
        rcases hd with h1 | h1 | h1
        · simp [h1]
        · simp [h1]
        · simp [h1]
      simp [loaded, aboutToReload, undoCount, redoCount, hr]

/-- Witness for C11: the state reached by `savedThenEdited`, reloaded with another checksum. -/
theorem reload_differing_checksum_discards_history_witness :
    ∃ m2, runAll specOps
        [Call.aboutToReload, Call.documentChanged exampleDoc1, Call.loaded (some otherChecksumDoc)]
        savedThenEditedState = some m2 ∧
      m2.savedUndoItems = [] ∧ m2.savedRedoItems = [] ∧ m2.docChecksumBeforeReload = [] ∧
      m2.undoCount = 0 ∧ m2.redoCount = 0 ∧ m2.undoItems = [] ∧ m2.redoItems = [] :=
  match reload_differing_checksum_discards_history specOps savedThenEditedState exampleDoc1
      (some otherChecksumDoc) with
  | ⟨m2, h1, h2, h3, h4, h5⟩ =>
    ⟨m2, h1, h2, h3, h4, h5 (fun d hd => by
      cases hd
      exact Or.inr (Or.inr (by decide)))⟩

theorem pattern_bits (b1 b2 b3 b4 b5 b6 b7 b8 : Bool) :
    (let p := 0
     let p := if b1 then p ||| 1 else p
     let p := if b2 then p ||| 2 else p
     let p := if b3 then p ||| 4 else p
     let p := if b4 then p ||| 8 else p
     let p := if b5 then p ||| 16 else p
     let p := if b6 then p ||| 32 else p
     let p := if b7 then p ||| 64 else p
     let p := if b8 then p ||| 128 else p
     p) =
    b1.toNat + 2 * b2.toNat + 4 * b3.toNat + 8 * b4.toNat + 16 * b5.toNat + 32 * b6.toNat
      + 64 * b7.toNat + 128 * b8.toNat := by
  revert b1 b2 b3 b4 b5 b6 b7 b8
  decide

/-! ## C12: the pattern of `updateModified()` -/

/-- C12: `updateModified()` computes the pattern with bit value 1 = undo stack empty, 2 = redo
stack empty, 4 = `docWasSavedWhenUndoWasEmpty`, 8 = `docWasSavedWhenRedoWasEmpty`, 16 =
`lastUndoGroupWhenSaved` is the undo top, 32 = `lastUndoGroupWhenSaved` is the redo top, 64 =
`lastRedoGroupWhenSaved` is the undo top, 128 = `lastRedoGroupWhenSaved` is the redo top, the
top of a stack being null exactly when the stack is empty.  If the pattern is in the table it
clears the modified flag of the document and then establishes a safe point; for every other
pattern it changes nothing. -/
theorem updateModified_pattern_table (m : KateUndoManager) :
    m.currentPattern =
      (decide (m.undoItems = [])).toNat + 2 * (decide (m.redoItems = [])).toNat
        + 4 * m.docWasSavedWhenUndoWasEmpty.toNat + 8 * m.docWasSavedWhenRedoWasEmpty.toNat
        + 16 * (decide (m.lastUndoGroupWhenSaved = m.undoLast)).toNat
        + 32 * (decide (m.lastUndoGroupWhenSaved = m.redoLast)).toNat
        + 64 * (decide (m.lastRedoGroupWhenSaved = m.undoLast)).toNat
        + 128 * (decide (m.lastRedoGroupWhenSaved = m.redoLast)).toNat ∧
    (m.undoLast = none ↔ m.undoItems = []) ∧ (m.redoLast = none ↔ m.redoItems = []) ∧
    (m.currentPattern ∈ [5, 16, 21, 24, 26, 88, 90, 93, 133, 144, 149, 154, 165] →
      m.updateModified = (m.documentSetModified false).undoSafePoint ∧
      m.updateModified.m_document.modified = false) ∧
    (m.currentPattern ∉ [5, 16, 21, 24, 26, 88, 90, 93, 133, 144, 149, 154, 165] →
      m.updateModified = m) := by
  refine ⟨?_, ?_, ?_, ?_, ?_⟩
  · have h := pattern_bits (decide (m.undoItems = [])) (decide (m.redoItems = []))
      m.docWasSavedWhenUndoWasEmpty m.docWasSavedWhenRedoWasEmpty
      (decide (m.lastUndoGroupWhenSaved = m.undoLast))
      (decide (m.lastUndoGroupWhenSaved = m.redoLast))
      (decide (m.lastRedoGroupWhenSaved = m.undoLast))
      (decide (m.lastRedoGroupWhenSaved = m.redoLast))
    rw [← h]
    simp only [currentPattern, List.isEmpty_iff, decide_eq_true_eq]
  · unfold undoLast
    cases m.undoItems <;> simp
  · unfold redoLast
    cases m.redoItems <;> simp
  · intro h
    have h2 : m.currentPattern ∈ patterns := h
    simp [updateModified, h2]
  · intro h
    have h2 : m.currentPattern ∉ patterns := h
    simp [updateModified, h2]


/-- Witness for C12: a state just marked saved has the pattern 154 of the table and its modified
flag is cleared; a new manager has the pattern 255, not in the table, and is left as it is. -/
theorem updateModified_pattern_table_witness :
    justSavedState.currentPattern = 154 ∧
    justSavedState.updateModified = (justSavedState.documentSetModified false).undoSafePoint ∧
    justSavedState.updateModified.m_document.modified = false ∧
    (KateUndoManager.new exampleDoc).currentPattern = 255 ∧
    (KateUndoManager.new exampleDoc).updateModified = KateUndoManager.new exampleDoc :=
  ⟨by decide,
   ((updateModified_pattern_table justSavedState).2.2.2.1 (by decide)).1,
   ((updateModified_pattern_table justSavedState).2.2.2.1 (by decide)).2,
   by decide,
   (updateModified_pattern_table (KateUndoManager.new exampleDoc)).2.2.2.2 (by decide)⟩

/-! ## C13: the saved group and the top of the undo stack -/

/-- C13 (the code departs from the claim): 'x' is typed into "ab" (group G) and the document is
marked saved with the text "axb"; G is undone; 'y' is typed instead (group H, which takes the
place of G in the undo stack and drops G from the redo stack); H is undone and redone.  Before
the final `redo()` the document is modified; the final `updateModified()` finds the pattern 154
of the table and clears the modified flag, although the text is "ayb" and the group on top of
the undo stack is H, not G: the reference `lastUndoGroupWhenSaved` is compared as the position
in the stack. -/
theorem stale_reference_clears_modified_flag :
    (runAll specOps (typeChar 0 1 'x' exampleDoc1 ++
        [Call.setModified false, Call.documentChanged exampleDoc1Saved])
      (KateUndoManager.new exampleDoc)).map
      (fun m => (m.m_document.texts, m.m_document.modified, m.lastUndoGroupWhenSaved))
      = some ([['a', 'x', 'b']], false, some (GroupPtr.undoSlot 0)) ∧
    (runAll specOps (typeChar 0 1 'x' exampleDoc1 ++
        [Call.setModified false, Call.documentChanged exampleDoc1Saved])
      (KateUndoManager.new exampleDoc)).map
      (fun m => m.undoItems.map (fun g => g.items.map (fun i => i.text)))
      = some [[['x']]] ∧
    (runAll specOps replacedGroupCalls (KateUndoManager.new exampleDoc)).map
      (fun m => (m.m_document.texts, m.m_document.modified, m.undoItems.length))
      = some ([['a', 'b']], true, 0) ∧
    (runAll specOps replacedGroupCalls (KateUndoManager.new exampleDoc)).map
      (fun m => m.redoItems.map (fun g => g.items.map (fun i => i.text)))
      = some [[['y']]] ∧
    (runAll specOps (replacedGroupCalls ++ [Call.redo]) (KateUndoManager.new exampleDoc)).map
      (fun m => (m.m_document.texts, m.m_document.modified, m.lastUndoGroupWhenSaved))
      = some ([['a', 'y', 'b']], false, some (GroupPtr.undoSlot 0)) ∧
    (runAll specOps (replacedGroupCalls ++ [Call.redo]) (KateUndoManager.new exampleDoc)).map
      (fun m => m.undoItems.map (fun g => g.items.map (fun i => i.text)))
      = some [[['y']]] ∧
    (runAll specOps (replacedGroupCalls ++ [Call.redo]) (KateUndoManager.new exampleDoc)).map
      (fun m => m.currentPattern) = some 154 ∧
    154 ∈ patterns := by
  decide

/-! ## C14: the references to the saved groups -/

/-- C14 (the code departs from the claim): two reachable states in which a reference to a saved
group names a place that holds no group.  In the first a group is recorded and undone, the
document is marked saved and a new bracket records an item: `addUndoItem` clears the redo stack
and `lastRedoGroupWhenSaved` still names its first place.  In the second the document is marked
saved with one group on the undo stack and an "about to reload" notification arrives: both
stacks are empty and `lastUndoGroupWhenSaved` still names the first place of the undo stack. -/
theorem saved_references_outlive_their_groups :
    (∃ m, Reachable specOps m ∧ runAll specOps staleRedoCalls (KateUndoManager.new exampleDoc) = some m ∧
      m.redoItems = [] ∧ m.lastRedoGroupWhenSaved = some (GroupPtr.redoSlot 0)) ∧
    (∃ m, Reachable specOps m ∧
      runAll specOps [Call.editStart, Call.slotLineInserted 1 ['x'], Call.editEnd,
        Call.setModified false, Call.aboutToReload] (KateUndoManager.new exampleDoc) = some m ∧
      m.undoItems = [] ∧ m.redoItems = [] ∧
      m.lastUndoGroupWhenSaved = some (GroupPtr.undoSlot 0)) := by
  constructor
  · cases h : runAll specOps staleRedoCalls (KateUndoManager.new exampleDoc) with
    | none =>
      have h2 : (runAll specOps staleRedoCalls (KateUndoManager.new exampleDoc)).isSome = true := by
        decide
      simp [h] at h2
    | some m =>
      refine ⟨m, reachable_runAll specOps staleRedoCalls _ _ (Reachable.init exampleDoc)
        (by decide) h, rfl, ?_, ?_⟩
      · have h2 : (runAll specOps staleRedoCalls (KateUndoManager.new exampleDoc)).map
            (fun m => m.redoItems) = some [] := by decide
        rw [h] at h2
        simpa using h2
      · have h2 : (runAll specOps staleRedoCalls (KateUndoManager.new exampleDoc)).map
            (fun m => m.lastRedoGroupWhenSaved) = some (some (GroupPtr.redoSlot 0)) := by decide
        rw [h] at h2
        simpa using h2
  · have hr : runAll specOps [Call.editStart, Call.slotLineInserted 1 ['x'], Call.editEnd,
        Call.setModified false] (KateUndoManager.new exampleDoc) = some justSavedStateE := by
      decide
    refine ⟨justSavedStateE.aboutToReload, ?_, ?_, rfl, rfl, rfl⟩
    · exact Reachable.step Call.aboutToReload justSavedStateE _
        (reachable_runAll specOps _ _ _ (Reachable.init exampleDoc) (by decide) hr)
        (fun _ => rfl) rfl
    · have h := runAll_append specOps [Call.editStart, Call.slotLineInserted 1 ['x'], Call.editEnd,
        Call.setModified false] [Call.aboutToReload] (KateUndoManager.new exampleDoc)
      simp only [List.cons_append, List.nil_append] at h
      rw [h, hr]
      rfl

/-! ## Lemmas on a bracket with one notification, undone and redone -/

theorem Document.textLines_restoreView (d : Document) (c : Cursor) (r : Range)
    (sec : List PlainSecondaryCursor) : (d.restoreView c r sec).textLines = d.textLines := by
  unfold Document.restoreView
  split <;> rfl

theorem Document.textLines_setLineMarks (d : Document) (line : Int) (a b : Bool)
    (h : 0 ≤ line) :
    (d.setLineMarks line a b).textLines =
      modifyAt (fun tl => { tl with markedAsModified := a, markedAsSavedOnDisk := b })
        line.toNat d.textLines := by
  simp [Document.setLineMarks, h]

theorem Document.setLineMarks_congr (d d2 : Document) (line : Int) (a b : Bool)
    (h : d.textLines = d2.textLines) :
    (d.setLineMarks line a b).textLines = (d2.setLineMarks line a b).textLines := by
  unfold Document.setLineMarks
  split
  · simp [h]
  · exact h

theorem Document.editInsertText_congr (d d2 : Document) (line col : Int) (s : QString)
    (h : d.textLines = d2.textLines) :
    (d.editInsertText line col s).textLines = (d2.editInsertText line col s).textLines := by
  unfold Document.editInsertText
  split
  · simp [h]
  · exact h

theorem Document.editRemoveText_congr (d d2 : Document) (line col len : Int)
    (h : d.textLines = d2.textLines) :
    (d.editRemoveText line col len).textLines = (d2.editRemoveText line col len).textLines := by
  unfold Document.editRemoveText
  split
  · simp [h]
  · exact h

theorem Document.editInsertLine_congr (d d2 : Document) (line : Int) (s : QString)
    (h : d.textLines = d2.textLines) :
    (d.editInsertLine line s).textLines = (d2.editInsertLine line s).textLines := by
  unfold Document.editInsertLine
  rw [h]
  split
  · simp
  · exact h

theorem Document.editRemoveLine_congr (d d2 : Document) (line : Int)
    (h : d.textLines = d2.textLines) :
    (d.editRemoveLine line).textLines = (d2.editRemoveLine line).textLines := by
  unfold Document.editRemoveLine
  split
  · simp [h]
  · exact h

theorem Document.editWrapLine_congr (d d2 : Document) (line col : Int) (newLine : Bool)
    (h : d.textLines = d2.textLines) :
    (d.editWrapLine line col newLine).textLines = (d2.editWrapLine line col newLine).textLines := by
  unfold Document.editWrapLine
  rw [h]
  split
  · cases hg : d2.textLines.get? line.toNat with
    | none => simpa using h
    | some tl =>
      simp only
      split <;> rfl
  · exact h

theorem Document.editUnWrapLine_congr (d d2 : Document) (line : Int) (removeLine : Bool)
    (length : Int) (h : d.textLines = d2.textLines) :
    (d.editUnWrapLine line removeLine length).textLines =
      (d2.editUnWrapLine line removeLine length).textLines := by
  unfold Document.editUnWrapLine
  rw [h]
  split
  · cases hg : d2.textLines.get? (line.toNat + 1) with
    | none => simpa using h
    | some tl =>
      simp only
      split <;> rfl
  · exact h

theorem Document.editMarkLineAutoWrapped_congr (d d2 : Document) (line : Int) (b : Bool)
    (h : d.textLines = d2.textLines) :
    (d.editMarkLineAutoWrapped line b).textLines =
      (d2.editMarkLineAutoWrapped line b).textLines := by
  unfold Document.editMarkLineAutoWrapped
  split
  · simp [h]
  · exact h

/-- The replay of an item on redo depends on the lines of the document only. -/
theorem specRedoItem_congr (item : UndoItem) (d d2 : Document)
    (h : d.textLines = d2.textLines) :
    (specRedoItem item d).textLines = (specRedoItem item d2).textLines := by
  unfold specRedoItem
  cases item.type <;> simp only
  · exact Document.setLineMarks_congr _ _ _ _ _ (Document.editInsertText_congr _ _ _ _ _ h)
  · exact Document.setLineMarks_congr _ _ _ _ _ (Document.editRemoveText_congr _ _ _ _ _ h)
  · exact Document.setLineMarks_congr _ _ _ _ _ (Document.setLineMarks_congr _ _ _ _ _
      (Document.editWrapLine_congr _ _ _ _ _ h))
  · exact Document.setLineMarks_congr _ _ _ _ _ (Document.editUnWrapLine_congr _ _ _ _ _ h)
  · exact Document.setLineMarks_congr _ _ _ _ _ (Document.editInsertLine_congr _ _ _ _ h)
  · exact Document.editRemoveLine_congr _ _ _ h
  · exact Document.editMarkLineAutoWrapped_congr _ _ _ _ h
  · exact h

/-- A bracket with one notification that hands `item` to the open group, started with an empty
undo stack: the bracket leaves one group holding `item`; `undo()` replays the item backwards on
the lines of the document and `redo()` replays it forwards again. -/
theorem bracket_undo_redo (m0 : KateUndoManager) (c : Call) (after : Document) (item : UndoItem)
    (hact : m0.m_isActive = true) (hopen : m0.m_editCurrentUndo = none)
    (hu : m0.undoItems = [])
    (hslot : ∀ st g, st.m_document = m0.m_document → st.m_editCurrentUndo = some g →
      run specOps c st =
        some { st with m_editCurrentUndo := some (specOps.addItem g item), redoItems := [] }) :
    ∃ r u v g,
      runAll specOps [Call.editStart, c, Call.documentChanged after, Call.editEnd] m0 = some r ∧
      r.m_document = after ∧ r.m_editCurrentUndo = none ∧ r.undoItems = [g] ∧
      g.items = [item] ∧ r.redoItems = [] ∧
      r.undo specOps = some u ∧
      u.m_document.textLines = (specUndoItem item after).textLines ∧
      u.undoItems = [] ∧ u.redoItems = [g] ∧
      u.redo specOps = some v ∧
      v.m_document.textLines = (specRedoItem item (specUndoItem item after)).textLines ∧
      v.undoItems.length = 1 ∧ v.redoItems = [] := by
  have h1 : run specOps Call.editStart m0 =
      some { m0 with
        m_editCurrentUndo :=
          some (KateUndoGroup.new m0.snapshotCursor m0.snapshotSelection m0.snapshotSecondary) } := by
    simp [run, editStart, hact, hopen]
  have h2 := hslot { m0 with
        m_editCurrentUndo :=
          some (KateUndoGroup.new m0.snapshotCursor m0.snapshotSelection m0.snapshotSecondary) }
      _ rfl rfl
  let s : KateUndoManager :=
    { m0 with
      m_document := after
      m_editCurrentUndo := some (specOps.addItem
        (KateUndoGroup.new m0.snapshotCursor m0.snapshotSelection m0.snapshotSecondary) item)
      redoItems := [] }
  let g : KateUndoGroup :=
    (specOps.addItem
      (KateUndoGroup.new m0.snapshotCursor m0.snapshotSelection m0.snapshotSecondary)
      item).editEnd s.snapshotCursor s.snapshotSelection s.snapshotSecondary
  let r : KateUndoManager :=
    emit { s with undoItems := [g], m_editCurrentUndo := none } Signal.undoChanged
  have hrun : runAll specOps [Call.editStart, c, Call.documentChanged after, Call.editEnd] m0
      = some r := by
    simp only [runAll, h1, h2, Option.some_bind]
    show (run specOps Call.editEnd s).bind _ = _
    have he : run specOps Call.editEnd s = s.editEnd specOps := rfl
    rw [he, editEnd_of_open specOps s _ hact rfl]
    simp [KateUndoGroup.isEmpty, KateUndoGroup.editEnd, specOps, specAddItem, KateUndoGroup.new,
      s, hu, r, g]
  have hg : g.items = [item] := by
    simp [g, KateUndoGroup.editEnd, specOps, specAddItem, KateUndoGroup.new]
  have hru : r.undoItems = [] ++ [g] := rfl
  have hro : r.m_editCurrentUndo = none := rfl
  have hundo := undo_of_concat specOps r [] g hro hru
  let u0 : KateUndoManager :=
    { r with m_document := specOps.undo g r.m_document
             redoItems := r.redoItems ++ [g]
             undoItems := []
             emitted := r.emitted ++ [Signal.undoStart] }
  let u : KateUndoManager := emit (updateModified u0) Signal.undoEnd
  have huo : u.m_editCurrentUndo = none := by
    simp only [u, emit_editCurrentUndo]
    exact updateModified_editCurrentUndo_of_closed _ rfl
  have hur : u.redoItems = [] ++ [g] := by
    simp only [u, emit_redoItems, updateModified_redoItems]
    rfl
  have hut : u.m_document.textLines = (specUndoItem item after).textLines := by
    simp only [u, emit_document, updateModified_textLines]
    show (specUndoGroup g after).textLines = _
    simp only [specUndoGroup, Document.textLines_restoreView, hg, List.reverse_singleton,
      List.foldl_cons, List.foldl_nil]
  have huu : u.undoItems = [] := by
    simp only [u, emit_undoItems]
    rcases updateModified_undoItems_of_closed u0 rfl with h | ⟨_, h⟩
    · rw [h]
    · rw [h]; rfl
  have hredo := redo_of_concat specOps u [] g huo hur
  refine ⟨r, u, _, g, hrun, rfl, rfl, rfl, hg, rfl, hundo, hut, huu, by simpa using hur, hredo,
    ?_, ?_, ?_⟩
  · simp only [emit_document, updateModified_textLines]
    show (specRedoGroup g u.m_document).textLines = _
    simp only [specRedoGroup, Document.textLines_restoreView, hg, List.foldl_cons,
      List.foldl_nil]
    exact specRedoItem_congr _ _ _ hut
  · simp only [emit_undoItems]
    rcases updateModified_undoItems_of_closed
        { u with m_document := specOps.redo g u.m_document
                 undoItems := u.undoItems ++ [g]
                 redoItems := []
                 emitted := u.emitted ++ [Signal.redoStart] } huo with h | ⟨_, h⟩
    · rw [h]; simp [huu]
    · rw [h]; simp [huu, modifyBack]
  · simp only [emit_redoItems, updateModified_redoItems]

/-! ## Lemmas on the recorded items and their replay -/

theorem modifyAt_congr {α : Type} (f g : α → α) (n : Nat) (l : List α)
    (h : ∀ x, l.get? n = some x → f x = g x) : modifyAt f n l = modifyAt g n l := by
  induction l generalizing n with
  | nil => cases n <;> rfl
  | cons a l ih =>
    cases n with
    | zero => simp [modifyAt, h a (by simp)]
    | succ n =>
      simp only [modifyAt, List.cons.injEq, true_and]
      exact ih n (fun x hx => h x (by simpa using hx))

theorem plainKateTextLine_congr (d d2 : Document) (line : Int)
    (h : d.textLines = d2.textLines) : d.plainKateTextLine line = d2.plainKateTextLine line := by
  simp [Document.plainKateTextLine, h]

theorem plainKateTextLine_get (d : Document) (line : Int) (tl : TextLine)
    (h : d.plainKateTextLine line = some tl) :
    0 ≤ line ∧ d.textLines.get? line.toNat = some tl := by
  unfold Document.plainKateTextLine at h
  split at h
  · next hl => exact ⟨hl, h⟩
  · exact absurd h (by simp)

theorem plainKateTextLine_modifyAt (d d2 : Document) (line : Int) (tl : TextLine)
    (f : TextLine → TextLine)
    (h : d.plainKateTextLine line = some tl)
    (h2 : d2.textLines = modifyAt f line.toNat d.textLines) :
    d2.plainKateTextLine line = some (f tl) := by
  obtain ⟨hl, hg⟩ := plainKateTextLine_get d line tl h
  unfold Document.plainKateTextLine
  rw [if_pos hl, h2, modifyAt_get?, hg]
  rfl

theorem insert_remove_text (t s : QString) (k n : Nat) (hk : k ≤ t.length)
    (hs : (t.drop k).take n = s) :
    (t.take k ++ t.drop (k + n)).take k ++ s
      ++ (t.take k ++ t.drop (k + n)).drop k = t := by
  have hl : (t.take k).length = k := by simp [hk]
  rw [List.take_left' hl, List.drop_left' hl, ← hs, List.append_assoc, ← List.drop_drop,
    List.take_append_drop, List.take_append_drop]

theorem slotTextInserted_item (ops : GroupOps) (m : KateUndoManager) (g : KateUndoGroup)
    (line col : Int) (s : QString) (tl : TextLine)
    (hopen : m.m_editCurrentUndo = some g) (hs : s ≠ [])
    (hline : m.m_document.plainKateTextLine line = some tl) :
    m.slotTextInserted ops line col s =
      some { m with
        m_editCurrentUndo := some (ops.addItem g
          (textItem UndoType.editInsertText line col s tl.markedAsModified))
        redoItems := [] } := by
  simp only [slotTextInserted, hopen, hline, addUndoItem, Option.isNone_some,
    List.isEmpty_iff, hs, decide_False, Bool.or_self, Bool.false_eq_true, if_false]
  cases tl.markedAsModified <;>
    simp [UndoItem.setFlag, ModificationFlags.setFlag, UndoItem.default, ModificationFlags.none,
      textItem, hs]

theorem slotTextRemoved_item (ops : GroupOps) (m : KateUndoManager) (g : KateUndoGroup)
    (line col : Int) (s : QString) (tl : TextLine)
    (hopen : m.m_editCurrentUndo = some g) (hs : s ≠ [])
    (hline : m.m_document.plainKateTextLine line = some tl) :
    m.slotTextRemoved ops line col s =
      some { m with
        m_editCurrentUndo := some (ops.addItem g
          (textItem UndoType.editRemoveText line col s tl.markedAsModified))
        redoItems := [] } := by
  simp only [slotTextRemoved, hopen, hline, addUndoItem, Option.isNone_some,
    List.isEmpty_iff, hs, decide_False, Bool.or_self, Bool.false_eq_true, if_false]
  cases tl.markedAsModified <;>
    simp [UndoItem.setFlag, ModificationFlags.setFlag, UndoItem.default, ModificationFlags.none,
      textItem, hs]

/-- Undoing a text insertion gives back the lines before the insertion, the line carrying the
marks of the undo-direction flags. -/
theorem undo_insertText_lines (d : Document) (line col : Int) (s : QString) (tl : TextLine)
    (hline : d.plainKateTextLine line = some tl) (hc : 0 ≤ col) (hle : col ≤ tl.length) :
    (specUndoItem (textItem UndoType.editInsertText line col s tl.markedAsModified)
        (d.insertText line col s)).textLines =
      (d.setLineMarks line tl.markedAsModified (!tl.markedAsModified)).textLines := by
  obtain ⟨hl, hg⟩ := plainKateTextLine_get d line tl hline
  have hk : col.toNat ≤ tl.text.length := by
    unfold TextLine.length at hle
    omega
  simp only [specUndoItem, textItem, Document.insertText, Document.setLineMarks,
    Document.editRemoveText, Document.editInsertText, hl, hc, Int.ofNat_nonneg, and_self,
    if_true, ModificationFlags.none, modifyAt_modifyAt]
  apply modifyAt_congr
  intro x hx
  rw [hg] at hx
  cases hx
  have h := remove_insert_text tl.text s col.toNat hk
  simp only [TextLine.mk.injEq, and_true, true_and]
  simpa using h

/-- Redoing a text insertion gives the lines after the insertion, whatever the marks of the
line before the replay. -/
theorem redo_insertText_lines (d d2 : Document) (line col : Int) (s : QString) (M a b : Bool)
    (hl : 0 ≤ line) (hc : 0 ≤ col)
    (h2 : d2.textLines = (d.setLineMarks line a b).textLines) :
    (specRedoItem (textItem UndoType.editInsertText line col s M) d2).textLines =
      (d.insertText line col s).textLines := by
  rw [specRedoItem_congr _ d2 (d.setLineMarks line a b) h2]
  simp only [specRedoItem, textItem, Document.insertText, Document.setLineMarks,
    Document.editInsertText, hl, hc, and_self, if_true, ModificationFlags.none,
    modifyAt_modifyAt]

/-- Undoing a text removal gives back the lines before the removal, the line carrying the marks
of the undo-direction flags. -/
theorem undo_removeText_lines (d : Document) (line col : Int) (s : QString) (tl : TextLine)
    (hline : d.plainKateTextLine line = some tl) (hc : 0 ≤ col) (hle : col ≤ tl.length)
    (hs : (tl.text.drop col.toNat).take s.length = s) :
    (specUndoItem (textItem UndoType.editRemoveText line col s tl.markedAsModified)
        (d.removeText line col s.length)).textLines =
      (d.setLineMarks line tl.markedAsModified (!tl.markedAsModified)).textLines := by
  obtain ⟨hl, hg⟩ := plainKateTextLine_get d line tl hline
  have hk : col.toNat ≤ tl.text.length := by
    unfold TextLine.length at hle
    omega
  simp only [specUndoItem, textItem, Document.removeText, Document.setLineMarks,
    Document.editRemoveText, Document.editInsertText, hl, hc, Int.ofNat_nonneg, and_self,
    if_true, ModificationFlags.none, modifyAt_modifyAt]
  apply modifyAt_congr
  intro x hx
  rw [hg] at hx
  cases hx
  have h := insert_remove_text tl.text s col.toNat s.length hk hs
  simp only [TextLine.mk.injEq, and_true, true_and]
  simpa using h

/-- Redoing a text removal gives the lines after the removal, whatever the marks of the line
before the replay. -/
theorem redo_removeText_lines (d d2 : Document) (line col : Int) (s : QString) (M a b : Bool)
    (hl : 0 ≤ line) (hc : 0 ≤ col)
    (h2 : d2.textLines = (d.setLineMarks line a b).textLines) :
    (specRedoItem (textItem UndoType.editRemoveText line col s M) d2).textLines =
      (d.removeText line col s.length).textLines := by
  rw [specRedoItem_congr _ d2 (d.setLineMarks line a b) h2]
  simp only [specRedoItem, textItem, Document.removeText, Document.setLineMarks,
    Document.editRemoveText, hl, hc, Int.ofNat_nonneg, and_self, if_true,
    ModificationFlags.none, modifyAt_modifyAt]

theorem eraseIdx_insertAt {α : Type} (a : α) (n : Nat) (l : List α) (h : n ≤ l.length) :
    (insertAt a n l).eraseIdx n = l := by
  induction l generalizing n with
  | nil =>
    cases n with
    | zero => rfl
    | succ n => simp at h
  | cons x l ih =>
    cases n with
    | zero => rfl
    | succ n =>
      simp only [insertAt, List.eraseIdx_cons_succ, List.cons.injEq, true_and]
      exact ih n (by simpa using h)

theorem modifyAt_insertAt {α : Type} (f : α → α) (a : α) (n : Nat) (l : List α)
    (h : n ≤ l.length) : modifyAt f n (insertAt a n l) = insertAt (f a) n l := by
  induction l generalizing n with
  | nil =>
    cases n with
    | zero => rfl
    | succ n => simp at h
  | cons x l ih =>
    cases n with
    | zero => rfl
    | succ n =>
      simp only [insertAt, modifyAt, List.cons.injEq, true_and]
      exact ih n (by simpa using h)

theorem insertAt_eraseIdx {α : Type} (a x : α) (n : Nat) (l : List α)
    (h : l.get? n = some x) : insertAt a n (l.eraseIdx n) = modifyAt (fun _ => a) n l := by
  induction l generalizing n with
  | nil => simp at h
  | cons y l ih =>
    cases n with
    | zero => rfl
    | succ n =>
      have h2 : l.get? n = some x := by simpa using h
      cases l with
      | nil => simp at h2
      | cons z l2 =>
        simp only [List.eraseIdx_cons_succ, modifyAt, List.cons.injEq, true_and]
        cases n with
        | zero => rfl
        | succ k =>
          simp only [List.eraseIdx_cons_succ, insertAt, List.cons.injEq, true_and]
          have := ih (k + 1) h2
          simpa [insertAt, modifyAt] using this

theorem eraseIdx_modifyAt {α : Type} (f : α → α) (n : Nat) (l : List α) :
    (modifyAt f n l).eraseIdx n = l.eraseIdx n := by
  induction l generalizing n with
  | nil => cases n <;> rfl
  | cons x l ih =>
    cases n with
    | zero => rfl
    | succ n =>
      simp only [modifyAt, List.eraseIdx_cons_succ, List.cons.injEq, true_and]
      exact ih n

theorem slotLineInserted_item (ops : GroupOps) (m : KateUndoManager) (g : KateUndoGroup)
    (line : Int) (s : QString) (hopen : m.m_editCurrentUndo = some g) :
    m.slotLineInserted ops line s =
      some { m with
        m_editCurrentUndo := some (ops.addItem g (insertLineItem line s))
        redoItems := [] } := by
  simp [slotLineInserted, hopen, addUndoItem, UndoItem.setFlag, ModificationFlags.setFlag,
    UndoItem.default, ModificationFlags.none, insertLineItem]

theorem slotLineRemoved_item (ops : GroupOps) (m : KateUndoManager) (g : KateUndoGroup)
    (line : Int) (s : QString) (tl : TextLine) (hopen : m.m_editCurrentUndo = some g)
    (hline : m.m_document.plainKateTextLine line = some tl) :
    m.slotLineRemoved ops line s =
      some { m with
        m_editCurrentUndo := some (ops.addItem g (removeLineItem line s tl.markedAsModified))
        redoItems := [] } := by
  simp only [slotLineRemoved, hopen, hline, addUndoItem, Option.isSome_some, if_true]
  cases tl.markedAsModified <;>
    simp [UndoItem.setFlag, ModificationFlags.setFlag, UndoItem.default, ModificationFlags.none,
      removeLineItem]

/-- The lines after the insertion of a line. -/
theorem insertLine_lines (d : Document) (line : Int) (s : QString) (hl : 0 ≤ line)
    (hle : line.toNat ≤ d.textLines.length) :
    (d.insertLine line s).textLines = insertAt ⟨s, true, false, false⟩ line.toNat d.textLines := by
  simp only [Document.insertLine, Document.setLineMarks, Document.editInsertLine, hl, hle,
    and_self, if_true]
  exact modifyAt_insertAt _ _ _ _ hle

/-- Undoing the insertion of a line gives back the lines before the insertion. -/
theorem undo_insertLine_lines (d : Document) (line : Int) (s : QString) (hl : 0 ≤ line)
    (hle : line.toNat ≤ d.textLines.length) :
    (specUndoItem (insertLineItem line s) (d.insertLine line s)).textLines = d.textLines := by
  have h := insertLine_lines d line s hl hle
  simp only [specUndoItem, insertLineItem, Document.editRemoveLine, hl, if_true, h]
  exact eraseIdx_insertAt _ _ _ hle

/-- Redoing the insertion of a line gives the lines after the insertion. -/
theorem redo_insertLine_lines (d d2 : Document) (line : Int) (s : QString)
    (h2 : d2.textLines = d.textLines) :
    (specRedoItem (insertLineItem line s) d2).textLines = (d.insertLine line s).textLines := by
  rw [specRedoItem_congr _ d2 d h2]
  rfl

/-- Undoing the removal of a line puts the line back, with the marks of the undo-direction
flags. -/
theorem undo_removeLine_lines (d : Document) (line : Int) (tl : TextLine)
    (hline : d.plainKateTextLine line = some tl) :
    (specUndoItem (removeLineItem line tl.text tl.markedAsModified)
        (d.removeLine line)).textLines =
      modifyAt (fun _ => ⟨tl.text, tl.markedAsModified, !tl.markedAsModified, false⟩)
        line.toNat d.textLines := by
  obtain ⟨hl, hg⟩ := plainKateTextLine_get d line tl hline
  have hlt : line.toNat < d.textLines.length := by
    rw [List.get?_eq_getElem?] at hg
    exact (List.getElem?_eq_some_iff.mp hg).1
  have hle : line.toNat ≤ (d.textLines.eraseIdx line.toNat).length := by
    rw [List.length_eraseIdx]
    simp only [hlt, if_true]
    omega
  simp only [specUndoItem, removeLineItem, Document.removeLine, Document.editRemoveLine,
    Document.editInsertLine, Document.setLineMarks, hl, hle, and_self, if_true,
    ModificationFlags.none]
  rw [modifyAt_insertAt _ _ _ _ hle]
  exact insertAt_eraseIdx _ tl _ _ hg

/-- Redoing the removal of a line gives the lines after the removal. -/
theorem redo_removeLine_lines (d d2 : Document) (line : Int) (s : QString) (M : Bool)
    (f : TextLine → TextLine) (hl : 0 ≤ line)
    (h2 : d2.textLines = modifyAt f line.toNat d.textLines) :
    (specRedoItem (removeLineItem line s M) d2).textLines = (d.removeLine line).textLines := by
  simp only [specRedoItem, removeLineItem, Document.removeLine, Document.editRemoveLine, hl,
    if_true, h2]
  exact eraseIdx_modifyAt _ _ _

theorem get?_insertAt {α : Type} (a : α) (n : Nat) (l : List α) (h : n ≤ l.length) :
    (insertAt a n l).get? n = some a := by
  induction l generalizing n with
  | nil =>
    cases n with
    | zero => rfl
    | succ n => simp at h
  | cons x l ih =>
    cases n with
    | zero => rfl
    | succ n =>
      simp only [insertAt, List.get?_cons_succ]
      exact ih n (by simpa using h)

theorem modifyAt_insertAt_succ {α : Type} (f : α → α) (a : α) (n : Nat) (l : List α)
    (h : n < l.length) :
    modifyAt f n (insertAt a (n + 1) l) = insertAt a (n + 1) (modifyAt f n l) := by
  induction l generalizing n with
  | nil => simp at h
  | cons x l ih =>
    cases n with
    | zero => rfl
    | succ n =>
      simp only [insertAt, modifyAt, List.cons.injEq, true_and]
      exact ih n (by simpa using h)

theorem slotLineWrapped_item (ops : GroupOps) (m : KateUndoManager) (g : KateUndoGroup)
    (line col length : Int) (newLine : Bool) (tl : TextLine)
    (hopen : m.m_editCurrentUndo = some g)
    (hline : m.m_document.plainKateTextLine line = some tl) :
    m.slotLineWrapped ops line col length newLine =
      some { m with
        m_editCurrentUndo := some (ops.addItem g
          (wrapLineItem line col length newLine tl.markedAsModified tl.markedAsSavedOnDisk))
        redoItems := [] } := by
  obtain ⟨text, M, S, aw⟩ := tl
  simp only [slotLineWrapped, hopen, hline, addUndoItem, Option.isNone_some, Bool.false_eq_true,
    if_false, wrapLineItem]
  by_cases h1 : 0 < length <;> by_cases h2 : 0 < col <;> by_cases h3 : length = 0 <;>
    cases M <;> cases S <;>
    simp [h1, h2, h3, UndoItem.setFlag, ModificationFlags.setFlag, UndoItem.default,
      ModificationFlags.none]

/-- The lines after a line has been wrapped into a new line. -/
theorem wrapLine_lines (d : Document) (line col : Int) (tl : TextLine) (a b c e : Bool)
    (hline : d.plainKateTextLine line = some tl) (hc : 0 ≤ col) :
    (d.wrapLine line col true a b c e).textLines =
      insertAt ⟨tl.text.drop col.toNat, c, e, false⟩ (line.toNat + 1)
        (modifyAt (fun l => { l with
            text := l.text.take col.toNat, markedAsModified := a, markedAsSavedOnDisk := b })
          line.toNat d.textLines) := by
  obtain ⟨hl, hg⟩ := plainKateTextLine_get d line tl hline
  have hlt : line.toNat < d.textLines.length := by
    rw [List.get?_eq_getElem?] at hg
    exact (List.getElem?_eq_some_iff.mp hg).1
  have hl1 : 0 ≤ line + 1 := by omega
  have hn1 : (line + 1).toNat = line.toNat + 1 := by omega
  simp only [Document.wrapLine, Document.setLineMarks, Document.editWrapLine, hl, hc, hl1, hn1,
    and_self, if_true, hg, true_or]
  rw [modifyAt_insertAt_succ _ _ _ _ (by rw [modifyAt_length]; exact hlt), modifyAt_modifyAt,
    modifyAt_insertAt _ _ _ _ (by rw [modifyAt_length]; omega)]

/-- Undoing the wrap of a line into a new line gives back the lines before the wrap, the wrapped
line carrying the marks of the undo-direction flags. -/
theorem undo_wrapLine_lines (d : Document) (line col length : Int) (tl : TextLine)
    (M S a b c e : Bool)
    (hline : d.plainKateTextLine line = some tl) (hc : 0 ≤ col) :
    (specUndoItem (wrapLineItem line col length true M S)
        (d.wrapLine line col true a b c e)).textLines =
      modifyAt (fun l => { l with
          markedAsModified := M
          markedAsSavedOnDisk := !M && ((decide (0 < length) && decide (0 < col)) || S) })
        line.toNat d.textLines := by
  obtain ⟨hl, hg⟩ := plainKateTextLine_get d line tl hline
  have hlt : line.toNat < d.textLines.length := by
    rw [List.get?_eq_getElem?] at hg
    exact (List.getElem?_eq_some_iff.mp hg).1
  have hfw := wrapLine_lines d line col tl a b c e hline hc
  have hnext := get?_insertAt (⟨tl.text.drop col.toNat, c, e, false⟩ : TextLine)
    (line.toNat + 1)
    (modifyAt (fun l : TextLine => { l with
        text := l.text.take col.toNat, markedAsModified := a, markedAsSavedOnDisk := b })
      line.toNat d.textLines) (by rw [modifyAt_length]; omega)
  simp only [specUndoItem, wrapLineItem, Document.setLineMarks, Document.editUnWrapLine, hl,
    if_true, hnext, hfw]
  rw [modifyAt_insertAt_succ _ _ _ _ (by rw [modifyAt_length]; exact hlt),
    eraseIdx_insertAt _ _ _ (by rw [modifyAt_length, modifyAt_length]; omega),
    modifyAt_modifyAt, modifyAt_modifyAt]
  apply modifyAt_congr
  intro x hx
  rw [hg] at hx
  cases hx
  simp

/-! ## C15: text inserted and text removed -/

/-- C15: a text-inserted or text-removed notification with non-empty text, received while a
group is open, hands exactly one item to the open group, with the notified kind, line, column
and text and the flags RedoLine1Modified plus UndoLine1Modified if the line was marked modified
before the edit, UndoLine1Saved otherwise.  With the replay and the forward edits modelled from
the specification, in a bracket of its own started with an empty undo stack: after the edit the
line is modified and not saved on disk; after `undo()` the lines are those before the edit, the
edited line having the marks (M, not M), that is modified=false, savedOnDisk=true for a line
that was not marked modified; after `redo()` the lines are again those after the edit. -/
theorem text_notification_flags_and_marks (ops : GroupOps) (line col : Int) (s : QString)
    (tl : TextLine) (hs : s ≠ []) :
    (∀ (m : KateUndoManager) (g : KateUndoGroup), m.m_editCurrentUndo = some g →
      m.m_document.plainKateTextLine line = some tl →
      m.slotTextInserted ops line col s =
        some { m with
          m_editCurrentUndo := some (ops.addItem g
            { type := UndoType.editInsertText, line := line, col := col, text := s,
              autowrapped := false, newLine := false, removeLine := false, len := 0,
              lineModFlags :=
                { ModificationFlags.none with
                  RedoLine1Modified := true
                  UndoLine1Modified := tl.markedAsModified
                  UndoLine1Saved := !tl.markedAsModified } })
          redoItems := [] } ∧
      m.slotTextRemoved ops line col s =
        some { m with
          m_editCurrentUndo := some (ops.addItem g
            { type := UndoType.editRemoveText, line := line, col := col, text := s,
              autowrapped := false, newLine := false, removeLine := false, len := 0,
              lineModFlags :=
                { ModificationFlags.none with
                  RedoLine1Modified := true
                  UndoLine1Modified := tl.markedAsModified
                  UndoLine1Saved := !tl.markedAsModified } })
          redoItems := [] }) ∧
    (∀ m0 : KateUndoManager, m0.m_isActive = true → m0.m_editCurrentUndo = none →
      m0.undoItems = [] → m0.m_document.plainKateTextLine line = some tl →
      0 ≤ col → col ≤ tl.length →
      ∃ r u v,
        runAll specOps [Call.editStart, Call.slotTextInserted line col s,
          Call.documentChanged (m0.m_document.insertText line col s), Call.editEnd] m0 = some r ∧
        r.m_document.plainKateTextLine line =
          some { tl with
            text := tl.text.take col.toNat ++ s ++ tl.text.drop col.toNat
            markedAsModified := true, markedAsSavedOnDisk := false } ∧
        r.undo specOps = some u ∧
        u.m_document.plainKateTextLine line =
          some { tl with
            markedAsModified := tl.markedAsModified
            markedAsSavedOnDisk := !tl.markedAsModified } ∧
        u.m_document.textLines =
          (m0.m_document.setLineMarks line tl.markedAsModified (!tl.markedAsModified)).textLines ∧
        u.redo specOps = some v ∧
        v.m_document.textLines = r.m_document.textLines) ∧
    (∀ m0 : KateUndoManager, m0.m_isActive = true → m0.m_editCurrentUndo = none →
      m0.undoItems = [] → m0.m_document.plainKateTextLine line = some tl →
      0 ≤ col → col ≤ tl.length → (tl.text.drop col.toNat).take s.length = s →
      ∃ r u v,
        runAll specOps [Call.editStart, Call.slotTextRemoved line col s,
          Call.documentChanged (m0.m_document.removeText line col s.length), Call.editEnd] m0
          = some r ∧
        r.m_document.plainKateTextLine line =
          some { tl with
            text := tl.text.take col.toNat ++ tl.text.drop (col.toNat + s.length)
            markedAsModified := true, markedAsSavedOnDisk := false } ∧
        r.undo specOps = some u ∧
        u.m_document.plainKateTextLine line =
          some { tl with
            markedAsModified := tl.markedAsModified
            markedAsSavedOnDisk := !tl.markedAsModified } ∧
        u.m_document.textLines =
          (m0.m_document.setLineMarks line tl.markedAsModified (!tl.markedAsModified)).textLines ∧
        u.redo specOps = some v ∧
        v.m_document.textLines = r.m_document.textLines) := by
  refine ⟨fun m g hopen hline =>
    ⟨slotTextInserted_item ops m g line col s tl hopen hs hline,
     slotTextRemoved_item ops m g line col s tl hopen hs hline⟩, ?_, ?_⟩
  · intro m0 hact hopen hu hline hc hle
    obtain ⟨hl, hg⟩ := plainKateTextLine_get _ line tl hline
    obtain ⟨r, u, v, g, hrun, hrd, _, _, _, _, hundo, hut, _, _, hredo, hvt, _, _⟩ :=
      bracket_undo_redo m0 (Call.slotTextInserted line col s)
        (m0.m_document.insertText line col s)
        (textItem UndoType.editInsertText line col s tl.markedAsModified) hact hopen hu
        (fun st g hd hg => slotTextInserted_item specOps st g line col s tl hg hs (hd ▸ hline))
    rw [undo_insertText_lines _ line col s tl hline hc hle] at hut
    refine ⟨r, u, v, hrun, ?_, hundo, ?_, hut, hredo, ?_⟩
    · rw [hrd]
      apply plainKateTextLine_modifyAt _ _ line tl _ hline
      simp only [Document.insertText, Document.setLineMarks, Document.editInsertText, hl, hc,
        and_self, if_true, modifyAt_modifyAt]
    · exact plainKateTextLine_modifyAt _ _ line tl
        (fun l => { l with
          markedAsModified := tl.markedAsModified, markedAsSavedOnDisk := !tl.markedAsModified })
        hline (hut.trans (Document.textLines_setLineMarks _ _ _ _ hl))
    · rw [hvt, hrd]
      exact redo_insertText_lines _ _ line col s _ _ _ hl hc
        (undo_insertText_lines _ line col s tl hline hc hle)
  · intro m0 hact hopen hu hline hc hle hrem
    obtain ⟨hl, hg⟩ := plainKateTextLine_get _ line tl hline
    obtain ⟨r, u, v, g, hrun, hrd, _, _, _, _, hundo, hut, _, _, hredo, hvt, _, _⟩ :=
      bracket_undo_redo m0 (Call.slotTextRemoved line col s)
        (m0.m_document.removeText line col s.length)
        (textItem UndoType.editRemoveText line col s tl.markedAsModified) hact hopen hu
        (fun st g hd hg => slotTextRemoved_item specOps st g line col s tl hg hs (hd ▸ hline))
    rw [undo_removeText_lines _ line col s tl hline hc hle hrem] at hut
    refine ⟨r, u, v, hrun, ?_, hundo, ?_, hut, hredo, ?_⟩
    · rw [hrd]
      apply plainKateTextLine_modifyAt _ _ line tl _ hline
      simp only [Document.removeText, Document.setLineMarks, Document.editRemoveText, hl, hc,
        Int.ofNat_nonneg, and_self, if_true, modifyAt_modifyAt, Int.toNat_ofNat]
    · exact plainKateTextLine_modifyAt _ _ line tl
        (fun l => { l with
          markedAsModified := tl.markedAsModified, markedAsSavedOnDisk := !tl.markedAsModified })
        hline (hut.trans (Document.textLines_setLineMarks _ _ _ _ hl))
    · rw [hvt, hrd]
      exact redo_removeText_lines _ _ line col s _ _ _ hl hc
        (undo_removeText_lines _ line col s tl hline hc hle hrem)

/-- Witness for C15: in the unflagged line "ab" of a new manager, 'x' is inserted at column 1,
or 'b' is removed at column 1. -/
theorem text_notification_flags_and_marks_witness :
    (∃ r u v,
      runAll specOps [Call.editStart, Call.slotTextInserted 0 1 ['x'],
        Call.documentChanged (exampleDoc.insertText 0 1 ['x']), Call.editEnd]
        (KateUndoManager.new exampleDoc) = some r ∧
      r.m_document.plainKateTextLine 0 = some ⟨['a', 'x', 'b'], true, false, false⟩ ∧
      r.undo specOps = some u ∧
      u.m_document.plainKateTextLine 0 = some ⟨['a', 'b'], false, true, false⟩ ∧
      u.m_document.textLines = [⟨['a', 'b'], false, true, false⟩] ∧
      u.redo specOps = some v ∧
      v.m_document.textLines = r.m_document.textLines) ∧
    (∃ r u v,
      runAll specOps [Call.editStart, Call.slotTextRemoved 0 1 ['b'],
        Call.documentChanged (exampleDoc.removeText 0 1 1), Call.editEnd]
        (KateUndoManager.new exampleDoc) = some r ∧
      r.m_document.plainKateTextLine 0 = some ⟨['a'], true, false, false⟩ ∧
      r.undo specOps = some u ∧
      u.m_document.plainKateTextLine 0 = some ⟨['a', 'b'], false, true, false⟩ ∧
      u.m_document.textLines = [⟨['a', 'b'], false, true, false⟩] ∧
      u.redo specOps = some v ∧
      v.m_document.textLines = r.m_document.textLines) :=
  ⟨(text_notification_flags_and_marks specOps 0 1 ['x'] ⟨['a', 'b'], false, false, false⟩
      (by decide)).2.1 (KateUndoManager.new exampleDoc) rfl rfl rfl rfl (by decide) (by decide),
   (text_notification_flags_and_marks specOps 0 1 ['b'] ⟨['a', 'b'], false, false, false⟩
      (by decide)).2.2 (KateUndoManager.new exampleDoc) rfl rfl rfl rfl (by decide) (by decide)
      rfl⟩

/-! ## C16: line inserted -/

/-- C16: a line-inserted notification received while a group is open hands exactly one item to
the open group: an InsertLine item with the notified line and text, the flag RedoLine1Modified
and no undo-direction flag, whatever the document.  With the replay and the forward edit
modelled from the specification, in a bracket of its own started with an empty undo stack:
after the insertion the new line is modified and the other lines are as before; after `undo()`
the lines, marks included, are exactly those before the insertion; after `redo()` the lines are
again those after the insertion. -/
theorem line_inserted_flags_and_marks (ops : GroupOps) (line : Int) (s : QString) :
    (∀ (m : KateUndoManager) (g : KateUndoGroup), m.m_editCurrentUndo = some g →
      m.slotLineInserted ops line s =
        some { m with
          m_editCurrentUndo := some (ops.addItem g
            { type := UndoType.editInsertLine, line := line, col := 0, text := s,
              autowrapped := false, newLine := false, removeLine := false, len := 0,
              lineModFlags :=
                { UndoLine1Modified := false, UndoLine2Modified := false
                  UndoLine1Saved := false, UndoLine2Saved := false
                  RedoLine1Modified := true, RedoLine2Modified := false
                  RedoLine1Saved := false, RedoLine2Saved := false } })
          redoItems := [] }) ∧
    (∀ m0 : KateUndoManager, m0.m_isActive = true → m0.m_editCurrentUndo = none →
      m0.undoItems = [] → 0 ≤ line → line.toNat ≤ m0.m_document.textLines.length →
      ∃ r u v,
        runAll specOps [Call.editStart, Call.slotLineInserted line s,
          Call.documentChanged (m0.m_document.insertLine line s), Call.editEnd] m0 = some r ∧
        r.m_document.textLines =
          insertAt ⟨s, true, false, false⟩ line.toNat m0.m_document.textLines ∧
        r.undo specOps = some u ∧
        u.m_document.textLines = m0.m_document.textLines ∧
        u.redo specOps = some v ∧
        v.m_document.textLines =
          insertAt ⟨s, true, false, false⟩ line.toNat m0.m_document.textLines) := by
  refine ⟨fun m g hopen => slotLineInserted_item ops m g line s hopen, ?_⟩
  intro m0 hact hopen hu hl hle
  obtain ⟨r, u, v, g, hrun, hrd, _, _, _, _, hundo, hut, _, _, hredo, hvt, _, _⟩ :=
    bracket_undo_redo m0 (Call.slotLineInserted line s) (m0.m_document.insertLine line s)
      (insertLineItem line s) hact hopen hu
      (fun st g _ hg => slotLineInserted_item specOps st g line s hg)
  rw [undo_insertLine_lines _ line s hl hle] at hut
  refine ⟨r, u, v, hrun, ?_, hundo, hut, hredo, ?_⟩
  · rw [hrd]
    exact insertLine_lines _ line s hl hle
  · rw [hvt, redo_insertLine_lines m0.m_document _ line s (undo_insertLine_lines _ line s hl hle)]
    exact insertLine_lines _ line s hl hle

/-- Witness for C16: the line "1" is inserted between the unflagged lines "0" and "2". -/
theorem line_inserted_flags_and_marks_witness :
    ∃ r u v,
      runAll specOps [Call.editStart, Call.slotLineInserted 1 ['1'],
        Call.documentChanged (twoLineDoc.insertLine 1 ['1']), Call.editEnd]
        (KateUndoManager.new twoLineDoc) = some r ∧
      r.m_document.textLines =
        [⟨['0'], false, false, false⟩, ⟨['1'], true, false, false⟩,
         ⟨['2'], false, false, false⟩] ∧
      r.undo specOps = some u ∧
      u.m_document.textLines = [⟨['0'], false, false, false⟩, ⟨['2'], false, false, false⟩] ∧
      u.redo specOps = some v ∧
      v.m_document.textLines =
        [⟨['0'], false, false, false⟩, ⟨['1'], true, false, false⟩,
         ⟨['2'], false, false, false⟩] :=
  (line_inserted_flags_and_marks specOps 1 ['1']).2 (KateUndoManager.new twoLineDoc) rfl rfl rfl
    (by decide) (by decide)

/-! ## C17: line removed -/

/-- C17: a line-removed notification received while a group is open, the removed line existing
with the modified mark M, hands exactly one item to the open group: a RemoveLine item with the
notified line and text, the flag RedoLine1Modified and exactly one undo-direction flag,
UndoLine1Modified if M, UndoLine1Saved otherwise.  With the replay and the forward edit modelled
from the specification, in a bracket of its own started with an empty undo stack: after
`undo()` the line is back with the marks (M, not M), that is modified=false, savedOnDisk=true
for a line that was not marked modified, and the other lines are as before; after `redo()` the
line is removed again and the other lines are as before. -/
theorem line_removed_flags_and_marks (ops : GroupOps) (line : Int) (s : QString)
    (tl : TextLine) :
    (∀ (m : KateUndoManager) (g : KateUndoGroup), m.m_editCurrentUndo = some g →
      m.m_document.plainKateTextLine line = some tl →
      m.slotLineRemoved ops line s =
        some { m with
          m_editCurrentUndo := some (ops.addItem g
            { type := UndoType.editRemoveLine, line := line, col := 0, text := s,
              autowrapped := false, newLine := false, removeLine := false, len := 0,
              lineModFlags :=
                { UndoLine1Modified := tl.markedAsModified, UndoLine2Modified := false
                  UndoLine1Saved := !tl.markedAsModified, UndoLine2Saved := false
                  RedoLine1Modified := true, RedoLine2Modified := false
                  RedoLine1Saved := false, RedoLine2Saved := false } })
          redoItems := [] }) ∧
    (∀ m0 : KateUndoManager, m0.m_isActive = true → m0.m_editCurrentUndo = none →
      m0.undoItems = [] → m0.m_document.plainKateTextLine line = some tl →
      ∃ r u v,
        runAll specOps [Call.editStart, Call.slotLineRemoved line tl.text,
          Call.documentChanged (m0.m_document.removeLine line), Call.editEnd] m0 = some r ∧
        r.m_document.textLines = m0.m_document.textLines.eraseIdx line.toNat ∧
        r.undo specOps = some u ∧
        u.m_document.textLines =
          modifyAt (fun _ => ⟨tl.text, tl.markedAsModified, !tl.markedAsModified, false⟩)
            line.toNat m0.m_document.textLines ∧
        u.redo specOps = some v ∧
        v.m_document.textLines = m0.m_document.textLines.eraseIdx line.toNat) := by
  refine ⟨fun m g hopen hline => slotLineRemoved_item ops m g line s tl hopen hline, ?_⟩
  intro m0 hact hopen hu hline
  obtain ⟨hl, hg⟩ := plainKateTextLine_get _ line tl hline
  obtain ⟨r, u, v, g, hrun, hrd, _, _, _, _, hundo, hut, _, _, hredo, hvt, _, _⟩ :=
    bracket_undo_redo m0 (Call.slotLineRemoved line tl.text) (m0.m_document.removeLine line)
      (removeLineItem line tl.text tl.markedAsModified) hact hopen hu
      (fun st g hd hg => slotLineRemoved_item specOps st g line tl.text tl hg (hd ▸ hline))
  rw [undo_removeLine_lines _ line tl hline] at hut
  have hfw : (m0.m_document.removeLine line).textLines
      = m0.m_document.textLines.eraseIdx line.toNat := by
    simp [Document.removeLine, Document.editRemoveLine, hl]
  refine ⟨r, u, v, hrun, ?_, hundo, hut, hredo, ?_⟩
  · rw [hrd, hfw]
  · rw [hvt, redo_removeLine_lines m0.m_document _ line tl.text _ _ hl
      (undo_removeLine_lines _ line tl hline), hfw]

/-- Witness for C17: the line "1" is removed from between the unflagged lines "0" and "2". -/
theorem line_removed_flags_and_marks_witness :
    ∃ r u v,
      runAll specOps [Call.editStart, Call.slotLineRemoved 1 ['1'],
        Call.documentChanged (threeLineDoc.removeLine 1), Call.editEnd]
        (KateUndoManager.new threeLineDoc) = some r ∧
      r.m_document.textLines = [⟨['0'], false, false, false⟩, ⟨['2'], false, false, false⟩] ∧
      r.undo specOps = some u ∧
      u.m_document.textLines =
        [⟨['0'], false, false, false⟩, ⟨['1'], false, true, false⟩,
         ⟨['2'], false, false, false⟩] ∧
      u.redo specOps = some v ∧
      v.m_document.textLines = [⟨['0'], false, false, false⟩, ⟨['2'], false, false, false⟩] :=
  (line_removed_flags_and_marks specOps 1 ['1'] ⟨['1'], false, false, false⟩).2
    (KateUndoManager.new threeLineDoc) rfl rfl rfl rfl

/-! ## C18: the flags of a wrapped line -/

/-- C18: a line-wrapped notification `(line, col, length, newLine)` received while a group is
open, the wrapped line having the marks M (modified) and S (saved on disk), hands exactly one
item to the open group: a WrapLine item with the notified line, column, length and `newLine`,
whose flags are: redo line 1 Modified if `length > 0` or M, else Saved if S; redo line 2
Modified if `col > 0` or `length == 0` or M, else Saved if S; undo line 1 Modified if M, else
Saved if (`length > 0` and `col > 0`) or S; undo line 2 never. -/
theorem slotLineWrapped_flags (ops : GroupOps) (m : KateUndoManager) (g : KateUndoGroup)
    (line col length : Int) (newLine : Bool) (tl : TextLine)
    (hopen : m.m_editCurrentUndo = some g)
    (hline : m.m_document.plainKateTextLine line = some tl) :
    m.slotLineWrapped ops line col length newLine =
      some { m with
        m_editCurrentUndo := some (ops.addItem g
          { type := UndoType.editWrapLine, line := line, col := col, text := [],
            autowrapped := false, newLine := newLine, removeLine := false, len := length,
            lineModFlags :=
              { RedoLine1Modified := decide (0 < length) || tl.markedAsModified
                RedoLine1Saved :=
                  !(decide (0 < length) || tl.markedAsModified) && tl.markedAsSavedOnDisk
                RedoLine2Modified :=
                  decide (0 < col) || decide (length = 0) || tl.markedAsModified
                RedoLine2Saved :=
                  !(decide (0 < col) || decide (length = 0) || tl.markedAsModified)
                    && tl.markedAsSavedOnDisk
                UndoLine1Modified := tl.markedAsModified
                UndoLine1Saved :=
                  !tl.markedAsModified
                    && ((decide (0 < length) && decide (0 < col)) || tl.markedAsSavedOnDisk)
                UndoLine2Modified := false
                UndoLine2Saved := false } })
        redoItems := [] } := by
  obtain ⟨text, M, S, aw⟩ := tl
  simp only [slotLineWrapped, hopen, hline, addUndoItem, Option.isNone_some, Bool.false_eq_true,
    if_false]
  by_cases h1 : 0 < length <;> by_cases h2 : 0 < col <;> by_cases h3 : length = 0 <;>
    cases M <;> cases S <;>
    simp [h1, h2, h3, UndoItem.setFlag, ModificationFlags.setFlag, UndoItem.default,
      ModificationFlags.none]


/-- Witness for C18: the three wraps of an unflagged line of four characters: mid-line (column
2, length 2), at the line end (column 4, length 0) and at the line start (column 0, length
4). -/
theorem slotLineWrapped_flags_witness :
    wrapOpenState.slotLineWrapped specOps 0 2 2 true =
      some { wrapOpenState with
        m_editCurrentUndo := some (groupOf [wrapItem 2 2
          { ModificationFlags.none with
            RedoLine1Modified := true, RedoLine2Modified := true, UndoLine1Saved := true }]) } ∧
    wrapOpenState.slotLineWrapped specOps 0 4 0 true =
      some { wrapOpenState with
        m_editCurrentUndo := some (groupOf [wrapItem 4 0
          { ModificationFlags.none with RedoLine2Modified := true }]) } ∧
    wrapOpenState.slotLineWrapped specOps 0 0 4 true =
      some { wrapOpenState with
        m_editCurrentUndo := some (groupOf [wrapItem 0 4
          { ModificationFlags.none with RedoLine1Modified := true }]) } :=
  ⟨(slotLineWrapped_flags specOps wrapOpenState (groupOf []) 0 2 2 true
      ⟨['a', 'a', 'a', 'a'], false, false, false⟩ rfl rfl).trans (by decide),
   (slotLineWrapped_flags specOps wrapOpenState (groupOf []) 0 4 0 true
      ⟨['a', 'a', 'a', 'a'], false, false, false⟩ rfl rfl).trans (by decide),
   (slotLineWrapped_flags specOps wrapOpenState (groupOf []) 0 0 4 true
      ⟨['a', 'a', 'a', 'a'], false, false, false⟩ rfl rfl).trans (by decide)⟩

/-! ## C19: the flags of an unwrapped line -/

/-- C19: a line-unwrapped notification received while a group is open, `line` and `line + 1`
both existing with lengths len1, len2 and marks (M1, S1), (M2, S2), hands exactly one item to
the open group: an UnwrapLine item with the notified line, column, length and `lineRemoved`,
whose flags are: (a) when `len1 > 0` and `len2 > 0`: redo line 1 Modified; undo line 1 Modified
if M1 else Saved; undo line 2 Modified if M2 else Saved; (b) when `len1 == 0`: redo line 1
Modified if M2, else Saved if S2; undo line 1 Modified if M1 else Saved; undo line 2 Modified if
M2, else Saved if S2; (c) when `len1 > 0` and `len2 == 0`: redo line 1 Modified if M2, else
Saved if S2 (the marks of the empty next line); undo line 1 Modified if M1, else Saved if S1;
undo line 2 Modified if M2 else Saved.  Redo line 2 is never set. -/
theorem slotLineUnWrapped_flags (ops : GroupOps) (m : KateUndoManager) (g : KateUndoGroup)
    (line col length : Int) (lineRemoved : Bool) (tl nextLine : TextLine)
    (hopen : m.m_editCurrentUndo = some g)
    (hline : m.m_document.plainKateTextLine line = some tl)
    (hnext : m.m_document.plainKateTextLine (line + 1) = some nextLine) :
    (0 < tl.length ∧ 0 < nextLine.length →
      m.slotLineUnWrapped ops line col length lineRemoved =
        some { m with
          m_editCurrentUndo := some (ops.addItem g
            { type := UndoType.editUnWrapLine, line := line, col := col, text := [],
              autowrapped := false, newLine := false, removeLine := lineRemoved, len := length,
              lineModFlags :=
                { RedoLine1Modified := true, RedoLine1Saved := false
                  RedoLine2Modified := false, RedoLine2Saved := false
                  UndoLine1Modified := tl.markedAsModified
                  UndoLine1Saved := !tl.markedAsModified
                  UndoLine2Modified := nextLine.markedAsModified
                  UndoLine2Saved := !nextLine.markedAsModified } })
          redoItems := [] }) ∧
    (tl.length = 0 →
      m.slotLineUnWrapped ops line col length lineRemoved =
        some { m with
          m_editCurrentUndo := some (ops.addItem g
            { type := UndoType.editUnWrapLine, line := line, col := col, text := [],
              autowrapped := false, newLine := false, removeLine := lineRemoved, len := length,
              lineModFlags :=
                { RedoLine1Modified := nextLine.markedAsModified
                  RedoLine1Saved := !nextLine.markedAsModified && nextLine.markedAsSavedOnDisk
                  RedoLine2Modified := false, RedoLine2Saved := false
                  UndoLine1Modified := tl.markedAsModified
                  UndoLine1Saved := !tl.markedAsModified
                  UndoLine2Modified := nextLine.markedAsModified
                  UndoLine2Saved := !nextLine.markedAsModified && nextLine.markedAsSavedOnDisk } })
          redoItems := [] }) ∧
    (0 < tl.length ∧ nextLine.length = 0 →
      m.slotLineUnWrapped ops line col length lineRemoved =
        some { m with
          m_editCurrentUndo := some (ops.addItem g
            { type := UndoType.editUnWrapLine, line := line, col := col, text := [],
              autowrapped := false, newLine := false, removeLine := lineRemoved, len := length,
              lineModFlags :=
                { RedoLine1Modified := nextLine.markedAsModified
                  RedoLine1Saved := !nextLine.markedAsModified && nextLine.markedAsSavedOnDisk
                  RedoLine2Modified := false, RedoLine2Saved := false
                  UndoLine1Modified := tl.markedAsModified
                  UndoLine1Saved := !tl.markedAsModified && tl.markedAsSavedOnDisk
                  UndoLine2Modified := nextLine.markedAsModified
                  UndoLine2Saved := !nextLine.markedAsModified } })
          redoItems := [] }) := by
  generalize hn1 : tl.length = len1
  generalize hn2 : nextLine.length = len2
  obtain ⟨t1, M1, S1, aw1⟩ := tl
  obtain ⟨t2, M2, S2, aw2⟩ := nextLine
  simp only [slotLineUnWrapped, hopen, hline, hnext, addUndoItem, Option.isNone_some,
    Bool.false_eq_true, if_false, hn1, hn2]
  refine ⟨?_, ?_, ?_⟩
  · intro h
    cases M1 <;> cases M2 <;>
      simp [h, UndoItem.setFlag, ModificationFlags.setFlag, UndoItem.default,
        ModificationFlags.none]
  · intro h
    cases M1 <;> cases M2 <;> cases S2 <;>
      simp [h, UndoItem.setFlag, ModificationFlags.setFlag, UndoItem.default,
        ModificationFlags.none]
  · intro h
    have h3 : len1 ≠ 0 := by omega
    cases M1 <;> cases M2 <;> cases S1 <;> cases S2 <;>
      simp [h, h3, UndoItem.setFlag, ModificationFlags.setFlag, UndoItem.default,
        ModificationFlags.none]

/-- Witness for C19: the three unwraps of unflagged lines: lengths (4, 4), (0, 4) and
(4, 0). -/
theorem slotLineUnWrapped_flags_witness :
    (unwrapOpenState ['a', 'a', 'a', 'a'] ['b', 'b', 'b', 'b']).slotLineUnWrapped specOps 0 4 4
        true =
      some { unwrapOpenState ['a', 'a', 'a', 'a'] ['b', 'b', 'b', 'b'] with
        m_editCurrentUndo := some (groupOf [unwrapItem 4 4
          { ModificationFlags.none with
            RedoLine1Modified := true, UndoLine1Saved := true, UndoLine2Saved := true }]) } ∧
    (unwrapOpenState [] ['b', 'b', 'b', 'b']).slotLineUnWrapped specOps 0 0 4 true =
      some { unwrapOpenState [] ['b', 'b', 'b', 'b'] with
        m_editCurrentUndo := some (groupOf [unwrapItem 0 4
          { ModificationFlags.none with UndoLine1Saved := true }]) } ∧
    (unwrapOpenState ['a', 'a', 'a', 'a'] []).slotLineUnWrapped specOps 0 4 0 true =
      some { unwrapOpenState ['a', 'a', 'a', 'a'] [] with
        m_editCurrentUndo := some (groupOf [unwrapItem 4 0
          { ModificationFlags.none with UndoLine2Saved := true }]) } :=
  ⟨((slotLineUnWrapped_flags specOps (unwrapOpenState ['a', 'a', 'a', 'a'] ['b', 'b', 'b', 'b'])
      (groupOf []) 0 4 4 true ⟨['a', 'a', 'a', 'a'], false, false, false⟩
      ⟨['b', 'b', 'b', 'b'], false, false, false⟩ rfl rfl rfl).1 (by decide)).trans (by decide),
   ((slotLineUnWrapped_flags specOps (unwrapOpenState [] ['b', 'b', 'b', 'b'])
      (groupOf []) 0 0 4 true ⟨[], false, false, false⟩
      ⟨['b', 'b', 'b', 'b'], false, false, false⟩ rfl rfl rfl).2.1 (by decide)).trans (by decide),
   ((slotLineUnWrapped_flags specOps (unwrapOpenState ['a', 'a', 'a', 'a'] [])
      (groupOf []) 0 4 0 true ⟨['a', 'a', 'a', 'a'], false, false, false⟩
      ⟨[], false, false, false⟩ rfl rfl rfl).2.2 (by decide)).trans (by decide)⟩

/-! ## C20: undoing a wrap -/

/-- C20 (counterexample): the unflagged line "aaaa" of `wrapDoc0` is wrapped at column 2 in a
bracket of its own and `undo()` is called.  The texts are those before the wrap, but line 0 is
now marked saved on disk, which it was not before the wrap. -/
theorem wrap_undo_changes_saved_mark :
    (runAll specOps [Call.editStart, Call.slotLineWrapped 0 2 2 true,
        Call.documentChanged (wrapDoc0.wrapLine 0 2 true true false true false), Call.editEnd,
        Call.undo] (KateUndoManager.new wrapDoc0)).map
      (fun m => (m.m_document.texts, m.m_document.marks))
      = some ([['a', 'a', 'a', 'a'], ['b', 'b', 'b', 'b']], [(false, true), (false, false)]) ∧
    wrapDoc0.texts = [['a', 'a', 'a', 'a'], ['b', 'b', 'b', 'b']] ∧
    wrapDoc0.marks = [(false, false), (false, false)] := by
  decide

/-- C20 (amended): a line with the marks M (modified) and S (saved on disk) is wrapped into a new
line at a column `col` (not negative), in a bracket of its own started with an empty undo stack,
the replay being the one modelled from the specification.  After `undo()` the texts of all lines
are those before the wrap, and so are the marks of all lines but the wrapped one, whose marks
are: modified = M, savedOnDisk = not M and (S or (`0 < col` and `col` before the line end)).
The lines are exactly those before the wrap if and only if S already has that value. -/
theorem wrap_undo_restores_texts (m0 : KateUndoManager) (line col : Int) (tl : TextLine)
    (a b c e : Bool)
    (hact : m0.m_isActive = true) (hopen : m0.m_editCurrentUndo = none)
    (hu : m0.undoItems = []) (hline : m0.m_document.plainKateTextLine line = some tl)
    (hc : 0 ≤ col) :
    ∃ r u,
      runAll specOps [Call.editStart, Call.slotLineWrapped line col (tl.length - col) true,
        Call.documentChanged (m0.m_document.wrapLine line col true a b c e), Call.editEnd] m0
        = some r ∧
      r.undo specOps = some u ∧
      u.m_document.texts = m0.m_document.texts ∧
      u.m_document.textLines =
        modifyAt (fun l => { l with
            markedAsModified := tl.markedAsModified
            markedAsSavedOnDisk :=
              !tl.markedAsModified &&
                ((decide (0 < tl.length - col) && decide (0 < col)) || tl.markedAsSavedOnDisk) })
          line.toNat m0.m_document.textLines ∧
      (u.m_document.textLines = m0.m_document.textLines ↔
        tl.markedAsSavedOnDisk =
          (!tl.markedAsModified &&
            ((decide (0 < tl.length - col) && decide (0 < col)) || tl.markedAsSavedOnDisk))) := by
  obtain ⟨hl, hg⟩ := plainKateTextLine_get _ line tl hline
  obtain ⟨r, u, v, g, hrun, hrd, _, _, _, _, hundo, hut, _, _, _, _, _, _⟩ :=
    bracket_undo_redo m0 (Call.slotLineWrapped line col (tl.length - col) true)
      (m0.m_document.wrapLine line col true a b c e)
      (wrapLineItem line col (tl.length - col) true tl.markedAsModified tl.markedAsSavedOnDisk)
      hact hopen hu
      (fun st g hd hg =>
        slotLineWrapped_item specOps st g line col (tl.length - col) true tl hg (hd ▸ hline))
  rw [undo_wrapLine_lines _ line col _ tl _ _ a b c e hline hc] at hut
  refine ⟨r, u, hrun, hundo, ?_, hut, ?_⟩
  · simp only [Document.texts, hut]
    apply map_modifyAt_same
    intro x
    rfl
  · rw [hut]
    constructor
    · intro h
      have h2 := congrArg (fun l => l.get? line.toNat) h
      simp only [modifyAt_get?, hg, Option.map_some', Option.some.injEq] at h2
      have h3 := congrArg TextLine.markedAsSavedOnDisk h2
      exact h3.symm
    · intro h
      apply modifyAt_eq_self
      intro x hx
      rw [hg] at hx
      cases hx
      rw [← h]

/-- Witness for C20: the wrap of the counterexample, and the wrap of the same line at its
start, after which `undo()` gives back the lines exactly. -/
theorem wrap_undo_restores_texts_witness :
    (∃ r u,
      runAll specOps [Call.editStart, Call.slotLineWrapped 0 2 2 true,
        Call.documentChanged (wrapDoc0.wrapLine 0 2 true true false true false), Call.editEnd]
        (KateUndoManager.new wrapDoc0) = some r ∧
      r.undo specOps = some u ∧
      u.m_document.texts = wrapDoc0.texts ∧
      u.m_document.textLines =
        [⟨['a', 'a', 'a', 'a'], false, true, false⟩, ⟨['b', 'b', 'b', 'b'], false, false, false⟩] ∧
      (u.m_document.textLines = wrapDoc0.textLines ↔ false = true)) ∧
    (∃ r u,
      runAll specOps [Call.editStart, Call.slotLineWrapped 0 0 4 true,
        Call.documentChanged (wrapDoc0.wrapLine 0 0 true true false false false), Call.editEnd]
        (KateUndoManager.new wrapDoc0) = some r ∧
      r.undo specOps = some u ∧
      u.m_document.texts = wrapDoc0.texts ∧
      u.m_document.textLines = wrapDoc0.textLines ∧
      (u.m_document.textLines = wrapDoc0.textLines ↔ false = false)) :=
  ⟨wrap_undo_restores_texts (KateUndoManager.new wrapDoc0) 0 2
      ⟨['a', 'a', 'a', 'a'], false, false, false⟩ true false true false rfl rfl rfl rfl
      (by decide),
   wrap_undo_restores_texts (KateUndoManager.new wrapDoc0) 0 0
      ⟨['a', 'a', 'a', 'a'], false, false, false⟩ true false false false rfl rfl rfl rfl
      (by decide)⟩

/-! ## Lemmas on the bit array of the sweeps -/

theorem getD_append_replicate (l : List Bool) (n k : Nat) :
    (l ++ List.replicate n false).getD k false = l.getD k false := by
  induction l generalizing k with
  | nil =>
    simp only [List.nil_append, List.getD_eq_getElem?_getD, List.getElem?_replicate,
      List.getElem?_nil, Option.getD_none]
    split <;> rfl
  | cons a l ih =>
    cases k with
    | zero => rfl
    | succ k => simpa using ih k

theorem getD_modifyAt_true (l : List Bool) (n k : Nat) :
    (modifyAt (fun _ => true) n l).getD k false =
      ((decide (k = n) && decide (n < l.length)) || l.getD k false) := by
  induction l generalizing n k with
  | nil => cases n <;> simp [modifyAt]
  | cons a l ih =>
    cases n with
    | zero =>
      cases k with
      | zero => simp [modifyAt]
      | succ k => simp [modifyAt]
    | succ n =>
      cases k with
      | zero => simp [modifyAt]
      | succ k =>
        simp only [modifyAt, List.getD_cons_succ, ih, List.length_cons, add_lt_add_iff_right,
          add_left_inj]

theorem testBit_setBit (b : QBitArray) (i j : Int) :
    testBit (setBit b i) j = ((decide (0 ≤ i) && decide (i = j)) || testBit b j) := by
  unfold testBit setBit
  by_cases hi : 0 ≤ i
  · by_cases hj : 0 ≤ j
    · simp only [hi, hj, if_true, decide_True, Bool.true_and, getD_modifyAt_true,
        getD_append_replicate, List.length_append, List.length_replicate]
      have h1 : decide (i.toNat < b.length + (i.toNat + 1 - b.length)) = true := by
        simp only [decide_eq_true_eq]
        omega
      rw [h1, Bool.and_true]
      congr 1
      simp only [decide_eq_decide]
      omega
    · have hne : ¬ i = j := by omega
      simp [hi, hj, hne]
  · simp [hi]

theorem testBit_replicate (n : Nat) (i : Int) : testBit (List.replicate n false) i = false := by
  unfold testBit
  split
  · simp only [List.getD_eq_getElem?_getD, List.getElem?_replicate]
    split <;> rfl
  · rfl

theorem testBit_map_false (b : QBitArray) (i : Int) :
    testBit (b.map (fun _ => false)) i = false := by
  unfold testBit
  split
  · simp only [List.getD_eq_getElem?_getD, List.getElem?_map]
    cases b[i.toNat]? <;> rfl
  · rfl

/-! ## Lemmas on the sweeps of `updateLineModifications()` -/

theorem specMarkRedoItem_item (y : UndoItem) (b : QBitArray) :
    (specMarkRedoItem y b).1 = y.resolveRedo (testBit b y.line) (testBit b (y.line + 1)) := by
  have hne : ¬ y.line = y.line + 1 := by omega
  unfold specMarkRedoItem UndoItem.resolveRedo
  simp only
  cases h1 : y.lineModFlags.RedoLine1Modified <;> cases h2 : y.lineModFlags.RedoLine2Modified <;>
    cases h3 : testBit b y.line <;> cases h4 : testBit b (y.line + 1) <;>
    simp [testBit_setBit, h3, h4, hne]

theorem specMarkRedoItem_bits (y : UndoItem) (b : QBitArray) (L : Int) (hL : 0 ≤ L) :
    testBit (specMarkRedoItem y b).2 L = (testBit b L || y.redoModifiedOn L) := by
  have hne : ¬ y.line = y.line + 1 := by omega
  unfold specMarkRedoItem UndoItem.redoModifiedOn
  simp only
  by_cases e1 : y.line = L
  · have e2 : ¬ y.line + 1 = L := by omega
    subst e1
    cases h1 : y.lineModFlags.RedoLine1Modified <;>
      cases h2 : y.lineModFlags.RedoLine2Modified <;>
      cases h3 : testBit b y.line <;> cases h4 : testBit b (y.line + 1) <;>
      simp [testBit_setBit, h3, h4, hne, hL]
  · by_cases e2 : y.line + 1 = L
    · have hL1 : 0 ≤ y.line + 1 := by omega
      cases h1 : y.lineModFlags.RedoLine1Modified <;>
        cases h2 : y.lineModFlags.RedoLine2Modified <;>
        cases h3 : testBit b y.line <;> cases h4 : testBit b (y.line + 1) <;>
        cases h5 : testBit b L <;>
        simp [testBit_setBit, h3, h4, h5, hne, e1, e2, hL1] <;> simp_all
    · cases h1 : y.lineModFlags.RedoLine1Modified <;>
        cases h2 : y.lineModFlags.RedoLine2Modified <;>
        cases h3 : testBit b y.line <;> cases h4 : testBit b (y.line + 1) <;>
        simp [testBit_setBit, h3, h4, hne, e1, e2]

theorem sweepItems_redo_bits (ys : List UndoItem) (b : QBitArray) (L : Int) (hL : 0 ≤ L) :
    testBit (sweepItems specMarkRedoItem ys b).2 L =
      (testBit b L || ys.any (fun z => z.redoModifiedOn L)) := by
  induction ys with
  | nil => simp [sweepItems]
  | cons y rest ih =>
    simp only [sweepItems, specMarkRedoItem_bits _ _ L hL, ih, List.any_cons]
    cases testBit b L <;> cases y.redoModifiedOn L <;> simp

theorem sweepItems_redo_get (ys : List UndoItem) (b : QBitArray) (k : Nat) (y : UndoItem)
    (hy : ys.get? k = some y) (h0 : 0 ≤ y.line) :
    (sweepItems specMarkRedoItem ys b).1.get? k =
      some (y.resolveRedo
        (testBit b y.line || (ys.drop (k + 1)).any (fun z => z.redoModifiedOn y.line))
        (testBit b (y.line + 1)
          || (ys.drop (k + 1)).any (fun z => z.redoModifiedOn (y.line + 1)))) := by
  induction ys generalizing k with
  | nil => simp at hy
  | cons z rest ih =>
    cases k with
    | zero =>
      simp only [List.get?_cons_zero, Option.some.injEq] at hy
      subst hy
      simp only [sweepItems, List.get?_cons_zero, specMarkRedoItem_item, zero_add,
        List.drop_succ_cons, List.drop_zero,
        sweepItems_redo_bits rest b z.line h0,
        sweepItems_redo_bits rest b (z.line + 1) (by omega)]
    | succ k =>
      simp only [List.get?_cons_succ] at hy
      simp only [sweepItems, List.get?_cons_succ, List.drop_succ_cons]
      exact ih k hy

theorem sweepItems_length (f : UndoItem → QBitArray → UndoItem × QBitArray)
    (ys : List UndoItem) (b : QBitArray) : (sweepItems f ys b).1.length = ys.length := by
  induction ys with
  | nil => rfl
  | cons y rest ih => simp [sweepItems, ih]

theorem sweepBackward_redo_bits (gs : List KateUndoGroup) (b : QBitArray) (L : Int)
    (hL : 0 ≤ L) :
    testBit (sweepBackward specOps.markRedoAsSaved gs b).2 L =
      (testBit b L || gs.any (fun g => g.items.any (fun z => z.redoModifiedOn L))) := by
  induction gs with
  | nil => simp [sweepBackward]
  | cons g rest ih =>
    simp only [sweepBackward, specOps, List.any_cons]
    rw [sweepItems_redo_bits _ _ L hL]
    have ih2 : testBit (sweepBackward specOps.markRedoAsSaved rest b).2 L = _ := ih
    simp only [specOps] at ih2
    rw [ih2]
    cases testBit b L <;> cases g.items.any (fun z => z.redoModifiedOn L) <;> simp

theorem sweepBackward_redo_get (gs : List KateUndoGroup) (b : QBitArray) (i k : Nat)
    (g : KateUndoGroup) (y : UndoItem)
    (hg : gs.get? i = some g) (hy : g.items.get? k = some y) (h0 : 0 ≤ y.line) :
    ∃ g2, (sweepBackward specOps.markRedoAsSaved gs b).1.get? i = some g2 ∧
      { g2 with items := g.items } = g ∧ g2.items.length = g.items.length ∧
      g2.items.get? k =
        some (y.resolveRedo
          (testBit b y.line || (g.items.drop (k + 1)).any (fun z => z.redoModifiedOn y.line)
            || (gs.drop (i + 1)).any
                (fun g3 => g3.items.any (fun z => z.redoModifiedOn y.line)))
          (testBit b (y.line + 1)
            || (g.items.drop (k + 1)).any (fun z => z.redoModifiedOn (y.line + 1))
            || (gs.drop (i + 1)).any
                (fun g3 => g3.items.any (fun z => z.redoModifiedOn (y.line + 1))))) := by
  induction gs generalizing i with
  | nil => simp at hg
  | cons g0 rest ih =>
    cases i with
    | zero =>
      simp only [List.get?_cons_zero, Option.some.injEq] at hg
      subst hg
      refine ⟨_, rfl, rfl, ?_, ?_⟩
      · simp only [sweepBackward, specOps]
        exact sweepItems_length _ _ _
      · have h1 := sweepBackward_redo_bits rest b y.line h0
        have h2 := sweepBackward_redo_bits rest b (y.line + 1) (by omega)
        simp only [specOps] at h1 h2
        simp only [sweepBackward, specOps, zero_add, List.drop_succ_cons, List.drop_zero]
        rw [sweepItems_redo_get _ _ k y hy h0, h1, h2]
        congr 2
        · cases testBit b y.line <;>
            cases (g0.items.drop (k + 1)).any (fun z => z.redoModifiedOn y.line) <;> simp
        · cases testBit b (y.line + 1) <;>
            cases (g0.items.drop (k + 1)).any (fun z => z.redoModifiedOn (y.line + 1)) <;>
            simp
    | succ i =>
      simp only [List.get?_cons_succ] at hg
      obtain ⟨g2, h1, h2, h3, h4⟩ := ih i hg
      exact ⟨g2, by simpa [sweepBackward] using h1, h2, h3, by simpa using h4⟩

theorem sweepBackward_length (f : KateUndoGroup → QBitArray → KateUndoGroup × QBitArray)
    (gs : List KateUndoGroup) (b : QBitArray) : (sweepBackward f gs b).1.length = gs.length := by
  induction gs with
  | nil => rfl
  | cons g rest ih => simp [sweepBackward, ih]

theorem specMarkUndoItem_item (y : UndoItem) (b : QBitArray) :
    (specMarkUndoItem y b).1 = y.resolveUndo (testBit b y.line) (testBit b (y.line + 1)) := by
  have hne : ¬ y.line = y.line + 1 := by omega
  unfold specMarkUndoItem UndoItem.resolveUndo
  simp only
  cases h1 : y.lineModFlags.UndoLine1Modified <;> cases h2 : y.lineModFlags.UndoLine2Modified <;>
    cases h3 : testBit b y.line <;> cases h4 : testBit b (y.line + 1) <;>
    simp [testBit_setBit, h3, h4, hne]

theorem specMarkUndoItem_bits (y : UndoItem) (b : QBitArray) (L : Int) (hL : 0 ≤ L) :
    testBit (specMarkUndoItem y b).2 L = (testBit b L || y.undoModifiedOn L) := by
  have hne : ¬ y.line = y.line + 1 := by omega
  unfold specMarkUndoItem UndoItem.undoModifiedOn
  simp only
  by_cases e1 : y.line = L
  · have e2 : ¬ y.line + 1 = L := by omega
    subst e1
    cases h1 : y.lineModFlags.UndoLine1Modified <;>
      cases h2 : y.lineModFlags.UndoLine2Modified <;>
      cases h3 : testBit b y.line <;> cases h4 : testBit b (y.line + 1) <;>
      simp [testBit_setBit, h3, h4, hne, hL]
  · by_cases e2 : y.line + 1 = L
    · have hL1 : 0 ≤ y.line + 1 := by omega
      cases h1 : y.lineModFlags.UndoLine1Modified <;>
        cases h2 : y.lineModFlags.UndoLine2Modified <;>
        cases h3 : testBit b y.line <;> cases h4 : testBit b (y.line + 1) <;>
        cases h5 : testBit b L <;>
        simp [testBit_setBit, h3, h4, h5, hne, e1, e2, hL1] <;> simp_all
    · cases h1 : y.lineModFlags.UndoLine1Modified <;>
        cases h2 : y.lineModFlags.UndoLine2Modified <;>
        cases h3 : testBit b y.line <;> cases h4 : testBit b (y.line + 1) <;>
        simp [testBit_setBit, h3, h4, hne, e1, e2]

theorem sweepItems_undo_bits (ys : List UndoItem) (b : QBitArray) (L : Int) (hL : 0 ≤ L) :
    testBit (sweepItems specMarkUndoItem ys b).2 L =
      (testBit b L || ys.any (fun z => z.undoModifiedOn L)) := by
  induction ys with
  | nil => simp [sweepItems]
  | cons y rest ih =>
    simp only [sweepItems, specMarkUndoItem_bits _ _ L hL, ih, List.any_cons]
    cases testBit b L <;> cases y.undoModifiedOn L <;> simp

theorem sweepItems_undo_get (ys : List UndoItem) (b : QBitArray) (k : Nat) (y : UndoItem)
    (hy : ys.get? k = some y) (h0 : 0 ≤ y.line) :
    (sweepItems specMarkUndoItem ys b).1.get? k =
      some (y.resolveUndo
        (testBit b y.line || (ys.drop (k + 1)).any (fun z => z.undoModifiedOn y.line))
        (testBit b (y.line + 1)
          || (ys.drop (k + 1)).any (fun z => z.undoModifiedOn (y.line + 1)))) := by
  induction ys generalizing k with
  | nil => simp at hy
  | cons z rest ih =>
    cases k with
    | zero =>
      simp only [List.get?_cons_zero, Option.some.injEq] at hy
      subst hy
      simp only [sweepItems, List.get?_cons_zero, specMarkUndoItem_item, zero_add,
        List.drop_succ_cons, List.drop_zero,
        sweepItems_undo_bits rest b z.line h0,
        sweepItems_undo_bits rest b (z.line + 1) (by omega)]
    | succ k =>
      simp only [List.get?_cons_succ] at hy
      simp only [sweepItems, List.get?_cons_succ, List.drop_succ_cons]
      exact ih k hy

theorem sweepBackward_undo_bits (gs : List KateUndoGroup) (b : QBitArray) (L : Int)
    (hL : 0 ≤ L) :
    testBit (sweepBackward specOps.markUndoAsSaved gs b).2 L =
      (testBit b L || gs.any (fun g => g.items.any (fun z => z.undoModifiedOn L))) := by
  induction gs with
  | nil => simp [sweepBackward]
  | cons g rest ih =>
    simp only [sweepBackward, specOps, List.any_cons]
    rw [sweepItems_undo_bits _ _ L hL]
    have ih2 : testBit (sweepBackward specOps.markUndoAsSaved rest b).2 L = _ := ih
    simp only [specOps] at ih2
    rw [ih2]
    cases testBit b L <;> cases g.items.any (fun z => z.undoModifiedOn L) <;> simp

theorem sweepBackward_undo_get (gs : List KateUndoGroup) (b : QBitArray) (i k : Nat)
    (g : KateUndoGroup) (y : UndoItem)
    (hg : gs.get? i = some g) (hy : g.items.get? k = some y) (h0 : 0 ≤ y.line) :
    ∃ g2, (sweepBackward specOps.markUndoAsSaved gs b).1.get? i = some g2 ∧
      { g2 with items := g.items } = g ∧ g2.items.length = g.items.length ∧
      g2.items.get? k =
        some (y.resolveUndo
          (testBit b y.line || (g.items.drop (k + 1)).any (fun z => z.undoModifiedOn y.line)
            || (gs.drop (i + 1)).any
                (fun g3 => g3.items.any (fun z => z.undoModifiedOn y.line)))
          (testBit b (y.line + 1)
            || (g.items.drop (k + 1)).any (fun z => z.undoModifiedOn (y.line + 1))
            || (gs.drop (i + 1)).any
                (fun g3 => g3.items.any (fun z => z.undoModifiedOn (y.line + 1))))) := by
  induction gs generalizing i with
  | nil => simp at hg
  | cons g0 rest ih =>
    cases i with
    | zero =>
      simp only [List.get?_cons_zero, Option.some.injEq] at hg
      subst hg
      refine ⟨_, rfl, rfl, ?_, ?_⟩
      · simp only [sweepBackward, specOps]
        exact sweepItems_length _ _ _
      · have h1 := sweepBackward_undo_bits rest b y.line h0
        have h2 := sweepBackward_undo_bits rest b (y.line + 1) (by omega)
        simp only [specOps] at h1 h2
        simp only [sweepBackward, specOps, zero_add, List.drop_succ_cons, List.drop_zero]
        rw [sweepItems_undo_get _ _ k y hy h0, h1, h2]
        congr 2
        · cases testBit b y.line <;>
            cases (g0.items.drop (k + 1)).any (fun z => z.undoModifiedOn y.line) <;> simp
        · cases testBit b (y.line + 1) <;>
            cases (g0.items.drop (k + 1)).any (fun z => z.undoModifiedOn (y.line + 1)) <;>
            simp
    | succ i =>
      simp only [List.get?_cons_succ] at hg
      obtain ⟨g2, h1, h2, h3, h4⟩ := ih i hg
      exact ⟨g2, by simpa [sweepBackward] using h1, h2, h3, by simpa using h4⟩

/-! ## Lemmas on a save after one recorded edit -/

theorem updateLineModifications_single (m : KateUndoManager) (g : KateUndoGroup) (x : UndoItem)
    (hu : m.undoItems = [g]) (hr : m.redoItems = []) (hg : g.items = [x]) :
    m.updateLineModifications specOps =
      { m with undoItems := [{ g with items := [x.savedOnTop] }], redoItems := [] } := by
  unfold updateLineModifications
  simp only [hu, hr, List.map_cons, List.map_nil, sweepBackward, specOps, hg, sweepItems,
    specMarkRedoItem_item, testBit_replicate]
  congr 1
  simp only [List.cons.injEq, and_true]
  congr 1
  simp [UndoItem.resolveRedo, UndoItem.savedOnTop, specFlagItemSavedAsModified]

/-- A state with no open group, one group of one item on the undo stack and an empty redo stack:
`undo()` replays the item backwards on the lines of the document and the `redo()` that follows
replays it forwards. -/
theorem undo_redo_single (s : KateUndoManager) (g : KateUndoGroup) (x : UndoItem)
    (hopen : s.m_editCurrentUndo = none) (hu : s.undoItems = [g]) (hr : s.redoItems = [])
    (hg : g.items = [x]) :
    ∃ u v, s.undo specOps = some u ∧
      u.m_document.textLines = (specUndoItem x s.m_document).textLines ∧
      u.redo specOps = some v ∧
      v.m_document.textLines =
        (specRedoItem x (specUndoItem x s.m_document)).textLines := by
  have hundo := undo_of_concat specOps s [] g hopen (by simpa using hu)
  let u0 : KateUndoManager :=
    { s with m_document := specOps.undo g s.m_document
             redoItems := s.redoItems ++ [g]
             undoItems := []
             emitted := s.emitted ++ [Signal.undoStart] }
  let u : KateUndoManager := emit (updateModified u0) Signal.undoEnd
  have huo : u.m_editCurrentUndo = none := by
    simp only [u, emit_editCurrentUndo]
    exact updateModified_editCurrentUndo_of_closed _ hopen
  have hur : u.redoItems = [] ++ [g] := by
    simp only [u, emit_redoItems, updateModified_redoItems]
    simp [u0, hr]
  have hut : u.m_document.textLines = (specUndoItem x s.m_document).textLines := by
    simp only [u, emit_document, updateModified_textLines]
    show (specUndoGroup g s.m_document).textLines = _
    simp only [specUndoGroup, Document.textLines_restoreView, hg, List.reverse_singleton,
      List.foldl_cons, List.foldl_nil]
  have hredo := redo_of_concat specOps u [] g huo hur
  refine ⟨u, _, hundo, hut, hredo, ?_⟩
  simp only [emit_document, updateModified_textLines]
  show (specRedoGroup g u.m_document).textLines = _
  simp only [specRedoGroup, Document.textLines_restoreView, hg, List.foldl_cons,
    List.foldl_nil]
  exact specRedoItem_congr _ _ _ hut

/-- A bracket with one notification that hands `item` to the open group, started with an empty
undo stack, followed by the simulated save: the undo stack holds one group with the item
`item.savedOnTop`, the redo stack is empty and no group is open. -/
theorem bracket_save (m0 : KateUndoManager) (c : Call) (after : Document) (item : UndoItem)
    (hact : m0.m_isActive = true) (hopen : m0.m_editCurrentUndo = none)
    (hu : m0.undoItems = [])
    (hslot : ∀ st g, st.m_document = m0.m_document → st.m_editCurrentUndo = some g →
      run specOps c st =
        some { st with m_editCurrentUndo := some (specOps.addItem g item), redoItems := [] }) :
    ∃ sv g,
      runAll specOps ([Call.editStart, c, Call.documentChanged after, Call.editEnd]
        ++ saveCalls after) m0 = some sv ∧
      sv.m_document = { after.markModifiedLinesAsSaved with modified := false } ∧
      sv.m_editCurrentUndo = none ∧ sv.undoItems = [g] ∧ g.items = [item.savedOnTop] ∧
      sv.redoItems = [] := by
  obtain ⟨r, _, _, g, hrun, hrd, hrc, hru, hgi, hrr, _⟩ :=
    bracket_undo_redo m0 c after item hact hopen hu hslot
  let s1 : KateUndoManager :=
    { r.setModified false with
      m_document := { after.markModifiedLinesAsSaved with modified := false } }
  have hs1u : s1.undoItems = [g] := by
    show (r.setModified false).undoItems = [g]
    rw [setModified_undoItems, hru]
  have hs1r : s1.redoItems = [] := by
    show (r.setModified false).redoItems = []
    rw [setModified_redoItems, hrr]
  have hs1c : s1.m_editCurrentUndo = none := by
    show (r.setModified false).m_editCurrentUndo = none
    rw [setModified_editCurrentUndo, hrc]
  refine ⟨s1.updateLineModifications specOps, { g with items := [item.savedOnTop] }, ?_, ?_, ?_,
    ?_, rfl, ?_⟩
  · rw [runAll_append, hrun]
    rfl
  · rfl
  · exact hs1c
  · rw [updateLineModifications_single s1 g item hs1u hs1r hgi]
  · rw [updateLineModifications_single s1 g item hs1u hs1r hgi]

theorem plainKateTextLine_markSaved (d : Document) (line : Int) (tl : TextLine) (b : Bool)
    (h : d.plainKateTextLine line = some tl) :
    ({ d.markModifiedLinesAsSaved with modified := b } : Document).plainKateTextLine line =
      some (if tl.markedAsModified then
        { tl with markedAsModified := false, markedAsSavedOnDisk := true } else tl) := by
  obtain ⟨hl, hg⟩ := plainKateTextLine_get d line tl h
  rw [List.get?_eq_getElem?] at hg
  simp [Document.plainKateTextLine, Document.markModifiedLinesAsSaved, hl, hg]

theorem insertText_line (d : Document) (line col : Int) (s : QString) (tl : TextLine)
    (hline : d.plainKateTextLine line = some tl) (hc : 0 ≤ col) :
    (d.insertText line col s).plainKateTextLine line =
      some { tl with
        text := tl.text.take col.toNat ++ s ++ tl.text.drop col.toNat
        markedAsModified := true, markedAsSavedOnDisk := false } := by
  obtain ⟨hl, _⟩ := plainKateTextLine_get d line tl hline
  exact plainKateTextLine_modifyAt d _ line tl
    (fun l => { l with
      text := l.text.take col.toNat ++ s ++ l.text.drop col.toNat
      markedAsModified := true, markedAsSavedOnDisk := false })
    hline (by simp only [Document.insertText, Document.setLineMarks, Document.editInsertText,
      hl, hc, and_self, if_true, modifyAt_modifyAt])

theorem removeText_line (d : Document) (line col : Int) (n : Nat) (tl : TextLine)
    (hline : d.plainKateTextLine line = some tl) (hc : 0 ≤ col) :
    (d.removeText line col n).plainKateTextLine line =
      some { tl with
        text := tl.text.take col.toNat ++ tl.text.drop (col.toNat + n)
        markedAsModified := true, markedAsSavedOnDisk := false } := by
  obtain ⟨hl, _⟩ := plainKateTextLine_get d line tl hline
  exact plainKateTextLine_modifyAt d _ line tl
    (fun l => { l with
      text := l.text.take col.toNat ++ l.text.drop (col.toNat + n)
      markedAsModified := true, markedAsSavedOnDisk := false })
    hline (by simp only [Document.removeText, Document.setLineMarks, Document.editRemoveText,
      hl, hc, Int.ofNat_nonneg, and_self, if_true, modifyAt_modifyAt, Int.toNat_ofNat])

/-- A text insertion recorded in a bracket of its own, then the simulated save, `undo()` and
`redo()`. -/
theorem saved_insertText_round (m0 : KateUndoManager) (line col : Int) (s : QString)
    (tl : TextLine)
    (hact : m0.m_isActive = true) (hopen : m0.m_editCurrentUndo = none)
    (hu : m0.undoItems = []) (hline : m0.m_document.plainKateTextLine line = some tl)
    (hs : s ≠ []) (hc : 0 ≤ col) (hle : col ≤ tl.length) :
    ∃ sv u v,
      runAll specOps
        ([Call.editStart, Call.slotTextInserted line col s,
            Call.documentChanged (m0.m_document.insertText line col s), Call.editEnd]
          ++ saveCalls (m0.m_document.insertText line col s)) m0 = some sv ∧
      sv.m_document.plainKateTextLine line =
        some { tl with
          text := tl.text.take col.toNat ++ s ++ tl.text.drop col.toNat
          markedAsModified := false, markedAsSavedOnDisk := true } ∧
      sv.undo specOps = some u ∧
      u.m_document.textLines =
        modifyAt (fun l => { l with
            text := tl.text, markedAsModified := true, markedAsSavedOnDisk := false })
          line.toNat sv.m_document.textLines ∧
      u.redo specOps = some v ∧
      v.m_document.textLines = sv.m_document.textLines := by
  obtain ⟨hl, _⟩ := plainKateTextLine_get _ line tl hline
  have hk : col.toNat ≤ tl.text.length := by
    unfold TextLine.length at hle
    omega
  obtain ⟨sv, g, hrun, hsd, hsc, hsu, hgi, hsr⟩ :=
    bracket_save m0 (Call.slotTextInserted line col s) (m0.m_document.insertText line col s)
      (textItem UndoType.editInsertText line col s tl.markedAsModified) hact hopen hu
      (fun st g hd hg => slotTextInserted_item specOps st g line col s tl hg hs (hd ▸ hline))
  obtain ⟨u, v, hundo, hut, hredo, hvt⟩ := undo_redo_single sv g _ hsc hsu hsr hgi
  have hsl : sv.m_document.plainKateTextLine line =
      some { tl with
        text := tl.text.take col.toNat ++ s ++ tl.text.drop col.toNat
        markedAsModified := false, markedAsSavedOnDisk := true } := by
    rw [hsd, plainKateTextLine_markSaved _ line _ false (insertText_line _ line col s tl hline hc)]
    rfl
  obtain ⟨_, hsg⟩ := plainKateTextLine_get _ line _ hsl
  have hU : (specUndoItem
      (textItem UndoType.editInsertText line col s tl.markedAsModified).savedOnTop
      sv.m_document).textLines =
      modifyAt (fun l => { l with
          text := tl.text, markedAsModified := true, markedAsSavedOnDisk := false })
        line.toNat sv.m_document.textLines := by
    simp only [specUndoItem, UndoItem.savedOnTop, textItem, Document.setLineMarks,
      Document.editRemoveText, hl, hc, Int.ofNat_nonneg, and_self, if_true,
      ModificationFlags.none, modifyAt_modifyAt]
    apply modifyAt_congr
    intro e he
    rw [hsg] at he
    cases he
    have h := remove_insert_text tl.text s col.toNat hk
    simp only [TextLine.mk.injEq, and_true, Bool.or_not_self, Bool.or_false, true_and]
    simpa using h
  refine ⟨sv, u, v, hrun, hsl, hundo, hut.trans hU, hredo, ?_⟩
  let lines2 : List TextLine :=
    modifyAt (fun l => { l with
        text := tl.text, markedAsModified := true, markedAsSavedOnDisk := false })
      line.toNat sv.m_document.textLines
  let doc2 : Document := { sv.m_document with textLines := lines2 }
  rw [hvt, specRedoItem_congr _ _ doc2 hU]
  simp only [doc2, lines2]
  simp only [specRedoItem, UndoItem.savedOnTop, textItem, Document.setLineMarks,
    Document.editInsertText, hl, hc, and_self, if_true, ModificationFlags.none,
    modifyAt_modifyAt]
  apply modifyAt_eq_self
  intro e he
  rw [hsg] at he
  cases he
  simp

/-- A text removal recorded in a bracket of its own, then the simulated save, `undo()` and
`redo()`. -/
theorem saved_removeText_round (m0 : KateUndoManager) (line col : Int) (s : QString)
    (tl : TextLine)
    (hact : m0.m_isActive = true) (hopen : m0.m_editCurrentUndo = none)
    (hu : m0.undoItems = []) (hline : m0.m_document.plainKateTextLine line = some tl)
    (hs : s ≠ []) (hc : 0 ≤ col) (hle : col ≤ tl.length)
    (hrem : (tl.text.drop col.toNat).take s.length = s) :
    ∃ sv u v,
      runAll specOps
        ([Call.editStart, Call.slotTextRemoved line col s,
            Call.documentChanged (m0.m_document.removeText line col s.length), Call.editEnd]
          ++ saveCalls (m0.m_document.removeText line col s.length)) m0 = some sv ∧
      sv.m_document.plainKateTextLine line =
        some { tl with
          text := tl.text.take col.toNat ++ tl.text.drop (col.toNat + s.length)
          markedAsModified := false, markedAsSavedOnDisk := true } ∧
      sv.undo specOps = some u ∧
      u.m_document.textLines =
        modifyAt (fun l => { l with
            text := tl.text, markedAsModified := true, markedAsSavedOnDisk := false })
          line.toNat sv.m_document.textLines ∧
      u.redo specOps = some v ∧
      v.m_document.textLines = sv.m_document.textLines := by
  obtain ⟨hl, _⟩ := plainKateTextLine_get _ line tl hline
  have hk : col.toNat ≤ tl.text.length := by
    unfold TextLine.length at hle
    omega
  obtain ⟨sv, g, hrun, hsd, hsc, hsu, hgi, hsr⟩ :=
    bracket_save m0 (Call.slotTextRemoved line col s)
      (m0.m_document.removeText line col s.length)
      (textItem UndoType.editRemoveText line col s tl.markedAsModified) hact hopen hu
      (fun st g hd hg => slotTextRemoved_item specOps st g line col s tl hg hs (hd ▸ hline))
  obtain ⟨u, v, hundo, hut, hredo, hvt⟩ := undo_redo_single sv g _ hsc hsu hsr hgi
  have hsl : sv.m_document.plainKateTextLine line =
      some { tl with
        text := tl.text.take col.toNat ++ tl.text.drop (col.toNat + s.length)
        markedAsModified := false, markedAsSavedOnDisk := true } := by
    rw [hsd, plainKateTextLine_markSaved _ line _ false
      (removeText_line _ line col s.length tl hline hc)]
    rfl
  obtain ⟨_, hsg⟩ := plainKateTextLine_get _ line _ hsl
  have hU : (specUndoItem
      (textItem UndoType.editRemoveText line col s tl.markedAsModified).savedOnTop
      sv.m_document).textLines =
      modifyAt (fun l => { l with
          text := tl.text, markedAsModified := true, markedAsSavedOnDisk := false })
        line.toNat sv.m_document.textLines := by
    simp only [specUndoItem, UndoItem.savedOnTop, textItem, Document.setLineMarks,
      Document.editInsertText, hl, hc, and_self, if_true, ModificationFlags.none,
      modifyAt_modifyAt]
    apply modifyAt_congr
    intro e he
    rw [hsg] at he
    cases he
    have h := insert_remove_text tl.text s col.toNat s.length hk hrem
    simp only [TextLine.mk.injEq, and_true, Bool.or_not_self, Bool.or_false, true_and]
    simpa using h
  refine ⟨sv, u, v, hrun, hsl, hundo, hut.trans hU, hredo, ?_⟩
  let lines2 : List TextLine :=
    modifyAt (fun l => { l with
        text := tl.text, markedAsModified := true, markedAsSavedOnDisk := false })
      line.toNat sv.m_document.textLines
  let doc2 : Document := { sv.m_document with textLines := lines2 }
  rw [hvt, specRedoItem_congr _ _ doc2 hU]
  simp only [doc2, lines2]
  simp only [specRedoItem, UndoItem.savedOnTop, textItem, Document.setLineMarks,
    Document.editRemoveText, hl, hc, Int.ofNat_nonneg, and_self, if_true,
    ModificationFlags.none, modifyAt_modifyAt]
  apply modifyAt_eq_self
  intro e he
  rw [hsg] at he
  cases he
  simp

theorem flag_redoModifiedOn (z : UndoItem) (L : Int) :
    (specFlagItemSavedAsModified z).redoModifiedOn L = z.touchesRedo L := by
  simp [specFlagItemSavedAsModified, UndoItem.redoModifiedOn, UndoItem.touchesRedo]

theorem flag_undoModifiedOn (z : UndoItem) (L : Int) :
    (specFlagItemSavedAsModified z).undoModifiedOn L = z.touchesUndo L := by
  simp [specFlagItemSavedAsModified, UndoItem.undoModifiedOn, UndoItem.touchesUndo]

theorem any_flagged_redo (ys : List UndoItem) (L : Int) :
    (ys.map specFlagItemSavedAsModified).any (fun z => z.redoModifiedOn L) =
      ys.any (fun z => z.touchesRedo L) := by
  induction ys with
  | nil => rfl
  | cons y rest ih => simp only [List.map_cons, List.any_cons, ih, flag_redoModifiedOn]

theorem any_flagged_undo (ys : List UndoItem) (L : Int) :
    (ys.map specFlagItemSavedAsModified).any (fun z => z.undoModifiedOn L) =
      ys.any (fun z => z.touchesUndo L) := by
  induction ys with
  | nil => rfl
  | cons y rest ih => simp only [List.map_cons, List.any_cons, ih, flag_undoModifiedOn]

theorem any_flagged_groups_redo (gs : List KateUndoGroup) (L : Int) :
    (gs.map specOps.flagSavedAsModified).any
        (fun g => g.items.any (fun z => z.redoModifiedOn L)) =
      gs.any (fun g => g.items.any (fun z => z.touchesRedo L)) := by
  induction gs with
  | nil => rfl
  | cons g rest ih =>
    simp only [List.map_cons, List.any_cons, ih]
    simp only [specOps, any_flagged_redo]

theorem any_flagged_groups_undo (gs : List KateUndoGroup) (L : Int) :
    (gs.map specOps.flagSavedAsModified).any
        (fun g => g.items.any (fun z => z.undoModifiedOn L)) =
      gs.any (fun g => g.items.any (fun z => z.touchesUndo L)) := by
  induction gs with
  | nil => rfl
  | cons g rest ih =>
    simp only [List.map_cons, List.any_cons, ih]
    simp only [specOps, any_flagged_undo]

/-- The flags of an item of the undo stack after `updateLineModifications()`. -/
theorem updateLineModifications_undo_item (m : KateUndoManager) (i k : Nat)
    (g : KateUndoGroup) (x : UndoItem)
    (hg : m.undoItems.get? i = some g) (hx : g.items.get? k = some x) (h0 : 0 ≤ x.line) :
    ∃ g2, (m.updateLineModifications specOps).undoItems.get? i = some g2 ∧
      { g2 with items := g.items } = g ∧ g2.items.length = g.items.length ∧
      g2.items.get? k =
        some ((specFlagItemSavedAsModified x).resolveRedo
          ((g.items.drop (k + 1)).any (fun z => z.touchesRedo x.line)
            || (m.undoItems.drop (i + 1)).any
                (fun g3 => g3.items.any (fun z => z.touchesRedo x.line)))
          ((g.items.drop (k + 1)).any (fun z => z.touchesRedo (x.line + 1))
            || (m.undoItems.drop (i + 1)).any
                (fun g3 => g3.items.any (fun z => z.touchesRedo (x.line + 1))))) := by
  have hg2 : (m.undoItems.map specOps.flagSavedAsModified).get? i =
      some (specOps.flagSavedAsModified g) := by
    rw [List.get?_eq_getElem?] at hg ⊢
    simp [hg]
  have hx2 : (specOps.flagSavedAsModified g).items.get? k =
      some (specFlagItemSavedAsModified x) := by
    rw [List.get?_eq_getElem?] at hx ⊢
    simp [specOps, hx]
  obtain ⟨g2, h1, h2, h3, h4⟩ := sweepBackward_redo_get
    (m.undoItems.map specOps.flagSavedAsModified) (List.replicate m.m_document.lines false)
    i k _ _ hg2 hx2 h0
  refine ⟨g2, h1, ?_, ?_, ?_⟩
  · exact congrArg (fun a : KateUndoGroup => { a with items := g.items }) h2
  · rw [h3]
    simp [specOps]
  · rw [h4]
    have e1 : (specFlagItemSavedAsModified x).line = x.line := rfl
    have e2 : (specOps.flagSavedAsModified g).items = g.items.map specFlagItemSavedAsModified :=
      rfl
    simp only [e1, e2, testBit_replicate, Bool.false_or, ← List.map_drop, any_flagged_redo,
      any_flagged_groups_redo]

/-- The flags of an item of the redo stack after `updateLineModifications()`. -/
theorem updateLineModifications_redo_item (m : KateUndoManager) (i k : Nat)
    (g : KateUndoGroup) (x : UndoItem)
    (hg : m.redoItems.get? i = some g) (hx : g.items.get? k = some x) (h0 : 0 ≤ x.line) :
    ∃ g2, (m.updateLineModifications specOps).redoItems.get? i = some g2 ∧
      { g2 with items := g.items } = g ∧ g2.items.length = g.items.length ∧
      g2.items.get? k =
        some ((specFlagItemSavedAsModified x).resolveUndo
          ((g.items.drop (k + 1)).any (fun z => z.touchesUndo x.line)
            || (m.redoItems.drop (i + 1)).any
                (fun g3 => g3.items.any (fun z => z.touchesUndo x.line)))
          ((g.items.drop (k + 1)).any (fun z => z.touchesUndo (x.line + 1))
            || (m.redoItems.drop (i + 1)).any
                (fun g3 => g3.items.any (fun z => z.touchesUndo (x.line + 1))))) := by
  have hg2 : (m.redoItems.map specOps.flagSavedAsModified).get? i =
      some (specOps.flagSavedAsModified g) := by
    rw [List.get?_eq_getElem?] at hg ⊢
    simp [hg]
  have hx2 : (specOps.flagSavedAsModified g).items.get? k =
      some (specFlagItemSavedAsModified x) := by
    rw [List.get?_eq_getElem?] at hx ⊢
    simp [specOps, hx]
  obtain ⟨g2, h1, h2, h3, h4⟩ := sweepBackward_undo_get
    (m.redoItems.map specOps.flagSavedAsModified)
    ((sweepBackward specOps.markRedoAsSaved (m.undoItems.map specOps.flagSavedAsModified)
      (List.replicate m.m_document.lines false)).2.map (fun _ => false))
    i k _ _ hg2 hx2 h0
  refine ⟨g2, h1, ?_, ?_, ?_⟩
  · exact congrArg (fun a : KateUndoGroup => { a with items := g.items }) h2
  · rw [h3]
    simp [specOps]
  · rw [h4]
    have e1 : (specFlagItemSavedAsModified x).line = x.line := rfl
    have e2 : (specOps.flagSavedAsModified g).items = g.items.map specFlagItemSavedAsModified :=
      rfl
    simp only [e1, e2, testBit_map_false, Bool.false_or, ← List.map_drop, any_flagged_undo,
      any_flagged_groups_undo]

/-! ## C21: the marks of a line after a save -/

/-- C21 (counterexample): 'x' is inserted at column 1 of the unflagged line "ab" in a bracket of
its own and the document is saved (`setModified(false)`, modified lines marked saved,
`updateLineModifications()`): line 0 is modified=false, savedOnDisk=true.  `undo()` then leaves
line 0 modified=true, savedOnDisk=false, and `redo()` leaves it modified=false,
savedOnDisk=true, as the second half of `testInsertText` expects. -/
theorem save_then_undo_marks_line_modified :
    (runAll specOps
      ([Call.editStart, Call.slotTextInserted 0 1 ['x'],
          Call.documentChanged (exampleDoc.insertText 0 1 ['x']), Call.editEnd]
        ++ saveCalls (exampleDoc.insertText 0 1 ['x']))
      (KateUndoManager.new exampleDoc)).map
        (fun m => (m.m_document.texts, m.m_document.marks))
      = some ([['a', 'x', 'b']], [(false, true)]) ∧
    (runAll specOps
      ([Call.editStart, Call.slotTextInserted 0 1 ['x'],
          Call.documentChanged (exampleDoc.insertText 0 1 ['x']), Call.editEnd]
        ++ saveCalls (exampleDoc.insertText 0 1 ['x']) ++ [Call.undo])
      (KateUndoManager.new exampleDoc)).map
        (fun m => (m.m_document.texts, m.m_document.marks))
      = some ([['a', 'b']], [(true, false)]) ∧
    (runAll specOps
      ([Call.editStart, Call.slotTextInserted 0 1 ['x'],
          Call.documentChanged (exampleDoc.insertText 0 1 ['x']), Call.editEnd]
        ++ saveCalls (exampleDoc.insertText 0 1 ['x']) ++ [Call.undo, Call.redo])
      (KateUndoManager.new exampleDoc)).map
        (fun m => (m.m_document.texts, m.m_document.marks))
      = some ([['a', 'x', 'b']], [(false, true)]) := by
  decide

/-- C21 (amended): a line is made modified by one recorded text insertion, in a bracket of its
own started with an empty undo stack, and the document is saved (`setModified(false)`, modified
lines marked saved, `updateLineModifications()`), the replay being the one modelled from the
specification.  After the save the line is modified=false, savedOnDisk=true; `undo()` gives
back the text before the insertion and leaves the line modified=true, savedOnDisk=false, the
other lines being as after the save; `redo()` gives the lines as they were after the save, the
line modified=false, savedOnDisk=true. -/
theorem save_makes_edit_the_baseline (m0 : KateUndoManager) (line col : Int) (s : QString)
    (tl : TextLine)
    (hact : m0.m_isActive = true) (hopen : m0.m_editCurrentUndo = none)
    (hu : m0.undoItems = []) (hline : m0.m_document.plainKateTextLine line = some tl)
    (hs : s ≠ []) (hc : 0 ≤ col) (hle : col ≤ tl.length) :
    ∃ sv u v,
      runAll specOps
        ([Call.editStart, Call.slotTextInserted line col s,
            Call.documentChanged (m0.m_document.insertText line col s), Call.editEnd]
          ++ saveCalls (m0.m_document.insertText line col s)) m0 = some sv ∧
      sv.m_document.plainKateTextLine line =
        some { tl with
          text := tl.text.take col.toNat ++ s ++ tl.text.drop col.toNat
          markedAsModified := false, markedAsSavedOnDisk := true } ∧
      sv.undo specOps = some u ∧
      u.m_document.plainKateTextLine line =
        some { tl with markedAsModified := true, markedAsSavedOnDisk := false } ∧
      u.m_document.textLines =
        modifyAt (fun l => { l with
            text := tl.text, markedAsModified := true, markedAsSavedOnDisk := false })
          line.toNat sv.m_document.textLines ∧
      u.redo specOps = some v ∧
      v.m_document.textLines = sv.m_document.textLines ∧
      v.m_document.plainKateTextLine line =
        some { tl with
          text := tl.text.take col.toNat ++ s ++ tl.text.drop col.toNat
          markedAsModified := false, markedAsSavedOnDisk := true } := by
  obtain ⟨sv, u, v, hrun, hsl, hundo, hut, hredo, hvt⟩ :=
    saved_insertText_round m0 line col s tl hact hopen hu hline hs hc hle
  refine ⟨sv, u, v, hrun, hsl, hundo, ?_, hut, hredo, hvt, ?_⟩
  · have h := plainKateTextLine_modifyAt sv.m_document u.m_document line _
      (fun l => { l with
        text := tl.text, markedAsModified := true, markedAsSavedOnDisk := false })
      hsl hut
    exact h
  · rw [plainKateTextLine_congr _ _ line hvt]
    exact hsl

/-- Witness for C21: 'x' is inserted at column 1 of the unflagged line "ab" of a new manager. -/
theorem save_makes_edit_the_baseline_witness :
    ∃ sv u v,
      runAll specOps
        ([Call.editStart, Call.slotTextInserted 0 1 ['x'],
            Call.documentChanged (exampleDoc.insertText 0 1 ['x']), Call.editEnd]
          ++ saveCalls (exampleDoc.insertText 0 1 ['x'])) (KateUndoManager.new exampleDoc)
        = some sv ∧
      sv.m_document.plainKateTextLine 0 = some ⟨['a', 'x', 'b'], false, true, false⟩ ∧
      sv.undo specOps = some u ∧
      u.m_document.plainKateTextLine 0 = some ⟨['a', 'b'], true, false, false⟩ ∧
      u.m_document.textLines =
        modifyAt (fun l => { l with
            text := ['a', 'b'], markedAsModified := true, markedAsSavedOnDisk := false })
          0 sv.m_document.textLines ∧
      u.redo specOps = some v ∧
      v.m_document.textLines = sv.m_document.textLines ∧
      v.m_document.plainKateTextLine 0 = some ⟨['a', 'x', 'b'], false, true, false⟩ :=
  save_makes_edit_the_baseline (KateUndoManager.new exampleDoc) 0 1 ['x']
    ⟨['a', 'b'], false, false, false⟩ rfl rfl rfl rfl (by decide) (by decide) (by decide)

/-! ## C22: the save point is the new baseline -/

theorem any_itemsNearerTop (stack : List KateUndoGroup) (g : KateUndoGroup) (i k : Nat)
    (p : UndoItem → Bool) :
    (itemsNearerTop stack g i k).any p =
      ((g.items.drop (k + 1)).any p || (stack.drop (i + 1)).any (fun g3 => g3.items.any p)) := by
  unfold itemsNearerTop
  rw [List.any_append]
  congr 1
  induction stack.drop (i + 1) with
  | nil => rfl
  | cons a rest ih => simp only [List.map_cons, List.flatten_cons, List.any_append, ih,
      List.any_cons]

/-- C22: after a save that follows a recorded text insertion or removal in a line
(`setModified(false)`, modified lines marked saved on disk, then `updateLineModifications()`),
the edit being in a bracket of its own started with an empty undo stack and the replay being
the one modelled from the specification: the line is modified=false, savedOnDisk=true; `undo()`
gives back the text before the edit and makes the line modified=true, savedOnDisk=false;
`redo()` makes it modified=false, savedOnDisk=true again.  The flags after
`updateLineModifications()`, for every manager: in an item of the undo stack every
undo-direction flag `Saved` has become `Modified`, and a redo-direction flag (`Modified` or
`Saved` before) is `Saved` if no item nearer the top of the undo stack carries a redo-direction
flag for the same line, `Modified` otherwise; in an item of the redo stack the same holds with
the two directions exchanged; nothing else changes. -/
theorem save_point_is_new_baseline (line col : Int) (s : QString) (tl : TextLine)
    (hs : s ≠ []) (hc : 0 ≤ col) (hle : col ≤ tl.length) :
    (∀ m0 : KateUndoManager, m0.m_isActive = true → m0.m_editCurrentUndo = none →
      m0.undoItems = [] → m0.m_document.plainKateTextLine line = some tl →
      ∃ sv u v,
        runAll specOps
          ([Call.editStart, Call.slotTextInserted line col s,
              Call.documentChanged (m0.m_document.insertText line col s), Call.editEnd]
            ++ saveCalls (m0.m_document.insertText line col s)) m0 = some sv ∧
        sv.m_document.plainKateTextLine line =
          some { tl with
            text := tl.text.take col.toNat ++ s ++ tl.text.drop col.toNat
            markedAsModified := false, markedAsSavedOnDisk := true } ∧
        sv.undo specOps = some u ∧
        u.m_document.plainKateTextLine line =
          some { tl with markedAsModified := true, markedAsSavedOnDisk := false } ∧
        u.redo specOps = some v ∧
        v.m_document.plainKateTextLine line =
          some { tl with
            text := tl.text.take col.toNat ++ s ++ tl.text.drop col.toNat
            markedAsModified := false, markedAsSavedOnDisk := true }) ∧
    (∀ m0 : KateUndoManager, m0.m_isActive = true → m0.m_editCurrentUndo = none →
      m0.undoItems = [] → m0.m_document.plainKateTextLine line = some tl →
      (tl.text.drop col.toNat).take s.length = s →
      ∃ sv u v,
        runAll specOps
          ([Call.editStart, Call.slotTextRemoved line col s,
              Call.documentChanged (m0.m_document.removeText line col s.length), Call.editEnd]
            ++ saveCalls (m0.m_document.removeText line col s.length)) m0 = some sv ∧
        sv.m_document.plainKateTextLine line =
          some { tl with
            text := tl.text.take col.toNat ++ tl.text.drop (col.toNat + s.length)
            markedAsModified := false, markedAsSavedOnDisk := true } ∧
        sv.undo specOps = some u ∧
        u.m_document.plainKateTextLine line =
          some { tl with markedAsModified := true, markedAsSavedOnDisk := false } ∧
        u.redo specOps = some v ∧
        v.m_document.plainKateTextLine line =
          some { tl with
            text := tl.text.take col.toNat ++ tl.text.drop (col.toNat + s.length)
            markedAsModified := false, markedAsSavedOnDisk := true }) ∧
    (∀ (m : KateUndoManager) (i k : Nat) (g : KateUndoGroup) (x : UndoItem),
      m.undoItems.get? i = some g → g.items.get? k = some x → 0 ≤ x.line →
      ∃ g2, (m.updateLineModifications specOps).undoItems.get? i = some g2 ∧
        { g2 with items := g.items } = g ∧ g2.items.length = g.items.length ∧
        g2.items.get? k =
          some { x with lineModFlags :=
            { UndoLine1Modified :=
                x.lineModFlags.UndoLine1Modified || x.lineModFlags.UndoLine1Saved
              UndoLine2Modified :=
                x.lineModFlags.UndoLine2Modified || x.lineModFlags.UndoLine2Saved
              UndoLine1Saved := false
              UndoLine2Saved := false
              RedoLine1Modified :=
                (x.lineModFlags.RedoLine1Modified || x.lineModFlags.RedoLine1Saved) &&
                  (itemsNearerTop m.undoItems g i k).any (fun z => z.touchesRedo x.line)
              RedoLine2Modified :=
                (x.lineModFlags.RedoLine2Modified || x.lineModFlags.RedoLine2Saved) &&
                  (itemsNearerTop m.undoItems g i k).any (fun z => z.touchesRedo (x.line + 1))
              RedoLine1Saved :=
                (x.lineModFlags.RedoLine1Modified || x.lineModFlags.RedoLine1Saved) &&
                  !(itemsNearerTop m.undoItems g i k).any (fun z => z.touchesRedo x.line)
              RedoLine2Saved :=
                (x.lineModFlags.RedoLine2Modified || x.lineModFlags.RedoLine2Saved) &&
                  !(itemsNearerTop m.undoItems g i k).any
                    (fun z => z.touchesRedo (x.line + 1)) } }) ∧
    (∀ (m : KateUndoManager) (i k : Nat) (g : KateUndoGroup) (x : UndoItem),
      m.redoItems.get? i = some g → g.items.get? k = some x → 0 ≤ x.line →
      ∃ g2, (m.updateLineModifications specOps).redoItems.get? i = some g2 ∧
        { g2 with items := g.items } = g ∧ g2.items.length = g.items.length ∧
        g2.items.get? k =
          some { x with lineModFlags :=
            { RedoLine1Modified :=
                x.lineModFlags.RedoLine1Modified || x.lineModFlags.RedoLine1Saved
              RedoLine2Modified :=
                x.lineModFlags.RedoLine2Modified || x.lineModFlags.RedoLine2Saved
              RedoLine1Saved := false
              RedoLine2Saved := false
              UndoLine1Modified :=
                (x.lineModFlags.UndoLine1Modified || x.lineModFlags.UndoLine1Saved) &&
                  (itemsNearerTop m.redoItems g i k).any (fun z => z.touchesUndo x.line)
              UndoLine2Modified :=
                (x.lineModFlags.UndoLine2Modified || x.lineModFlags.UndoLine2Saved) &&
                  (itemsNearerTop m.redoItems g i k).any (fun z => z.touchesUndo (x.line + 1))
              UndoLine1Saved :=
                (x.lineModFlags.UndoLine1Modified || x.lineModFlags.UndoLine1Saved) &&
                  !(itemsNearerTop m.redoItems g i k).any (fun z => z.touchesUndo x.line)
              UndoLine2Saved :=
                (x.lineModFlags.UndoLine2Modified || x.lineModFlags.UndoLine2Saved) &&
                  !(itemsNearerTop m.redoItems g i k).any
                    (fun z => z.touchesUndo (x.line + 1)) } }) ∧
    (∀ m : KateUndoManager,
      (m.updateLineModifications specOps).undoItems.length = m.undoItems.length ∧
      (m.updateLineModifications specOps).redoItems.length = m.redoItems.length ∧
      { m.updateLineModifications specOps with
          undoItems := m.undoItems, redoItems := m.redoItems } = m) := by
  refine ⟨?_, ?_, ?_, ?_, ?_⟩
  · intro m0 hact hopen hu hline
    obtain ⟨sv, u, v, hrun, hsl, hundo, hut, hredo, hvt⟩ :=
      saved_insertText_round m0 line col s tl hact hopen hu hline hs hc hle
    have h := plainKateTextLine_modifyAt sv.m_document u.m_document line _
      (fun l => { l with
        text := tl.text, markedAsModified := true, markedAsSavedOnDisk := false })
      hsl hut
    exact ⟨sv, u, v, hrun, hsl, hundo, h, hredo,
      (plainKateTextLine_congr _ _ line hvt).trans hsl⟩
  · intro m0 hact hopen hu hline hrem
    obtain ⟨sv, u, v, hrun, hsl, hundo, hut, hredo, hvt⟩ :=
      saved_removeText_round m0 line col s tl hact hopen hu hline hs hc hle hrem
    have h := plainKateTextLine_modifyAt sv.m_document u.m_document line _
      (fun l => { l with
        text := tl.text, markedAsModified := true, markedAsSavedOnDisk := false })
      hsl hut
    exact ⟨sv, u, v, hrun, hsl, hundo, h, hredo,
      (plainKateTextLine_congr _ _ line hvt).trans hsl⟩
  · intro m i k g x hg hx h0
    obtain ⟨g2, h1, h2, h3, h4⟩ := updateLineModifications_undo_item m i k g x hg hx h0
    refine ⟨g2, h1, h2, h3, ?_⟩
    rw [h4, any_itemsNearerTop, any_itemsNearerTop]
    rfl
  · intro m i k g x hg hx h0
    obtain ⟨g2, h1, h2, h3, h4⟩ := updateLineModifications_redo_item m i k g x hg hx h0
    refine ⟨g2, h1, h2, h3, ?_⟩
    rw [h4, any_itemsNearerTop, any_itemsNearerTop]
    rfl
  · intro m
    refine ⟨?_, ?_, rfl⟩
    · simp [updateLineModifications, sweepBackward_length]
    · simp [updateLineModifications, sweepBackward_length]

/-- Witness for C22: 'b' is removed at column 1 of the unflagged line "ab" of a new manager and
the document is saved; and `updateLineModifications()` in the state `twoEditsState`, where the
item nearer the top of the undo stack gets the redo-direction flag `Saved` for line 0 and the
other item keeps `Modified`. -/
theorem save_point_is_new_baseline_witness :
    (∃ sv u v,
      runAll specOps
        ([Call.editStart, Call.slotTextRemoved 0 1 ['b'],
            Call.documentChanged (exampleDoc.removeText 0 1 1), Call.editEnd]
          ++ saveCalls (exampleDoc.removeText 0 1 1)) (KateUndoManager.new exampleDoc)
        = some sv ∧
      sv.m_document.plainKateTextLine 0 = some ⟨['a'], false, true, false⟩ ∧
      sv.undo specOps = some u ∧
      u.m_document.plainKateTextLine 0 = some ⟨['a', 'b'], true, false, false⟩ ∧
      u.redo specOps = some v ∧
      v.m_document.plainKateTextLine 0 = some ⟨['a'], false, true, false⟩) ∧
    (∃ g2, (twoEditsState.updateLineModifications specOps).undoItems.get? 0 = some g2 ∧
      { g2 with items := [textItem UndoType.editInsertText 0 0 ['x'] false] } =
        groupOf [textItem UndoType.editInsertText 0 0 ['x'] false] ∧
      g2.items.length = 1 ∧
      g2.items.get? 0 =
        some { textItem UndoType.editInsertText 0 0 ['x'] false with
          lineModFlags :=
            { ModificationFlags.none with UndoLine1Modified := true, RedoLine1Modified := true } }) ∧
    (∃ g2, (twoEditsState.updateLineModifications specOps).undoItems.get? 1 = some g2 ∧
      { g2 with items := [textItem UndoType.editInsertText 0 1 ['y'] true] } =
        groupOf [textItem UndoType.editInsertText 0 1 ['y'] true] ∧
      g2.items.length = 1 ∧
      g2.items.get? 0 =
        some { textItem UndoType.editInsertText 0 1 ['y'] true with
          lineModFlags :=
            { ModificationFlags.none with UndoLine1Modified := true, RedoLine1Saved := true } }) :=
  ⟨(save_point_is_new_baseline 0 1 ['b'] ⟨['a', 'b'], false, false, false⟩ (by decide)
      (by decide) (by decide)).2.1 (KateUndoManager.new exampleDoc) rfl rfl rfl rfl rfl,
   (save_point_is_new_baseline 0 1 ['b'] ⟨['a', 'b'], false, false, false⟩ (by decide)
      (by decide) (by decide)).2.2.1 twoEditsState 0 0
      (groupOf [textItem UndoType.editInsertText 0 0 ['x'] false])
      (textItem UndoType.editInsertText 0 0 ['x'] false) rfl rfl (by decide),
   (save_point_is_new_baseline 0 1 ['b'] ⟨['a', 'b'], false, false, false⟩ (by decide)
      (by decide) (by decide)).2.2.1 twoEditsState 1 0
      (groupOf [textItem UndoType.editInsertText 0 1 ['y'] true])
      (textItem UndoType.editInsertText 0 1 ['y'] true) rfl rfl (by decide)⟩

/-! ## C23: the comparison operators of `MovingCursor` -/

/-- C23: the comparison operators of `MovingCursor` are those of the lexicographic order on
(line, column): for two cursors exactly one of `c1 < c2`, `c1 == c2`, `c1 > c2` holds; `c1 > c2`
if and only if `line1 > line2`, or `line1 == line2` and `column1 > column2`, and `c1 < c2`
likewise; `c1 <= c2` if and only if `c1 < c2` or `c1 == c2`; `c1 >= c2` if and only if `c1 > c2`
or `c1 == c2`; `c1 != c2` if and only if not `c1 == c2`; and a valid cursor is never equal to an
invalid one. -/
theorem movingCursor_comparisons (c1 c2 : MovingCursor) :
    ((c1.lt c2 = true ∧ c1.eq c2 = false ∧ c1.gt c2 = false) ∨
     (c1.lt c2 = false ∧ c1.eq c2 = true ∧ c1.gt c2 = false) ∨
     (c1.lt c2 = false ∧ c1.eq c2 = false ∧ c1.gt c2 = true)) ∧
    (c1.gt c2 = true ↔
      c1.line > c2.line ∨ (c1.line = c2.line ∧ c1.column > c2.column)) ∧
    (c1.lt c2 = true ↔
      c1.line < c2.line ∨ (c1.line = c2.line ∧ c1.column < c2.column)) ∧
    (c1.eq c2 = true ↔ c1 = c2) ∧
    (c1.le c2 = true ↔ (c1.lt c2 = true ∨ c1.eq c2 = true)) ∧
    (c1.ge c2 = true ↔ (c1.gt c2 = true ∨ c1.eq c2 = true)) ∧
    (c1.ne c2 = true ↔ ¬ (c1.eq c2 = true)) ∧
    (c1.isValid = true → c2.isValid = false → c1.eq c2 = false ∧ c2.eq c1 = false) := by
  obtain ⟨l1, k1⟩ := c1
  obtain ⟨l2, k2⟩ := c2
  simp only [MovingCursor.lt, MovingCursor.le, MovingCursor.gt, MovingCursor.ge, MovingCursor.eq,
    MovingCursor.ne, MovingCursor.isValid, MovingCursor.mk.injEq, Bool.not_eq_true',
    Bool.or_eq_true, Bool.and_eq_true, Bool.or_eq_false_iff, Bool.and_eq_false_imp,
    decide_eq_true_eq, decide_eq_false_iff_not, Bool.not_eq_false', Bool.not_eq_true]
  refine ⟨?_, ?_, ?_, ?_, ?_, ?_, ?_, ?_⟩ <;> first | omega | tauto

/-- Witness for C23: the valid cursor (1, 2) and the invalid cursor (-1, -1) are not equal. -/
theorem movingCursor_comparisons_witness :
    MovingCursor.eq ⟨1, 2⟩ ⟨-1, -1⟩ = false ∧ MovingCursor.eq ⟨-1, -1⟩ ⟨1, 2⟩ = false :=
  (movingCursor_comparisons ⟨1, 2⟩ ⟨-1, -1⟩).2.2.2.2.2.2.2 (by decide) (by decide)

/-! ## Lemmas on the pattern of `updateModified()` -/

theorem currentPattern_sum (m : KateUndoManager) :
    m.currentPattern =
      (decide (m.undoItems = [])).toNat + 2 * (decide (m.redoItems = [])).toNat
        + 4 * m.docWasSavedWhenUndoWasEmpty.toNat + 8 * m.docWasSavedWhenRedoWasEmpty.toNat
        + 16 * (decide (m.lastUndoGroupWhenSaved = m.undoLast)).toNat
        + 32 * (decide (m.lastUndoGroupWhenSaved = m.redoLast)).toNat
        + 64 * (decide (m.lastRedoGroupWhenSaved = m.undoLast)).toNat
        + 128 * (decide (m.lastRedoGroupWhenSaved = m.redoLast)).toNat := by
  have h := pattern_bits (decide (m.undoItems = [])) (decide (m.redoItems = []))
    m.docWasSavedWhenUndoWasEmpty m.docWasSavedWhenRedoWasEmpty
    (decide (m.lastUndoGroupWhenSaved = m.undoLast))
    (decide (m.lastUndoGroupWhenSaved = m.redoLast))
    (decide (m.lastRedoGroupWhenSaved = m.undoLast))
    (decide (m.lastRedoGroupWhenSaved = m.redoLast))
  rw [← h]
  simp only [currentPattern, List.isEmpty_iff, decide_eq_true_eq]

/-- The entries of the table, read bit by bit. -/
theorem table_bits (b1 b2 b3 b4 b5 b6 b7 b8 : Bool)
    (h : b1.toNat + 2 * b2.toNat + 4 * b3.toNat + 8 * b4.toNat + 16 * b5.toNat + 32 * b6.toNat
      + 64 * b7.toNat + 128 * b8.toNat ∈ patterns) :
    (b1 = true → b3 = true) ∧ (b1 = false → b5 = true ∧ b3 = false) ∧
    (b2 = true → b4 = true) ∧ (b1 = false ∨ b2 = false) := by
  revert h
  revert b1 b2 b3 b4 b5 b6 b7 b8
  decide

/-! ## C24: returning to the save point -/

/-- The save-point bookkeeping written by `setModified(false)`. -/
theorem setModified_false_fields (m : KateUndoManager) :
    (m.setModified false).lastUndoGroupWhenSaved =
      (if m.undoItems = [] then m.lastUndoGroupWhenSaved
       else some (GroupPtr.undoSlot (m.undoItems.length - 1))) ∧
    (m.setModified false).lastRedoGroupWhenSaved =
      (if m.redoItems = [] then m.lastRedoGroupWhenSaved
       else some (GroupPtr.redoSlot (m.redoItems.length - 1))) ∧
    (m.setModified false).docWasSavedWhenUndoWasEmpty = decide (m.undoItems = []) ∧
    (m.setModified false).docWasSavedWhenRedoWasEmpty = decide (m.redoItems = []) := by
  obtain ⟨doc, cm, act, cur, ui, ri, lu, lr, wu, wr, su, sr, ck, em⟩ := m
  cases ui <;> cases ri <;> simp [setModified]

/-- The pattern found by the `undo()` that follows `setModified(false)` is not in the table. -/
theorem pattern_after_save_undo (m : KateUndoManager) (u : List KateUndoGroup)
    (g : KateUndoGroup) (doc : Document) (em : List Signal) (hu : m.undoItems = u ++ [g]) :
    ({ m.setModified false with
        m_document := doc, redoItems := (m.setModified false).redoItems ++ [g], undoItems := u,
        emitted := em }).currentPattern ∉ patterns := by
  intro h
  rw [currentPattern_sum] at h
  have hb := table_bits _ _ _ _ _ _ _ _ h
  obtain ⟨h1, h2, _, _⟩ := hb
  obtain ⟨h5, _, h3, _⟩ := setModified_false_fields m
  simp only [hu, List.append_eq_nil, List.cons_ne_self, and_false, if_false, decide_False,
    List.length_append, List.length_singleton, Nat.add_sub_cancel, reduceCtorEq] at h3 h5
  by_cases hue : u = []
  · have := h1 (by simp [hue])
    simp only at this
    rw [h3] at this
    exact absurd this (by simp)
  · have := (h2 (by simp [hue])).1
    simp only [decide_eq_true_eq, h5, undoLast] at this
    have hne : u.isEmpty = false := by simp [hue]
    simp only [hne, Bool.false_eq_true, if_false, Option.some.injEq,
      GroupPtr.undoSlot.injEq] at this
    have : 0 < u.length := List.length_pos.mpr hue
    omega

/-- The pattern found by the `redo()` that follows is in the table. -/
theorem pattern_after_save_undo_redo (m : KateUndoManager) (u : List KateUndoGroup)
    (g : KateUndoGroup) (doc : Document) (em : List Signal) (hu : m.undoItems = u ++ [g]) :
    ({ m.setModified false with
        m_document := doc, undoItems := u ++ [g], redoItems := m.redoItems,
        emitted := em }).currentPattern ∈ patterns := by
  rw [currentPattern_sum]
  obtain ⟨h5, h6, h3, h4⟩ := setModified_false_fields m
  simp only [hu, List.append_eq_nil, List.cons_ne_self, and_false, if_false, decide_False,
    List.length_append, List.length_singleton, Nat.add_sub_cancel, reduceCtorEq] at h3 h5
  have hr : (m.setModified false).redoItems = m.redoItems := setModified_redoItems m false
  simp only [h3, h4, h5, h6, hr, undoLast, redoLast, List.isEmpty_iff, List.append_eq_nil,
    List.cons_ne_self, and_false, if_false, decide_False, List.length_append,
    List.length_singleton, Nat.add_sub_cancel, reduceCtorEq, decide_True]
  by_cases hre : m.redoItems = []
  · simp only [hre, if_true, decide_True, reduceCtorEq, decide_False]
    rcases hp : m.lastRedoGroupWhenSaved with _ | p
    · simp
      decide
    · by_cases hq : p = GroupPtr.undoSlot u.length
      · subst hq
        simp
        decide
      · simp [hq]
        decide
  · simp [hre]
    decide

/-- C24: for every state with no open group and a non-empty undo stack, after
`setModified(false)` the pattern found by the `undo()` that follows is not in the table, so
that `undo()` leaves the document, its modified flag included, as the replay of the group left
it; and the pattern found by the `redo()` that follows it is in the table, so that `redo()`
clears the modified flag, whatever the redo stack and the older save-point bookkeeping are. -/
theorem save_point_recognised (ops : GroupOps) (m : KateUndoManager) (u : List KateUndoGroup)
    (g : KateUndoGroup) (hopen : m.m_editCurrentUndo = none) (hu : m.undoItems = u ++ [g]) :
    ∃ m2 m3,
      (m.setModified false).undo ops = some m2 ∧
      ({ m.setModified false with
          m_document := ops.undo g m.m_document
          redoItems := m.redoItems ++ [g]
          undoItems := u
          emitted := m.emitted ++ [Signal.undoStart] }).currentPattern ∉ patterns ∧
      m2.m_document = ops.undo g m.m_document ∧
      m2.undoItems = u ∧ m2.redoItems = m.redoItems ++ [g] ∧
      m2.redo ops = some m3 ∧
      ({ m2 with
          m_document := ops.redo g m2.m_document
          undoItems := u ++ [g]
          redoItems := m.redoItems
          emitted := m2.emitted ++ [Signal.redoStart] }).currentPattern ∈ patterns ∧
      m3.m_document = { ops.redo g m2.m_document with modified := false } ∧
      m3.m_document.modified = false ∧
      m3.undoItems = u ++ [g.markSafePoint] ∧ m3.redoItems = m.redoItems := by
  have hc1 : (m.setModified false).m_editCurrentUndo = none := by simpa using hopen
  have hu1 : (m.setModified false).undoItems = u ++ [g] := by simpa using hu
  have hundo := undo_of_concat ops (m.setModified false) u g hc1 hu1
  have hp1 := pattern_after_save_undo m u g (ops.undo g (m.setModified false).m_document)
    ((m.setModified false).emitted ++ [Signal.undoStart]) hu
  have hx : updateModified
      { m.setModified false with
        m_document := ops.undo g (m.setModified false).m_document
        redoItems := (m.setModified false).redoItems ++ [g]
        undoItems := u
        emitted := (m.setModified false).emitted ++ [Signal.undoStart] } =
      { m.setModified false with
        m_document := ops.undo g (m.setModified false).m_document
        redoItems := (m.setModified false).redoItems ++ [g]
        undoItems := u
        emitted := (m.setModified false).emitted ++ [Signal.undoStart] } := by
    unfold updateModified
    rw [if_neg hp1]
  rw [hx] at hundo
  have hd : (m.setModified false).m_document = m.m_document := setModified_document m false
  have hr : (m.setModified false).redoItems = m.redoItems := setModified_redoItems m false
  have he : (m.setModified false).emitted = m.emitted := setModified_emitted m false
  rw [hd, hr, he] at hundo hp1
  let X : KateUndoManager :=
    { m.setModified false with
      m_document := ops.undo g m.m_document
      redoItems := m.redoItems ++ [g]
      undoItems := u
      emitted := m.emitted ++ [Signal.undoStart] }
  let m2 : KateUndoManager := emit X Signal.undoEnd
  let Y : KateUndoManager :=
    { m2 with
      m_document := ops.redo g m2.m_document
      undoItems := u ++ [g]
      redoItems := m.redoItems
      emitted := m2.emitted ++ [Signal.redoStart] }
  have hredo : m2.redo ops = some (emit (updateModified Y) Signal.redoEnd) :=
    redo_of_concat ops m2 m.redoItems g hc1 rfl
  have hp2 : Y.currentPattern ∈ patterns :=
    pattern_after_save_undo_redo m u g (ops.redo g m2.m_document)
      (m2.emitted ++ [Signal.redoStart]) hu
  have hy : updateModified Y = undoSafePoint (documentSetModified Y false) := by
    unfold updateModified
    rw [if_pos hp2]
  refine ⟨m2, emit (updateModified Y) Signal.redoEnd, hundo, hp1, rfl, rfl, rfl, hredo, hp2,
    ?_, ?_, ?_, ?_⟩
  · rw [emit_document, hy, undoSafePoint_document, documentSetModified_document]
  · rw [emit_document, hy, undoSafePoint_document, documentSetModified_document]
  · rw [emit_undoItems, hy, undoSafePoint_undoItems_of_closed _
        (by rw [documentSetModified_editCurrentUndo]; exact hc1),
      documentSetModified_undoItems]
    exact modifyBack_concat _ _ _
  · rw [emit_redoItems, updateModified_redoItems]

/-- Witness for C24: a manager with one recorded group, marked saved, then `undo()` and
`redo()`. -/
theorem save_point_recognised_witness :
    ∃ m2 m3,
      (firstGroupState.setModified false).undo specOps = some m2 ∧
      m2.m_document = specOps.undo (groupOf [itemL1]) firstGroupState.m_document ∧
      m2.undoItems = [] ∧ m2.redoItems = [groupOf [itemL1]] ∧
      m2.redo specOps = some m3 ∧
      m3.m_document.modified = false ∧
      m3.undoItems = [(groupOf [itemL1]).markSafePoint] ∧ m3.redoItems = [] :=
  match save_point_recognised specOps firstGroupState [] (groupOf [itemL1]) rfl rfl with
  | ⟨m2, m3, h1, _, h3, h4, h5, h6, _, _, h9, h10, h11⟩ =>
    ⟨m2, m3, h1, h3, h4, h5, h6, h9, h10, h11⟩

/-! ## C25: soundness of the pattern table -/

/-- C25: whenever the pattern of `updateModified()` is in the table, so that the modified flag
is cleared, the undo side matches the save point: either the undo stack is not empty and
`lastUndoGroupWhenSaved` is its top (and `docWasSavedWhenUndoWasEmpty` is false), or the undo
stack is empty and `docWasSavedWhenUndoWasEmpty` is true; if the redo stack is empty then
`docWasSavedWhenRedoWasEmpty` is true; and the two stacks are not both empty.  In the table every
value with bit value 1 has bit value 4, every value without bit value 1 has bit value 16 and not
bit value 4, every value with bit value 2 has bit value 8, and no value has both bit values 1
and 2. -/
theorem pattern_table_sound (m : KateUndoManager) (h : m.currentPattern ∈ patterns) :
    m.updateModified.m_document.modified = false ∧
    ((m.undoItems ≠ [] ∧ m.lastUndoGroupWhenSaved = m.undoLast ∧
        m.docWasSavedWhenUndoWasEmpty = false) ∨
      (m.undoItems = [] ∧ m.docWasSavedWhenUndoWasEmpty = true)) ∧
    (m.redoItems = [] → m.docWasSavedWhenRedoWasEmpty = true) ∧
    (m.undoItems ≠ [] ∨ m.redoItems ≠ []) ∧
    (∀ p ∈ patterns,
      (p &&& 1 = 1 → p &&& 4 = 4) ∧ (p &&& 1 = 0 → p &&& 16 = 16 ∧ p &&& 4 = 0) ∧
      (p &&& 2 = 2 → p &&& 8 = 8) ∧ ¬ (p &&& 1 = 1 ∧ p &&& 2 = 2)) := by
  have hb := table_bits _ _ _ _ _ _ _ _ (currentPattern_sum m ▸ h)
  simp only [decide_eq_true_eq, decide_eq_false_iff_not] at hb
  obtain ⟨h1, h2, h3, h4⟩ := hb
  refine ⟨by simp [updateModified, h], ?_, h3, ?_, by decide⟩
  · by_cases hu : m.undoItems = []
    · exact Or.inr ⟨hu, h1 hu⟩
    · exact Or.inl ⟨hu, (h2 hu).1, (h2 hu).2⟩
  · rcases h4 with h4 | h4
    · exact Or.inl h4
    · exact Or.inr h4

/-- Witness for C25: a state just marked saved with one group on the undo stack (pattern
154). -/
theorem pattern_table_sound_witness :
    justSavedState.updateModified.m_document.modified = false ∧
    justSavedState.undoItems ≠ [] ∧
    justSavedState.lastUndoGroupWhenSaved = justSavedState.undoLast ∧
    justSavedState.docWasSavedWhenRedoWasEmpty = true :=
  have h := pattern_table_sound justSavedState (by decide)
  ⟨h.1, by decide, by decide, h.2.2.1 (by decide)⟩

/-! ## C26: `undo()` followed by `redo()` -/

theorem undo_step (ops : GroupOps) (m : KateUndoManager) (u : List KateUndoGroup)
    (g : KateUndoGroup) (hopen : m.m_editCurrentUndo = none) (hu : m.undoItems = u ++ [g]) :
    ∃ m2, m.undo ops = some m2 ∧ m2.m_editCurrentUndo = none ∧
      m2.redoItems = m.redoItems ++ [g] ∧
      (m2.undoItems = u ∨ m2.undoItems = modifyBack KateUndoGroup.markSafePoint u) := by
  refine ⟨_, undo_of_concat ops m u g hopen hu, ?_, by simp, ?_⟩
  · rw [emit_editCurrentUndo]
    exact updateModified_editCurrentUndo_of_closed _ hopen
  · have h := updateModified_undoItems_of_closed
      { m with m_document := ops.undo g m.m_document
               redoItems := m.redoItems ++ [g]
               undoItems := u
               emitted := m.emitted ++ [Signal.undoStart] } hopen
    rw [emit_undoItems]
    rcases h with h | ⟨_, h⟩
    · exact Or.inl h
    · exact Or.inr h

theorem redo_step (ops : GroupOps) (m : KateUndoManager) (r : List KateUndoGroup)
    (g : KateUndoGroup) (hopen : m.m_editCurrentUndo = none) (hr : m.redoItems = r ++ [g]) :
    ∃ m2, m.redo ops = some m2 ∧ m2.m_editCurrentUndo = none ∧ m2.redoItems = r ∧
      (m2.undoItems = m.undoItems ++ [g] ∨
        m2.undoItems = m.undoItems ++ [g.markSafePoint]) := by
  refine ⟨_, redo_of_concat ops m r g hopen hr, ?_, by simp, ?_⟩
  · rw [emit_editCurrentUndo]
    exact updateModified_editCurrentUndo_of_closed _ hopen
  · have h := updateModified_undoItems_of_closed
      { m with m_document := ops.redo g m.m_document
               undoItems := m.undoItems ++ [g]
               redoItems := r
               emitted := m.emitted ++ [Signal.redoStart] } hopen
    rw [emit_undoItems]
    rcases h with h | ⟨_, h⟩
    · exact Or.inl h
    · exact Or.inr (by rw [h]; exact modifyBack_concat _ _ _)

theorem modifyBack_markSafePoint_map (u : List KateUndoGroup) :
    (modifyBack KateUndoGroup.markSafePoint u).map KateUndoGroup.markSafePoint =
      u.map KateUndoGroup.markSafePoint := by
  rcases List.eq_nil_or_concat u with rfl | ⟨u0, g, rfl⟩
  · rfl
  · rw [List.concat_eq_append, modifyBack_concat]
    simp [KateUndoGroup.markSafePoint]

/-- C26 (counterexample): in the state `firstGroupState` marked saved (one group `g` on the undo
stack, not a safe point, no group open), `undo()` followed by `redo()` leaves the group marked
as a safe point on the undo stack: the undo stack is not the one before. -/
theorem undo_redo_changes_top_group :
    (firstGroupState.setModified false).m_editCurrentUndo = none ∧
    (firstGroupState.setModified false).undoItems = [groupOf [itemL1]] ∧
    (((firstGroupState.setModified false).undo specOps).bind (redo specOps)).map
        (fun m => m.undoItems) = some [(groupOf [itemL1]).markSafePoint] ∧
    (groupOf [itemL1]).markSafePoint ≠ groupOf [itemL1] := by
  decide

/-- C26 (amended): for every state with no open group, undo stack `u ++ [g]` and redo stack `r`,
`undo()` followed by `redo()` leaves the redo stack `r` and an undo stack `u2 ++ [g2]` in which
`u2` is `u`, possibly with its top group marked as a safe point, and `g2` is `g`, possibly
marked as a safe point: the same groups in the same order up to safe-point marks.  Likewise
`redo()` followed by `undo()` from the undo stack `u` and the redo stack `r ++ [g]`.  Every
`undo()` and every `redo()` preserves `undoCount() + redoCount()`. -/
theorem undo_redo_round_trip (ops : GroupOps) (m : KateUndoManager) (u r : List KateUndoGroup)
    (g : KateUndoGroup) (hopen : m.m_editCurrentUndo = none) :
    (m.undoItems = u ++ [g] → m.redoItems = r →
      ∃ m2 m3 u2 g2, m.undo ops = some m2 ∧ m2.redo ops = some m3 ∧
        m3.redoItems = r ∧ m3.undoItems = u2 ++ [g2] ∧
        (u2 = u ∨ u2 = modifyBack KateUndoGroup.markSafePoint u) ∧
        (g2 = g ∨ g2 = g.markSafePoint) ∧
        m3.undoItems.map KateUndoGroup.markSafePoint =
          m.undoItems.map KateUndoGroup.markSafePoint) ∧
    (m.undoItems = u → m.redoItems = r ++ [g] →
      ∃ m2 m3 g2, m.redo ops = some m2 ∧ m2.undo ops = some m3 ∧
        m3.redoItems = r ++ [g2] ∧ (g2 = g ∨ g2 = g.markSafePoint) ∧
        (m3.undoItems = u ∨ m3.undoItems = modifyBack KateUndoGroup.markSafePoint u) ∧
        m3.undoItems.map KateUndoGroup.markSafePoint =
          m.undoItems.map KateUndoGroup.markSafePoint) ∧
    (∀ m2, m.undo ops = some m2 →
      m2.undoCount + m2.redoCount = m.undoCount + m.redoCount) ∧
    (∀ m2, m.redo ops = some m2 →
      m2.undoCount + m2.redoCount = m.undoCount + m.redoCount) := by
  refine ⟨?_, ?_, ?_, ?_⟩
  · intro hu hr
    obtain ⟨m2, h2, hc2, hr2, hu2⟩ := undo_step ops m u g hopen hu
    obtain ⟨m3, h3, _, hr3, hu3⟩ := redo_step ops m2 r g hc2 (by rw [hr2, hr])
    have hmap : m3.undoItems.map KateUndoGroup.markSafePoint =
        m.undoItems.map KateUndoGroup.markSafePoint := by
      rw [hu]
      rcases hu3 with h | h <;> rcases hu2 with h' | h' <;> rw [h, h'] <;>
        simp [modifyBack_markSafePoint_map, KateUndoGroup.markSafePoint]
    rcases hu3 with h | h
    · exact ⟨m2, m3, m2.undoItems, g, h2, h3, hr3, h, hu2, Or.inl rfl, hmap⟩
    · exact ⟨m2, m3, m2.undoItems, g.markSafePoint, h2, h3, hr3, h, hu2, Or.inr rfl, hmap⟩
  · intro hu hr
    obtain ⟨m2, h2, hc2, hr2, hu2⟩ := redo_step ops m r g hopen hr
    rcases hu2 with hu2 | hu2
    · obtain ⟨m3, h3, _, hr3, hu3⟩ := undo_step ops m2 m.undoItems g hc2 hu2
      refine ⟨m2, m3, g, h2, h3, by rw [hr3, hr2], Or.inl rfl, by rw [← hu]; exact hu3, ?_⟩
      rcases hu3 with h | h <;> rw [h]
      exact modifyBack_markSafePoint_map _
    · obtain ⟨m3, h3, _, hr3, hu3⟩ := undo_step ops m2 m.undoItems g.markSafePoint hc2 hu2
      refine ⟨m2, m3, g.markSafePoint, h2, h3, by rw [hr3, hr2], Or.inr rfl,
        by rw [← hu]; exact hu3, ?_⟩
      rcases hu3 with h | h <;> rw [h]
      exact modifyBack_markSafePoint_map _
  · intro m2 h
    rcases List.eq_nil_or_concat m.undoItems with he | ⟨u0, g0, he⟩
    · have : m.undo ops = some m := by simp [undo, hopen, he]
      rw [this] at h
      cases h
      rfl
    · rw [List.concat_eq_append] at he
      obtain ⟨m2', h2, _, hr2, hu2⟩ := undo_step ops m u0 g0 hopen he
      rw [h2] at h
      cases h
      simp only [undoCount, redoCount, hr2, he, List.length_append, List.length_singleton]
      rcases hu2 with h | h <;> rw [h]
      · omega
      · rw [modifyBack_length]; omega
  · intro m2 h
    rcases List.eq_nil_or_concat m.redoItems with he | ⟨r0, g0, he⟩
    · have : m.redo ops = some m := by simp [redo, hopen, he]
      rw [this] at h
      cases h
      rfl
    · rw [List.concat_eq_append] at he
      obtain ⟨m2', h2, _, hr2, hu2⟩ := redo_step ops m r0 g0 hopen he
      rw [h2] at h
      cases h
      simp only [undoCount, redoCount, hr2, he, List.length_append, List.length_singleton]
      rcases hu2 with h | h <;> rw [h] <;> simp <;> omega

/-- Witness for C26: the round trip of the counterexample. -/
theorem undo_redo_round_trip_witness :
    ∃ m2 m3 u2 g2, (firstGroupState.setModified false).undo specOps = some m2 ∧
      m2.redo specOps = some m3 ∧
      m3.redoItems = [] ∧ m3.undoItems = u2 ++ [g2] ∧
      (u2 = [] ∨ u2 = modifyBack KateUndoGroup.markSafePoint []) ∧
      (g2 = groupOf [itemL1] ∨ g2 = (groupOf [itemL1]).markSafePoint) ∧
      m3.undoItems.map KateUndoGroup.markSafePoint =
        (firstGroupState.setModified false).undoItems.map KateUndoGroup.markSafePoint :=
  (undo_redo_round_trip specOps (firstGroupState.setModified false) [] [] (groupOf [itemL1])
    rfl).1 rfl rfl

/-! ## C27: a group is open only inside a bracket of an active manager -/

/-- One call opens a group only if it is `editStart()` on an active manager, closes the open
group only if it is `editEnd()` on an active manager, and otherwise leaves a group open exactly
when one was open before. -/
theorem group_step (ops : GroupOps) (c : Call) (m m2 : KateUndoManager)
    (h : run ops c m = some m2) :
    m2.m_editCurrentUndo.isSome = m.m_editCurrentUndo.isSome ∨
    (c = Call.editStart ∧ m.m_isActive = true ∧ m.m_editCurrentUndo = none ∧
      m2.m_editCurrentUndo ≠ none) ∨
    (c = Call.editEnd ∧ m.m_isActive = true ∧ m.m_editCurrentUndo ≠ none ∧
      m2.m_editCurrentUndo = none) := by
  cases hn : c.isNotification with
  | true =>
    rcases notification_cases ops c m m2 hn h with rfl | ⟨g, item, hg, rfl⟩
    · exact Or.inl rfl
    · exact Or.inl (by simp [hg])
  | false =>
    cases c <;> simp only [Call.isNotification, Bool.true_eq_false] at hn <;>
      simp only [run] at h
    case editStart =>
      rcases editStart_cases m m2 h with ⟨_, rfl⟩ | ⟨ha, hc, hg, _⟩
      · exact Or.inl rfl
      · exact Or.inr (Or.inl ⟨rfl, ha, hc, by simp [hg]⟩)
    case editEnd =>
      rcases editEnd_cases ops m m2 h with ⟨_, rfl⟩ | ⟨ha, hc, hg, _⟩
      · exact Or.inl rfl
      · exact Or.inr (Or.inr ⟨rfl, ha, hc, hg⟩)
    case undoCancel =>
      cases h
      unfold undoCancel
      split
      · exact Or.inl rfl
      · left
        rw [undoSafePoint_editCurrentUndo]
        cases m.m_editCurrentUndo <;> rfl
    case undoSafePoint =>
      cases h
      left
      rw [undoSafePoint_editCurrentUndo]
      cases m.m_editCurrentUndo <;> rfl
    case setActive b =>
      obtain ⟨_, _, rfl⟩ := setActive_cases m m2 b h
      exact Or.inl (by simp)
    case undo =>
      obtain ⟨h1, h2, _⟩ := undo_cases ops m m2 h
      exact Or.inl (by rw [h1, h2])
    case redo =>
      obtain ⟨h1, h2, _⟩ := redo_cases ops m m2 h
      exact Or.inl (by rw [h1, h2])
    case updateModified =>
      cases h
      left
      unfold updateModified
      split
      · rw [undoSafePoint_editCurrentUndo, documentSetModified_editCurrentUndo]
        cases m.m_editCurrentUndo <;> rfl
      · rfl
    case clearUndo => cases h; exact Or.inl (by simp [clearUndo])
    case clearRedo => cases h; exact Or.inl (by simp [clearRedo])
    case setModified b => cases h; exact Or.inl (by simp)
    case updateLineModifications => cases h; exact Or.inl rfl
    case setUndoRedoCursorsOfLastGroup u r =>
      unfold setUndoRedoCursorsOfLastGroup at h
      split at h
      · exact absurd h (by simp)
      · cases h; exact Or.inl rfl
    case updateConfig => cases h; exact Or.inl (by simp [updateConfig])
    case setAllowComplexMerge b => cases h; exact Or.inl rfl
    case startUndo =>
      unfold startUndo at h
      cases hs : m.setActive false with
      | none => simp [hs] at h
      | some m1 =>
        simp only [hs, Option.some_bind] at h
        obtain ⟨hc, _, rfl⟩ := setActive_cases m m1 false hs
        rcases editStart_cases _ m2 h with ⟨_, rfl⟩ | ⟨ha, _⟩
        · exact Or.inl (by simp)
        · simp [emit] at ha
    case endUndo =>
      unfold endUndo at h
      cases hs : m.editEnd ops with
      | none => simp [hs] at h
      | some m1 =>
        simp only [hs, Option.some_bind] at h
        obtain ⟨hc, hne, rfl⟩ := setActive_cases m1 m2 true h
        rcases editEnd_cases ops m m1 hs with ⟨_, rfl⟩ | ⟨_, _, _, ha, _⟩
        · exact Or.inl (by simp)
        · exact absurd ha hne
    case aboutToReload => cases h; exact Or.inl rfl
    case loaded doc =>
      cases h
      left
      unfold loaded
      simp only
      split <;> rfl
    case documentChanged doc => cases h; exact Or.inl rfl

/-- C27: in every reachable state of the manager (assertions as preconditions), if `isActive` is
false then no group is open; a call opens a group only if it is `editStart()` executed while the
manager is active, a call closes the open group only if it is `editEnd()` executed while the
manager is active, every other call leaves a group open exactly when one was open before; and
after every `editEnd()` executed while active no group is open. -/
theorem group_open_only_in_active_bracket (ops : GroupOps) (m : KateUndoManager)
    (hreach : Reachable ops m) :
    (m.m_isActive = false → m.m_editCurrentUndo = none) ∧
    (∀ c m2, run ops c m = some m2 →
      m2.m_editCurrentUndo.isSome = m.m_editCurrentUndo.isSome ∨
      (c = Call.editStart ∧ m.m_isActive = true ∧ m.m_editCurrentUndo = none ∧
        m2.m_editCurrentUndo ≠ none) ∨
      (c = Call.editEnd ∧ m.m_isActive = true ∧ m.m_editCurrentUndo ≠ none ∧
        m2.m_editCurrentUndo = none)) ∧
    (∀ m2, m.m_isActive = true → m.editEnd ops = some m2 → m2.m_editCurrentUndo = none) ∧
    (∀ m2, m.m_isActive = true → m.m_editCurrentUndo = none → m.editStart = some m2 →
      m2.m_editCurrentUndo ≠ none) := by
  refine ⟨(reachable_inv ops m hreach).1, fun c m2 h => group_step ops c m m2 h, ?_, ?_⟩
  · intro m2 ha h
    rcases editEnd_cases ops m m2 h with ⟨hi, _⟩ | ⟨_, _, hg, _⟩
    · rw [ha] at hi
      exact absurd hi (by simp)
    · exact hg
  · intro m2 ha _ h
    rcases editStart_cases m m2 h with ⟨hi, _⟩ | ⟨_, _, hg, _⟩
    · rw [ha] at hi
      exact absurd hi (by simp)
    · simp [hg]

/-- Witness for C27: a new manager made inactive is reachable, is not active and has no open
group. -/
theorem group_open_only_in_active_bracket_witness :
    inactiveState.m_isActive = false ∧ inactiveState.m_editCurrentUndo = none :=
  ⟨rfl,
   (group_open_only_in_active_bracket specOps inactiveState
      (reachable_runAll specOps [Call.setActive false] _ _ (Reachable.init exampleDoc)
        (by decide) (by decide))).1 rfl⟩

theorem slotLineUnWrapped_item (ops : GroupOps) (m : KateUndoManager) (g : KateUndoGroup)
    (line col length : Int) (lineRemoved : Bool) (tl nextLine : TextLine)
    (hopen : m.m_editCurrentUndo = some g)
    (hline : m.m_document.plainKateTextLine line = some tl)
    (hnext : m.m_document.plainKateTextLine (line + 1) = some nextLine) :
    m.slotLineUnWrapped ops line col length lineRemoved =
      some { m with
        m_editCurrentUndo := some (ops.addItem g
          { type := UndoType.editUnWrapLine, line := line, col := col, text := [],
            autowrapped := false, newLine := false, removeLine := lineRemoved, len := length,
            lineModFlags := unwrapLineFlags tl nextLine })
        redoItems := [] } := by
  unfold unwrapLineFlags
  generalize hn1 : tl.length = len1
  generalize hn2 : nextLine.length = len2
  obtain ⟨t1, M1, S1, aw1⟩ := tl
  obtain ⟨t2, M2, S2, aw2⟩ := nextLine
  simp only [slotLineUnWrapped, hopen, hline, hnext, addUndoItem, Option.isNone_some,
    Bool.false_eq_true, if_false, hn1, hn2]
  by_cases h1 : 0 < len1 ∧ 0 < len2
  · cases M1 <;> cases M2 <;>
      simp [h1, UndoItem.setFlag, ModificationFlags.setFlag, UndoItem.default,
        ModificationFlags.none]
  · by_cases h2 : len1 = 0
    · cases M1 <;> cases M2 <;> cases S2 <;>
        simp [h1, h2, UndoItem.setFlag, ModificationFlags.setFlag, UndoItem.default,
          ModificationFlags.none]
    · cases M1 <;> cases M2 <;> cases S1 <;> cases S2 <;>
        simp [h1, h2, UndoItem.setFlag, ModificationFlags.setFlag, UndoItem.default,
          ModificationFlags.none]

/-! ## C28: the flags of a recorded item are consistent -/

/-- C28: a notification received while a group is open either records nothing (a text
notification with empty text) or hands exactly one item to the open group, and the flags of that
item are consistent: in each of the four slots (undo line 1, undo line 2, redo line 1, redo
line 2) at most one of Modified and Saved is set, whatever the marks of the lines read (a line
marked both modified and saved on disk included); an item of a text or line insertion or removal
carries no line-2 flag, a wrap item no undo-line-2 flag, an unwrap item no redo-line-2 flag, and
an autowrap-mark item no flag at all. -/
theorem recorded_flags_consistent (ops : GroupOps) (c : Call) (m m2 : KateUndoManager)
    (g : KateUndoGroup) (hc : c.isNotification = true) (hopen : m.m_editCurrentUndo = some g)
    (h : run ops c m = some m2) :
    (m2 = m ∧ ∃ line col, c = Call.slotTextInserted line col [] ∨
        c = Call.slotTextRemoved line col []) ∨
    ∃ item : UndoItem,
      m2 = { m with m_editCurrentUndo := some (ops.addItem g item), redoItems := [] } ∧
      (item.lineModFlags.UndoLine1Modified && item.lineModFlags.UndoLine1Saved) = false ∧
      (item.lineModFlags.UndoLine2Modified && item.lineModFlags.UndoLine2Saved) = false ∧
      (item.lineModFlags.RedoLine1Modified && item.lineModFlags.RedoLine1Saved) = false ∧
      (item.lineModFlags.RedoLine2Modified && item.lineModFlags.RedoLine2Saved) = false ∧
      ((item.type = UndoType.editInsertText ∨ item.type = UndoType.editRemoveText ∨
          item.type = UndoType.editInsertLine ∨ item.type = UndoType.editRemoveLine) →
        item.lineModFlags.UndoLine2Modified = false ∧ item.lineModFlags.UndoLine2Saved = false ∧
        item.lineModFlags.RedoLine2Modified = false ∧ item.lineModFlags.RedoLine2Saved = false) ∧
      (item.type = UndoType.editWrapLine →
        item.lineModFlags.UndoLine2Modified = false ∧ item.lineModFlags.UndoLine2Saved = false) ∧
      (item.type = UndoType.editUnWrapLine →
        item.lineModFlags.RedoLine2Modified = false ∧ item.lineModFlags.RedoLine2Saved = false) ∧
      (item.type = UndoType.editMarkLineAutoWrapped →
        item.lineModFlags = ModificationFlags.none) ∧
      item.type ≠ UndoType.editInvalid := by
  cases c <;> simp only [Call.isNotification, Bool.false_eq_true] at hc <;> simp only [run] at h
  case slotTextInserted line col s =>
    by_cases hs : s = []
    · subst hs
      left
      simp only [slotTextInserted, List.isEmpty_nil, Bool.or_true, if_true,
        Option.some.injEq] at h
      exact ⟨h.symm, line, col, Or.inl rfl⟩
    · right
      cases htl : m.m_document.plainKateTextLine line with
      | none => simp [slotTextInserted, hopen, hs, htl] at h
      | some tl =>
        rw [slotTextInserted_item ops m g line col s tl hopen hs htl] at h
        refine ⟨_, (Option.some.inj h).symm, ?_⟩
        cases tl.markedAsModified <;> simp [textItem, ModificationFlags.none]
  case slotTextRemoved line col s =>
    by_cases hs : s = []
    · subst hs
      left
      simp only [slotTextRemoved, List.isEmpty_nil, Bool.or_true, if_true,
        Option.some.injEq] at h
      exact ⟨h.symm, line, col, Or.inr rfl⟩
    · right
      cases htl : m.m_document.plainKateTextLine line with
      | none => simp [slotTextRemoved, hopen, hs, htl] at h
      | some tl =>
        rw [slotTextRemoved_item ops m g line col s tl hopen hs htl] at h
        refine ⟨_, (Option.some.inj h).symm, ?_⟩
        cases tl.markedAsModified <;> simp [textItem, ModificationFlags.none]
  case slotMarkLineAutoWrapped line b =>
    right
    simp only [slotMarkLineAutoWrapped, hopen, addUndoItem, Option.isSome_some, if_true,
      Option.some.injEq] at h
    exact ⟨_, h.symm, by simp [UndoItem.default, ModificationFlags.none]⟩
  case slotLineWrapped line col length newLine =>
    right
    cases htl : m.m_document.plainKateTextLine line with
    | none => simp [slotLineWrapped, hopen, htl] at h
    | some tl =>
      rw [slotLineWrapped_item ops m g line col length newLine tl hopen htl] at h
      refine ⟨_, (Option.some.inj h).symm, ?_⟩
      simp only [wrapLineItem]
      generalize decide (0 < length) = b1
      generalize decide (0 < col) = b2
      generalize decide (length = 0) = b3
      generalize tl.markedAsModified = M
      generalize tl.markedAsSavedOnDisk = S
      revert b1 b2 b3 M S
      decide
  case slotLineUnWrapped line col length removed =>
    right
    cases htl : m.m_document.plainKateTextLine line with
    | none => simp [slotLineUnWrapped, hopen, htl] at h
    | some tl =>
      cases hnx : m.m_document.plainKateTextLine (line + 1) with
      | none => simp [slotLineUnWrapped, hopen, htl, hnx] at h
      | some nextLine =>
        rw [slotLineUnWrapped_item ops m g line col length removed tl nextLine hopen htl hnx] at h
        refine ⟨_, (Option.some.inj h).symm, ?_⟩
        simp only [unwrapLineFlags]
        generalize tl.markedAsModified = M1
        generalize tl.markedAsSavedOnDisk = S1
        generalize nextLine.markedAsModified = M2
        generalize nextLine.markedAsSavedOnDisk = S2
        split
        · cases M1 <;> cases M2 <;> simp
        · split
          · cases M1 <;> cases M2 <;> cases S2 <;> simp
          · cases M1 <;> cases M2 <;> cases S1 <;> cases S2 <;> simp
  case slotLineInserted line s =>
    right
    rw [slotLineInserted_item ops m g line s hopen] at h
    exact ⟨_, (Option.some.inj h).symm, by simp [insertLineItem, ModificationFlags.none]⟩
  case slotLineRemoved line s =>
    right
    cases htl : m.m_document.plainKateTextLine line with
    | none => simp [slotLineRemoved, hopen, htl] at h
    | some tl =>
      rw [slotLineRemoved_item ops m g line s tl hopen htl] at h
      refine ⟨_, (Option.some.inj h).symm, ?_⟩
      cases tl.markedAsModified <;> simp [removeLineItem, ModificationFlags.none]

/-- Witness for C28: the notification of a wrap of line 0 at column 2, received in the state
`wrapOpenState`. -/
theorem recorded_flags_consistent_witness :
    ∃ item : UndoItem,
      wrapRecordedState =
        { wrapOpenState with
          m_editCurrentUndo := some (specOps.addItem (groupOf []) item), redoItems := [] } ∧
      (item.lineModFlags.UndoLine1Modified && item.lineModFlags.UndoLine1Saved) = false ∧
      (item.lineModFlags.UndoLine2Modified && item.lineModFlags.UndoLine2Saved) = false ∧
      (item.lineModFlags.RedoLine1Modified && item.lineModFlags.RedoLine1Saved) = false ∧
      (item.lineModFlags.RedoLine2Modified && item.lineModFlags.RedoLine2Saved) = false :=
  match (recorded_flags_consistent specOps (Call.slotLineWrapped 0 2 2 true) wrapOpenState
      wrapRecordedState (groupOf []) rfl rfl (by decide)) with
  | Or.inl ⟨_, _, _, h⟩ => by rcases h with h | h <;> cases h
  | Or.inr ⟨item, h1, h2, h3, h4, h5, _⟩ => ⟨item, h1, h2, h3, h4, h5⟩

/-! ## C29: `lastRedoCursor()` -/

/-- C29 (the code departs from the claim): `lastRedoCursor()` reads the redo cursor of the top
undo group and drops it; whatever `setUndoRedoCursorsOfLastGroup(u, r)` stored, it returns the
invalid cursor.  In the state `justSavedState` (one group on the undo stack, no group open)
`setUndoRedoCursorsOfLastGroup((0, 0), (1, 2))` stores the redo cursor (1, 2) in the top group
and `lastRedoCursor()` then returns (-1, -1). -/
theorem lastRedoCursor_returns_invalid :
    (∀ (m : KateUndoManager) (u r : Cursor),
      (m.setUndoRedoCursorsOfLastGroup u r).bind lastRedoCursor =
        if m.m_editCurrentUndo.isSome then none else some Cursor.invalid) ∧
    (justSavedState.setUndoRedoCursorsOfLastGroup ⟨0, 0⟩ ⟨1, 2⟩).map
        (fun m => (m.undoItems.map KateUndoGroup.redoCursor, m.lastRedoCursor))
      = some ([⟨1, 2⟩], some ⟨-1, -1⟩) ∧
    justSavedState.undoItems ≠ [] ∧ justSavedState.m_editCurrentUndo = none := by
  refine ⟨?_, by decide, by decide, by decide⟩
  intro m u r
  unfold setUndoRedoCursorsOfLastGroup
  split
  · rfl
  · next h => simp [lastRedoCursor, h]

/-! ## C30: the line feed after a line separator -/

/-- C30 (the code departs from the claim): the decoded text is a carriage return, a line
separator (U+2028) and a line feed: three line breaks, none of them a CR LF pair.  Three calls
of `readLine` return three lines (`eof()` is false before each call and true after the third):
the line feed is taken for the second half of a CR LF pair, since the line separator leaves
`m_lastWasR` set, and the end-of-line mode ends as DOS.  Without the carriage return the line
feed after the line separator does end a line of its own: two line breaks, three lines. -/
theorem readLine_line_feed_after_line_separator :
    (crLsLfLoader.readLine.bind fun p1 => p1.2.readLine.bind fun p2 => p2.2.readLine.map
        fun p3 => ([p1.1, p2.1, p3.1],
          [crLsLfLoader.eof, p1.2.eof, p2.2.eof, p3.2.eof], p3.2.m_eol))
      = some ([⟨true, 0, 0⟩, ⟨true, 1, 0⟩, ⟨true, 0, 0⟩], [false, false, false, true],
          EndOfLineMode.eolDos) ∧
    (crLsLfLoader.readLine.bind fun p1 => p1.2.readLine.map
        fun p2 => (p1.2.m_lastWasR, p2.2.m_lastWasR, p2.2.m_text.getD p2.2.m_position.toNat 'a'))
      = some (true, true, TextLoader.lf) ∧
    (lsLfLoader.readLine.bind fun p1 => p1.2.readLine.bind fun p2 => p2.2.readLine.map
        fun p3 => ([p1.1, p2.1, p3.1],
          [lsLfLoader.eof, p1.2.eof, p2.2.eof, p3.2.eof], p3.2.m_eol))
      = some ([⟨true, 0, 0⟩, ⟨true, 1, 0⟩, ⟨true, 0, 0⟩], [false, false, false, true],
          EndOfLineMode.eolUnix) := by
  decide

end KateUndo
